import Mathlib

/-!
Verification of the calm-dsl secret-stripping / patching utilities and related
CLI helpers, shallowly embedded from the Python sources:

  * calm/dsl/api/util.py              (strip_secrets, strip_vmware_secrets,
                                       patch_secrets, strip_patch_config_tasks)
  * calm/dsl/decompile/substrate.py   (get_provider_spec_string)
  * calm/dsl/providers/plugins/ahv_vm/main.py (AhvVmProvider.update_vm_image_config)
  * calm/dsl/cli/acps.py, calm/dsl/cli/mpis.py (CLI error handling)

JSON-like Python values are modelled by `JValue`; Python dicts are association
lists with string keys (payloads are parsed JSON, so keys are strings).  Code
that can raise a Python exception (KeyError, TypeError, AttributeError,
IndexError) is modelled in `Option`: `none` means the Python code raises.
-/

/-- JSON-like values as used by the payload-walking code.  `null` is Python's
`None`, `obj` is a dict with string keys, `arr` is a list. -/
inductive JValue where
  | null
  | bool (b : Bool)
  | int (n : Int)
  | str (s : String)
  | arr (elems : List JValue)
  | obj (fields : List (String × JValue))

abbrev JDict := List (String × JValue)

mutual

/-- Structural deep equality (Python `==` on JSON-like values); structurally
recursive so that it evaluates inside the kernel. -/
def JValue.beq : JValue → JValue → Bool
  | .null, .null => true
  | .bool x, .bool y => x == y
  | .int x, .int y => x == y
  | .str x, .str y => x == y
  | .arr xs, .arr ys => JValue.beqList xs ys
  | .obj fs, .obj gs => JValue.beqFields fs gs
  | _, _ => false
termination_by structural a => a

def JValue.beqList : List JValue → List JValue → Bool
  | [], [] => true
  | x :: xs, y :: ys => JValue.beq x y && JValue.beqList xs ys
  | _, _ => false
termination_by structural xs => xs

def JValue.beqFields : List (String × JValue) → List (String × JValue) → Bool
  | [], [] => true
  | (k, v) :: fs, (k', v') :: gs => k == k' && JValue.beq v v' && JValue.beqFields fs gs
  | _, _ => false
termination_by structural fs => fs

end

mutual

theorem JValue.beq_iff_eq : ∀ (a b : JValue), JValue.beq a b = true ↔ a = b
  | .null, b => by cases b <;> simp [JValue.beq]
  | .bool x, b => by cases b <;> simp [JValue.beq]
  | .int x, b => by cases b <;> simp [JValue.beq]
  | .str x, b => by cases b <;> simp [JValue.beq]
  | .arr xs, b => by
    cases b <;> simp [JValue.beq]
    exact JValue.beqList_iff_eq xs _
  | .obj fs, b => by
    cases b <;> simp [JValue.beq]
    exact JValue.beqFields_iff_eq fs _
termination_by structural a => a

theorem JValue.beqList_iff_eq : ∀ (xs ys : List JValue), JValue.beqList xs ys = true ↔ xs = ys
  | [], ys => by cases ys <;> simp [JValue.beqList]
  | x :: xs, ys => by
    cases ys with
    | nil => simp [JValue.beqList]
    | cons y ys' =>
      simp [JValue.beqList, JValue.beq_iff_eq x y, JValue.beqList_iff_eq xs ys']
termination_by structural xs => xs

theorem JValue.beqFields_iff_eq :
    ∀ (fs gs : List (String × JValue)), JValue.beqFields fs gs = true ↔ fs = gs
  | [], gs => by cases gs <;> simp [JValue.beqFields]
  | (k, v) :: fs, gs => by
    cases gs with
    | nil => simp [JValue.beqFields]
    | cons g gs' =>
      cases g with
      | mk k' v' =>
        simp [JValue.beqFields, JValue.beq_iff_eq v v', JValue.beqFields_iff_eq fs gs',
          Prod.ext_iff, and_assoc]
termination_by structural fs => fs

end

instance : DecidableEq JValue := fun a b => decidable_of_iff _ (JValue.beq_iff_eq a b)

/-- Python truthiness of a JSON-like value (`bool(x)`). -/
def JValue.truthy : JValue → Bool
  | .null => false
  | .bool b => b
  | .int n => n != 0
  | .str s => s ≠ ""
  | .arr xs => !xs.isEmpty
  | .obj fs => !fs.isEmpty

/-- `d[k]` lookup (first binding; Python dicts have unique keys). -/
def dictGet (d : JDict) (k : String) : Option JValue :=
  match d with
  | [] => none
  | (k', v) :: rest => if k' = k then some v else dictGet rest k

/-- `d.get(k, dflt)`. -/
def dictGetD (d : JDict) (k : String) (dflt : JValue) : JValue :=
  (dictGet d k).getD dflt

/-- `d[k] = v`: replace the first binding of `k`, or append. -/
def dictSet (d : JDict) (k : String) (v : JValue) : JDict :=
  match d with
  | [] => [(k, v)]
  | (k', v') :: rest => if k' = k then (k, v) :: rest else (k', v') :: dictSet rest k v

/-- `d.pop(k)` without default: the removed value (if present) and the rest. -/
def dictRemove (d : JDict) (k : String) : JDict :=
  match d with
  | [] => []
  | (k', v') :: rest => if k' = k then rest else (k', v') :: dictRemove rest k

/-- Dicts keyed by arbitrary (hashable) Python values, as used for
`secret_map` (keys are credential names / usernames taken from the payload). -/
abbrev JMap := List (JValue × JValue)

def jmapGet (m : JMap) (k : JValue) : Option JValue :=
  match m with
  | [] => none
  | (k', v) :: rest => if k' = k then some v else jmapGet rest k

def jmapSet (m : JMap) (k : JValue) (v : JValue) : JMap :=
  match m with
  | [] => [(k, v)]
  | (k', v') :: rest => if k' = k then (k, v) :: rest else (k', v') :: jmapSet rest k v

/-- A component of a payload path: a dict key or a list index. -/
inductive PathElem where
  | key (s : String)
  | idx (n : Nat)
deriving DecidableEq, Repr

abbrev JPath := List PathElem

/-- View a value as a dict, as Python code does when it subscripts or calls
`.get` on it; anything else raises (TypeError / AttributeError). -/
def asObj : JValue → Option JDict
  | .obj fs => some fs
  | _ => none

def asStr : JValue → Option String
  | .str s => some s
  | _ => none

/-- `d.get(k, {})` followed by dict use: missing key gives `{}`; a present
non-dict value (even a falsy one such as `None`) raises at the `.get`/`[]`
performed on it. -/
def getObjD (d : JDict) (k : String) : Option JDict :=
  match dictGet d k with
  | none => some []
  | some v => asObj v

/-- `d.get(k, {}) or {}` followed by dict use: a missing or falsy value gives
`{}`; a truthy non-dict raises when used as a dict. -/
def getObjOr (d : JDict) (k : String) : Option JDict :=
  match dictGet d k with
  | none => some []
  | some v => if v.truthy then asObj v else some []

/-- `d.get(k, []) or []` followed by iteration whose elements are used as
dicts: a missing or falsy value iterates nothing; a truthy non-list raises
(dict iteration yields string keys, string iteration yields characters, and
either raises as soon as an element is used as a dict). -/
def getListOr (d : JDict) (k : String) : Option (List JValue) :=
  match dictGet d k with
  | none => some []
  | some v =>
    if v.truthy then
      match v with
      | .arr xs => some xs
      | _ => none
    else some []

/-- `d.get(k, [])` followed by iteration whose elements are used as dicts:
missing gives `[]`; a present empty dict or empty string iterates nothing; a
present list iterates; any other present value raises (either not iterable,
or its elements raise when used as dicts). -/
def getListIter (d : JDict) (k : String) : Option (List JValue) :=
  match dictGet d k with
  | none => some []
  | some (.arr xs) => some xs
  | some (.obj []) => some []
  | some (.str "") => some []
  | some _ => none

/-- Write an elementwise-mutated list back: Python mutates the list object in
place, so the dict changes exactly when the original value was a list. -/
def setListBack (d : JDict) (k : String) (xs : List JValue) : JDict :=
  match dictGet d k with
  | some (.arr _) => dictSet d k (.arr xs)
  | _ => d

example : dictGet [("a", .int 1), ("b", .int 2)] "b" = some (.int 2) := by decide
example : dictSet [("a", .int 1)] "a" (.int 5) = [("a", .int 5)] := by decide
example : dictRemove [("a", .int 1), ("b", .int 2)] "a" = [("b", .int 2)] := by decide

/-! ## util.py: get_secrets_from_context / is_secret_modified -/

/-- The `decompiled_secrets` store: a dict from context strings to dicts of
secret name → decompiled value.  (The Python default is the empty list `[]`,
for which `context in decompiled_secrets` is always false; the empty store
models that case.) -/
abbrev Decompiled := List (String × JMap)

/-- `get_secrets_from_context`: the secrets recorded for `context`, or an
empty dict.  (The deep copy made by the Python code is invisible here.) -/
def get_secrets_from_context (decompiled_secrets : Decompiled) (context : String) : JMap :=
  match decompiled_secrets with
  | [] => []
  | (c, m) :: rest => if c = context then m else get_secrets_from_context rest context

/-- `is_secret_modified`: true iff the name is unknown to the filtered
decompiled secrets, or its recorded value differs from `value`. -/
def is_secret_modified (filtered_secrets : JMap) (name value : JValue) : Bool :=
  match jmapGet filtered_secrets name with
  | some v => !(JValue.beq v value)
  | none => true

/-! ## util.py: patch_secrets

`patch_secrets(resources, secret_map, secret_variables, existing_secrets=[])`
mutates `resources` in place; the embedding passes the document explicitly
and returns the updated document (`none` models a raised exception). -/

/-- The `for/else` assignment for an already-existing secret:
`variable["attrs"] = {"is_secret_modified": False}`. -/
def patchExistingUpd (fs : JDict) : JDict :=
  dictSet fs "attrs" (.obj [("is_secret_modified", .bool false)])

/-- The `for/else` assignment for a stripped secret:
`variable["attrs"] = {"is_secret_modified": True}; variable["value"] = secret`. -/
def patchSecretUpd (secret : JValue) (fs : JDict) : JDict :=
  dictSet (dictSet fs "attrs" (.obj [("is_secret_modified", .bool true)])) "value" secret

/-- The path-descent loop of `patch_secrets` (`for sub_path in path: ...
else: <assign>`): descend `path` through the document; if a dict lacks the
next component (including any integer component, since payload dicts have
string keys) the loop `break`s and nothing is assigned (result unchanged);
an out-of-range list index or a step through / final assignment on a
non-container raises (`none`); otherwise `upd` rewrites the dict reached at
the end of the path. -/
def patchWalk (upd : JDict → JDict) : JValue → JPath → Option JValue
  | .obj fs, [] => some (.obj (upd fs))
  | _, [] => none
  | .obj fs, .key k :: rest =>
    match dictGet fs k with
    | none => some (.obj fs)
    | some child =>
      match patchWalk upd child rest with
      | none => none
      | some c => some (.obj (dictSet fs k c))
  | .obj fs, .idx _ :: _ => some (.obj fs)
  | .arr xs, .idx i :: rest =>
    if h : i < xs.length then
      match patchWalk upd (xs.get ⟨i, h⟩) rest with
      | none => none
      | some c => some (.arr (xs.set i c))
    else none
  | .arr _, .key _ :: _ => none
  | _, _ => none
termination_by structural _x p => p

/-- One iteration of the `for cred in creds` loop of `patch_secrets`. -/
def patchCred (secret_map : JMap) (cred : JValue) : Option JValue := do
  let fs ← asObj cred
  let name ← dictGet fs "name"
  match jmapGet secret_map name with
  | some s => pure (.obj (dictSet fs "secret" s))
  | none => pure (.obj fs)

def patchCredsLoop (secret_map : JMap) : List JValue → Option (List JValue)
  | [] => some []
  | c :: cs => do
    let c' ← patchCred secret_map c
    let cs' ← patchCredsLoop secret_map cs
    pure (c' :: cs')

/-- The credential and HTTP-endpoint stages of `patch_secrets` (everything
before the two path loops). -/
def patchCredsAuth (resources : JValue) (secret_map : JMap) : Option JValue := do
  let res ← asObj resources
  let creds ← getListIter res "credential_definition_list"
  let creds' ← patchCredsLoop secret_map creds
  let res := setListBack res "credential_definition_list" creds'
  let auth ← getObjD res "authentication"
  let username := dictGetD auth "username" (.str "")
  let auth' :=
    match username.truthy, jmapGet secret_map username with
    | true, some s => dictSet auth "password" s
    | _, _ => auth
  let res :=
    match dictGet res "authentication" with
    | some (.obj _) => dictSet res "authentication" (.obj auth')
    | _ => res
  pure (.obj res)

def applyExisting (doc : JValue) (entry : JPath × JValue) : Option JValue :=
  patchWalk patchExistingUpd doc entry.1

def applySecretVar (doc : JValue) (entry : JPath × JValue × JValue) : Option JValue :=
  patchWalk (patchSecretUpd entry.2.1) doc entry.1

def patchEntriesExisting : JValue → List (JPath × JValue) → Option JValue
  | doc, [] => some doc
  | doc, e :: es => do
    let doc' ← applyExisting doc e
    patchEntriesExisting doc' es

def patchEntriesSecretVars : JValue → List (JPath × JValue × JValue) → Option JValue
  | doc, [] => some doc
  | doc, e :: es => do
    let doc' ← applySecretVar doc e
    patchEntriesSecretVars doc' es

/-- `patch_secrets(resources, secret_map, secret_variables, existing_secrets)`. -/
def patch_secrets (resources : JValue) (secret_map : JMap)
    (secret_variables : List (JPath × JValue × JValue))
    (existing_secrets : List (JPath × JValue)) : Option JValue := do
  let d ← patchCredsAuth resources secret_map
  let d ← patchEntriesExisting d existing_secrets
  patchEntriesSecretVars d secret_variables

/-! ## util.py: strip_secrets

`strip_secrets` mutates `resources` in place, inserts credential secrets into
`secret_map`, and appends to `secret_variables` / `not_stripped_secrets`.
The embedding threads the document and the three collections explicitly and
returns the updated versions; `none` models a raised Python exception (the
partial in-place mutations preceding an exception are not modelled, no claim
concerns them). -/

/-- The mutable collections threaded through `strip_secrets`: `secret_map`,
`secret_variables` (entries `(path, value, name)`) and
`not_stripped_secrets` (entries `(path, value)`). -/
structure SSt where
  smap : JMap
  svars : List (JPath × JValue × JValue)
  nstrip : List (JPath × JValue)
deriving DecidableEq

/-- `cred["secret"] = {"attrs": {"is_secret_modified": False, "secret_reference": None}}`. -/
def credSecretPlaceholder : JValue :=
  .obj [("attrs", .obj [("is_secret_modified", .bool false), ("secret_reference", .null)])]

/-- `auth["password"] = {"attrs": {"is_secret_modified": False, "value": None}}`
(HTTP endpoint credentials in `strip_secrets`). -/
def endpointPwdPlaceholder : JValue :=
  .obj [("attrs", .obj [("is_secret_modified", .bool false), ("value", .null)])]

/-- `variable["attrs"] = {"is_secret_modified": False, "secret_reference": None}`
(stripped SECRET variables in `strip_entity_secret_variables`). -/
def varAttrsPlaceholder : JValue :=
  .obj [("is_secret_modified", .bool false), ("secret_reference", .null)]

/-- `basic_auth["password"] = {"value": None, "attrs": {"is_secret_modified": False}}`
(dynamic-variable http-task auth in `strip_entity_secret_variables`). -/
def optionsPwdPlaceholder : JValue :=
  .obj [("value", .null), ("attrs", .obj [("is_secret_modified", .bool false)])]

/-- `auth["basic_auth"]["password"] = {"attrs": {"is_secret_modified": False,
"secret_reference": None}}` (HTTP tasks in `strip_action_secret_variables`). -/
def taskPwdPlaceholder : JValue :=
  .obj [("attrs", .obj [("is_secret_modified", .bool false), ("secret_reference", .null)])]

/-- `auth["password"] = {"attrs": {"is_secret_modified": False}}`
(`strip_authentication_secret_variables`). -/
def authPwdPlaceholder : JValue :=
  .obj [("attrs", .obj [("is_secret_modified", .bool false)])]

/-- The context update at the top of `strip_entity_secret_variables`:
`if field_name != "headers" and obj.get("name", None): context = context +
"." + obj["name"] + "." + field_name`.  Concatenating a truthy non-string
name raises. -/
def entityContext (field_name context : String) (obj : JDict) : Option String :=
  if field_name ≠ "headers" then
    match dictGet obj "name" with
    | some v =>
      if v.truthy then
        match v with
        | .str s => some (context ++ "." ++ s ++ "." ++ field_name)
        | _ => none
      else some context
    | none => some context
  else some context

/-- The tail of the variable loop body: `opts = variable.get("options",
None); ... if auth and auth.get("auth_type") == "basic": ...` (detaching the
basic-auth password of a dynamic variable's http task). -/
def stripVariableOptionsAuth (path_list : JPath) (field_name : String)
    (var_idx : Nat) (fs : JDict) (st : SSt) : Option (JValue × SSt) := do
  let opts := dictGetD fs "options" .null                -- variable.get("options", None)
  if opts.truthy then do
    let optsD ← asObj opts
    let attrs := dictGetD optsD "attrs" .null
    if attrs.truthy then do
      let attrsD ← asObj attrs
      let auth := dictGetD attrsD "authentication" .null
      if auth.truthy then do
        let authD ← asObj auth
        if dictGetD authD "auth_type" .null = .str "basic" then do
          let basicD ← (dictGet authD "basic_auth").getD .null |> asObj
          let username := dictGetD basicD "username" .null   -- basic_auth.get("username")
          let password ← dictGet basicD "password"           -- basic_auth.pop("password")
          let basicD := dictRemove basicD "password"
          let pwD ← asObj password                           -- password.get("value", None)
          let st := { st with svars := st.svars ++
            [(path_list ++ [.key field_name, .idx var_idx, .key "options", .key "attrs",
              .key "authentication", .key "basic_auth", .key "password"],
              dictGetD pwD "value" .null, username)] }
          let basicD := dictSet basicD "password" optionsPwdPlaceholder
          let authD := dictSet authD "basic_auth" (.obj basicD)
          let attrsD := dictSet attrsD "authentication" (.obj authD)
          let optsD := dictSet optsD "attrs" (.obj attrsD)
          pure (.obj (dictSet fs "options" (.obj optsD)), st)
        else pure (.obj fs, st)
      else pure (.obj fs, st)
    else pure (.obj fs, st)
  else pure (.obj fs, st)

/-- One iteration of the variable loop of `strip_entity_secret_variables`:
the SECRET branch (detach a modified value, or record an unmodified truthy
one in `not_stripped_secrets`) followed by the dynamic-variable options
branch. -/
def stripOneVariable (path_list : JPath) (field_name : String) (filtered : JMap)
    (var_idx : Nat) (var : JValue) (st : SSt) : Option (JValue × SSt) := do
  let fs ← asObj var
  let t ← dictGet fs "type"                              -- variable["type"]
  let (fs, st) ←
    if t = .str "SECRET" then
      let name := dictGetD fs "name" .null
      let value := dictGetD fs "value" .null
      if is_secret_modified filtered name value then do
        let popped ← dictGet fs "value"                  -- variable.pop("value")
        let fs := dictRemove fs "value"
        let st := { st with svars :=
          st.svars ++ [(path_list ++ [.key field_name, .idx var_idx], popped, name)] }
        pure (dictSet fs "attrs" varAttrsPlaceholder, st)
      else if value.truthy then
        pure (fs, { st with nstrip :=
          st.nstrip ++ [(path_list ++ [.key field_name, .idx var_idx], value)] })
      else pure (fs, st)
    else pure (fs, st)
  stripVariableOptionsAuth path_list field_name var_idx fs st

def stripVariablesLoop (path_list : JPath) (field_name : String) (filtered : JMap) :
    List JValue → Nat → SSt → Option (List JValue × SSt)
  | [], _, st => some ([], st)
  | v :: vs, idx, st => do
    let (v', st) ← stripOneVariable path_list field_name filtered idx v st
    let (vs', st) ← stripVariablesLoop path_list field_name filtered vs (idx + 1) st
    pure (v' :: vs', st)

/-- `strip_entity_secret_variables(path_list, obj, field_name, context)`. -/
def strip_entity_secret_variables (decompiled_secrets : Decompiled) (path_list : JPath)
    (obj : JDict) (st : SSt) (field_name : String) (context : String) :
    Option (JDict × SSt) := do
  let context ← entityContext field_name context obj
  let filtered := get_secrets_from_context decompiled_secrets context
  let vars ← getListOr obj field_name                 -- obj.get(field_name, []) or []
  let (vars', st) ← stripVariablesLoop path_list field_name filtered vars 0 st
  pure (setListBack obj field_name vars', st)

/-- `path_list[0]` used as the head of a context string; a non-string head
(or an empty path) raises when concatenated / subscripted. -/
def pathHeadStr : JPath → Option String
  | .key s :: _ => some s
  | _ => none

/-- `strip_authentication_secret_variables(path_list, obj, context)`. -/
def strip_authentication_secret_variables (decompiled_secrets : Decompiled)
    (path_list : JPath) (obj : JDict) (st : SSt) (context : String) :
    Option (JDict × SSt) := do
  -- context + "." + obj.get("name", "") + ".basic_auth"
  let nm ← match dictGet obj "name" with
    | none => pure ""
    | some (.str s) => pure s
    | some _ => none                               -- concatenation raises
  let basic_auth_context := context ++ "." ++ nm ++ ".basic_auth"
  let filtered := get_secrets_from_context decompiled_secrets basic_auth_context
  let auth ← getObjD obj "authentication"          -- obj.get("authentication", {})
  if dictGetD auth "auth_type" .null = .str "basic" then do
    let pw ← getObjD auth "password"               -- auth.get("password", {})
    let name := dictGetD pw "name" .null
    let value := dictGetD pw "value" .null
    if is_secret_modified filtered name value then do
      let pwReal ← (dictGet auth "password").getD .null |> asObj
      let popped ← dictGet pwReal "value"          -- auth["password"].pop("value")
      let st := { st with svars := st.svars ++
        [(path_list ++ [.key "authentication", .key "basic_auth", .key "password"],
          popped, name)] }
      let auth := dictSet auth "password" authPwdPlaceholder
      pure (dictSet obj "authentication" (.obj auth), st)
    else do
      -- elif auth.get("password", None).get("value", None):
      let pwReal ← (dictGet auth "password").getD .null |> asObj
      let v := dictGetD pwReal "value" .null
      if v.truthy then
        pure (obj, { st with nstrip := st.nstrip ++
          [(path_list ++ [.key "authentication", .key "basic_auth", .key "password"], v)] })
      else pure (obj, st)
  else pure (obj, st)

/-- The shared header-secrets tail of both task loops: `if not (task.get(
"attrs", {}) or {}).get("headers", []) or []: continue` followed by
`strip_entity_secret_variables(path, task["attrs"], field_name="headers")`. -/
def stripTaskHeadersTail (decompiled_secrets : Decompiled) (pl : JPath)
    (hctx : String) (fs : JDict) (st : SSt) : Option (JValue × SSt) := do
  let attrs2 ← getObjOr fs "attrs"
  let headers ← getListOr attrs2 "headers"
  if headers.isEmpty then pure (.obj fs, st) else do
    let attrsReal ← (dictGet fs "attrs").getD .null |> asObj     -- task["attrs"]
    let (attrs2, st) ← strip_entity_secret_variables decompiled_secrets pl
      attrsReal st "headers" hctx
    pure (.obj (dictSet fs "attrs" (.obj attrs2)), st)

/-- One HTTP task of the inner task loop of `strip_action_secret_variables`
(basic-auth password detachment, then header secrets). -/
def stripActionTask (decompiled_secrets : Decompiled) (path_list : JPath)
    (action_idx : Nat) (trctx : String) (task_idx : Nat) (task : JValue) (st : SSt) :
    Option (JValue × SSt) := do
  let fs ← asObj task
  if dictGetD fs "type" .null ≠ .str "HTTP" then pure (task, st) else do
  let attrs ← getObjOr fs "attrs"                  -- task.get("attrs", {}) or {}
  let auth ← getObjOr attrs "authentication"
  let tn ← (dictGet fs "name").bind asStr          -- task["name"]
  let nameCtx := trctx ++ "." ++ tn
  let basicCtx := trctx ++ "." ++ tn ++ ".basic_auth"
  let (fs, st) ←
    if dictGetD auth "auth_type" .null = .str "basic" then do
      let filtered := get_secrets_from_context decompiled_secrets basicCtx
      let ba ← getObjD auth "basic_auth"           -- auth.get("basic_auth", {})
      let username := dictGetD ba "username" .null
      let pwd ← getObjD ba "password"
      let pval := dictGetD pwd "value" .null
      if is_secret_modified filtered username pval then do
        let baReal ← (dictGet auth "basic_auth").getD .null |> asObj
        let pwdReal ← (dictGet baReal "password").getD .null |> asObj
        let popped ← dictGet pwdReal "value"       -- ...["password"].pop("value")
        let st := { st with svars := st.svars ++
          [(path_list ++ [.key "action_list", .idx action_idx, .key "runbook",
            .key "task_definition_list", .idx task_idx, .key "attrs",
            .key "authentication", .key "basic_auth", .key "password"],
            popped, username)] }
        let baReal := dictSet baReal "password" taskPwdPlaceholder
        let auth := dictSet auth "basic_auth" (.obj baReal)
        let attrs := dictSet attrs "authentication" (.obj auth)
        pure (dictSet fs "attrs" (.obj attrs), st)
      else do
        -- elif auth.get("basic_auth", None).get("password", None).get("value", None):
        let baReal ← (dictGet auth "basic_auth").getD .null |> asObj
        let pwdReal ← (dictGet baReal "password").getD .null |> asObj
        let v := dictGetD pwdReal "value" .null
        if v.truthy then
          pure (fs, { st with nstrip := st.nstrip ++
            [(path_list ++ [.key "action_list", .idx action_idx, .key "runbook",
              .key "task_definition_list", .idx task_idx, .key "attrs",
              .key "authentication", .key "basic_auth", .key "password"], v)] })
        else pure (fs, st)
    else pure (fs, st)
  -- http_task_headers = (task.get("attrs", {}) or {}).get("headers", []) or []
  stripTaskHeadersTail decompiled_secrets
    (path_list ++ [.key "action_list", .idx action_idx, .key "runbook",
      .key "task_definition_list", .idx task_idx, .key "attrs"])
    (nameCtx ++ ".headers") fs st

def stripActionTasksLoop (decompiled_secrets : Decompiled) (path_list : JPath)
    (action_idx : Nat) (trctx : String) :
    List JValue → Nat → SSt → Option (List JValue × SSt)
  | [], _, st => some ([], st)
  | t :: ts, idx, st => do
    let (t', st) ← stripActionTask decompiled_secrets path_list action_idx trctx idx t st
    let (ts', st) ← stripActionTasksLoop decompiled_secrets path_list action_idx trctx ts (idx + 1) st
    pure (t' :: ts', st)

/-- The action loop of `strip_action_secret_variables`.  Note the source says
`return` (not `continue`) for an action without a runbook, so the remaining
actions are left unvisited. -/
def stripActionsLoop (decompiled_secrets : Decompiled) (path_list : JPath)
    (context : String) : List JValue → Nat → SSt → Option (List JValue × SSt)
  | [], _, st => some ([], st)
  | a :: rest, idx, st => do
    let af ← asObj a
    let an ← (dictGet af "name").bind asStr      -- action["name"]
    let var_context := context ++ "." ++ an
    let rb ← getObjOr af "runbook"               -- action.get("runbook", {}) or {}
    let var_runbook_context := var_context ++ ".runbook"
    if rb.isEmpty then
      pure (a :: rest, st)                       -- `if not runbook: return`
    else do
      let (rb, st) ← strip_entity_secret_variables decompiled_secrets
        (path_list ++ [.key "action_list", .idx idx, .key "runbook"]) rb st
        "variable_list" var_runbook_context
      let tasks ← getListIter rb "task_definition_list"
      let rn ← (dictGet rb "name").bind asStr    -- runbook["name"]
      let trctx := var_runbook_context ++ "." ++ rn ++ ".task_definition_list"
      let (tasks', st) ← stripActionTasksLoop decompiled_secrets path_list idx trctx tasks 0 st
      let rb := setListBack rb "task_definition_list" tasks'
      let a' := JValue.obj (dictSet af "runbook" (.obj rb))
      let (rest', st) ← stripActionsLoop decompiled_secrets path_list context rest (idx + 1) st
      pure (a' :: rest', st)

/-- `strip_action_secret_variables(path_list, obj)`. -/
def strip_action_secret_variables (decompiled_secrets : Decompiled) (path_list : JPath)
    (obj : JDict) (st : SSt) : Option (JDict × SSt) := do
  let s0 ← pathHeadStr path_list
  let nm ← (dictGet obj "name").bind asStr       -- obj["name"]
  let context := s0 ++ "." ++ nm ++ ".action_list"
  let acts ← getListOr obj "action_list"
  let (acts', st) ← stripActionsLoop decompiled_secrets path_list context acts 0 st
  pure (setListBack obj "action_list" acts', st)

/-- One task of `strip_runbook_secret_variables`.  For an HTTP task with
basic auth the recorded path inserts an extra `"runbook"` component. -/
def stripRunbookTask (decompiled_secrets : Decompiled) (path_list : JPath)
    (context : String) (task_idx : Nat) (task : JValue) (st : SSt) :
    Option (JValue × SSt) := do
  let fs ← asObj task
  if dictGetD fs "type" .null = .str "RT_OPERATION" then do
    let pl := path_list ++ [.key "task_definition_list", .idx task_idx, .key "attrs"]
    let attrsReal ← (dictGet fs "attrs").getD .null |> asObj     -- task["attrs"]
    let (attrs', st) ← strip_entity_secret_variables decompiled_secrets pl attrsReal st
      "inarg_list" ""
    pure (.obj (dictSet fs "attrs" (.obj attrs')), st)
  else if dictGetD fs "type" .null ≠ .str "HTTP" then pure (task, st)
  else do
    let attrs ← getObjOr fs "attrs"
    let auth ← getObjOr attrs "authentication"
    let pl := path_list
      ++ (if dictGetD auth "auth_type" .null = .str "basic" then [PathElem.key "runbook"] else [])
      ++ [.key "task_definition_list", .idx task_idx, .key "attrs"]
    let tn ← (dictGet fs "name").bind asStr      -- task["name"]
    let var_task_context := context ++ "." ++ tn
    -- strip_authentication_secret_variables(path_list, task.get("attrs", {}) or {}, ...):
    -- when "attrs" is missing or falsy the fresh dict's mutations are discarded
    let (attrs', st) ← strip_authentication_secret_variables decompiled_secrets pl attrs st
      var_task_context
    let fs :=
      match dictGet fs "attrs" with
      | some (.obj (_ :: _)) => dictSet fs "attrs" (.obj attrs')
      | _ => fs
    -- if not (task.get("attrs", {}) or {}).get("headers", []) or []: continue
    stripTaskHeadersTail decompiled_secrets pl (var_task_context ++ ".headers") fs st

def stripRunbookTasksLoop (decompiled_secrets : Decompiled) (path_list : JPath)
    (context : String) : List JValue → Nat → SSt → Option (List JValue × SSt)
  | [], _, st => some ([], st)
  | t :: ts, idx, st => do
    let (t', st) ← stripRunbookTask decompiled_secrets path_list context idx t st
    let (ts', st) ← stripRunbookTasksLoop decompiled_secrets path_list context ts (idx + 1) st
    pure (t' :: ts', st)

/-- `strip_runbook_secret_variables(path_list, obj)`. -/
def strip_runbook_secret_variables (decompiled_secrets : Decompiled) (path_list : JPath)
    (obj : JDict) (st : SSt) : Option (JDict × SSt) := do
  let s0 ← pathHeadStr path_list
  let nm ← (dictGet obj "name").bind asStr       -- obj["name"]
  let context := s0 ++ "." ++ nm ++ ".task_definition_list"
  let tasks ← getListIter obj "task_definition_list"   -- obj.get("task_definition_list", [])
  let (tasks', st) ← stripRunbookTasksLoop decompiled_secrets path_list context tasks 0 st
  pure (setListBack obj "task_definition_list" tasks', st)

/-- `strip_all_secret_variables(path_list, obj)`. -/
def strip_all_secret_variables (decompiled_secrets : Decompiled) (path_list : JPath)
    (obj : JValue) (st : SSt) : Option (JValue × SSt) := do
  let fs ← asObj obj
  let s0 ← pathHeadStr path_list                 -- context=path_list[0]
  let (fs, st) ← strip_entity_secret_variables decompiled_secrets path_list fs st
    "variable_list" s0
  let (fs, st) ← strip_action_secret_variables decompiled_secrets path_list fs st
  let (fs, st) ← strip_runbook_secret_variables decompiled_secrets path_list fs st
  let (fs, st) ← strip_authentication_secret_variables decompiled_secrets path_list fs st s0
  pure (.obj fs, st)

/-- One credential of the `for cred in creds` loop of `strip_secrets`. -/
def stripOneCred (filtered : JMap) (cred : JValue) (st : SSt) : Option (JValue × SSt) := do
  let fs ← asObj cred
  let name ← dictGet fs "name"                   -- cred["name"]
  let secret ← dictGet fs "secret"               -- cred["secret"]
  let sd ← asObj secret
  let value ← dictGet sd "value"                 -- cred["secret"]["value"]
  if is_secret_modified filtered name value then
    -- secret_map[name] = cred.pop("secret", {}); cred["secret"] = placeholder
    let st := { st with smap := jmapSet st.smap name secret }
    pure (.obj (dictSet (dictRemove fs "secret") "secret" credSecretPlaceholder), st)
  else pure (.obj fs, st)

def stripCredsLoop (filtered : JMap) : List JValue → SSt → Option (List JValue × SSt)
  | [], st => some ([], st)
  | c :: cs, st => do
    let (c', st) ← stripOneCred filtered c st
    let (cs', st) ← stripCredsLoop filtered cs st
    pure (c' :: cs', st)

/-- The HTTP-endpoint credential stage of `strip_secrets` (lines 76-88). -/
def stripAuthStage (decompiled_secrets : Decompiled) (res : JDict) (st : SSt) :
    Option (JDict × SSt) := do
  let filtered := get_secrets_from_context decompiled_secrets "authentication"
  let auth ← getObjOr res "authentication"       -- resources.get("authentication", {}) or {}
  if dictGetD auth "type" .null = .str "basic" then do
    let username ← dictGet auth "username"       -- auth["username"]
    let password ← dictGet auth "password"       -- auth["password"]
    if is_secret_modified filtered username password then
      -- secret_map[name] = auth.pop("password", {}); auth["password"] = placeholder
      let st := { st with smap := jmapSet st.smap username password }
      let auth := dictSet (dictRemove auth "password") "password" endpointPwdPlaceholder
      pure (dictSet res "authentication" (.obj auth), st)
    else pure (res, st)
  else pure (res, st)

def stripObjListLoop (decompiled_secrets : Decompiled) (object_list : String) :
    List JValue → Nat → SSt → Option (List JValue × SSt)
  | [], _, st => some ([], st)
  | o :: os, idx, st => do
    let (o', st) ← strip_all_secret_variables decompiled_secrets
      [.key object_list, .idx idx] o st
    let (os', st) ← stripObjListLoop decompiled_secrets object_list os (idx + 1) st
    pure (o' :: os', st)

def stripObjectLists (decompiled_secrets : Decompiled) :
    List String → JDict → SSt → Option (JDict × SSt)
  | [], res, st => some (res, st)
  | ol :: ols, res, st => do
    let items ← getListOr res ol                 -- resources.get(object_list, []) or []
    let (items', st) ← stripObjListLoop decompiled_secrets ol items 0 st
    let res := setListBack res ol items'
    stripObjectLists decompiled_secrets ols res st

def stripObjects (decompiled_secrets : Decompiled) :
    List String → JDict → SSt → Option (JDict × SSt)
  | [], res, st => some (res, st)
  | o :: os, res, st =>
    match dictGet res o with
    | some v => do
      let (v', st) ← strip_all_secret_variables decompiled_secrets [.key o] v st
      stripObjects decompiled_secrets os (dictSet res o v') st
    | none => do
      -- resources.get(obj, {}): a fresh dict is walked and the result discarded
      -- (the walk always raises on a dict without a "name")
      let (_, st) ← strip_all_secret_variables decompiled_secrets [.key o] (.obj []) st
      stripObjects decompiled_secrets os res st

/-- `strip_secrets(resources, secret_map, secret_variables, object_lists,
objects, decompiled_secrets, not_stripped_secrets)`.  Returns the updated
document together with the updated collections. -/
def strip_secrets (resources : JValue) (secret_map : JMap)
    (secret_variables : List (JPath × JValue × JValue))
    (object_lists : List String) (objects : List String)
    (decompiled_secrets : Decompiled)
    (not_stripped_secrets : List (JPath × JValue)) : Option (JValue × SSt) := do
  let res ← asObj resources
  let st : SSt := ⟨secret_map, secret_variables, not_stripped_secrets⟩
  let creds ← getListOr res "credential_definition_list"
  let filteredCreds := get_secrets_from_context decompiled_secrets "credential_definition_list"
  let (creds', st) ← stripCredsLoop filteredCreds creds st
  let res := setListBack res "credential_definition_list" creds'
  let (res, st) ← stripAuthStage decompiled_secrets res st
  let (res, st) ← stripObjectLists decompiled_secrets object_lists res st
  let (res, st) ← stripObjects decompiled_secrets objects res st
  pure (.obj res, st)

/-! ## Path access and basic dictionary lemmas -/

/-- Read the value at a path (dict keys and list indices). -/
def getAtPath : JValue → JPath → Option JValue
  | v, [] => some v
  | .obj fs, .key k :: rest => (dictGet fs k).bind (fun c => getAtPath c rest)
  | .arr xs, .idx i :: rest => xs[i]?.bind (fun c => getAtPath c rest)
  | _, _ => none
termination_by structural _x p => p

theorem dictGet_dictSet_self (d : JDict) (k : String) (v : JValue) :
    dictGet (dictSet d k v) k = some v := by
  induction d with
  | nil => simp [dictSet, dictGet]
  | cons hd tl ih =>
    by_cases h : hd.1 = k <;> simp [dictSet, dictGet, h, ih]

theorem dictGet_dictSet_ne (d : JDict) (k k' : String) (v : JValue) (h : k' ≠ k) :
    dictGet (dictSet d k v) k' = dictGet d k' := by
  induction d with
  | nil => simp [dictSet, dictGet, Ne.symm h]
  | cons hd tl ih =>
    obtain ⟨k0, v0⟩ := hd
    by_cases hh : k0 = k
    · subst hh
      simp [dictSet, dictGet, Ne.symm h]
    · simp [dictSet, dictGet, hh, ih]

theorem dictSet_get_self (d : JDict) (k : String) (v : JValue)
    (h : dictGet d k = some v) : dictSet d k v = d := by
  induction d with
  | nil => simp [dictGet] at h
  | cons hd tl ih =>
    obtain ⟨k0, v0⟩ := hd
    by_cases hh : k0 = k
    · subst hh
      simp [dictGet] at h
      simp [dictSet, h]
    · simp [dictGet, hh] at h
      simp [dictSet, hh, ih h]

theorem dictGet_dictRemove_ne (d : JDict) (k k' : String) (h : k' ≠ k) :
    dictGet (dictRemove d k) k' = dictGet d k' := by
  induction d with
  | nil => simp [dictRemove]
  | cons hd tl ih =>
    obtain ⟨k0, v0⟩ := hd
    by_cases hh : k0 = k
    · subst hh
      simp [dictRemove, dictGet, Ne.symm h]
    · simp [dictRemove, dictGet, hh, ih]

theorem list_set_get_self {α : Type} (xs : List α) (i : Nat) (x : α)
    (h : xs[i]? = some x) : xs.set i x = xs := by
  induction xs generalizing i with
  | nil => simp at h
  | cons hd tl ih =>
    cases i with
    | zero => simp_all
    | succ n =>
      simp at h
      simp [List.set, ih n h]

/-! ## Claim C8: patch_secrets tolerates stale paths -/

/-- The walk from `v` along `p` hits a dict that lacks the next component
(the `break` of the `for/else` loops in `patch_secrets`; an integer
component never occurs among the string keys of a payload dict). -/
inductive BreaksAt : JValue → JPath → Prop
  | missKey (fs : JDict) (k : String) (rest : JPath) :
      dictGet fs k = none → BreaksAt (.obj fs) (.key k :: rest)
  | missIdx (fs : JDict) (i : Nat) (rest : JPath) :
      BreaksAt (.obj fs) (.idx i :: rest)
  | stepKey (fs : JDict) (k : String) (child : JValue) (rest : JPath) :
      dictGet fs k = some child → BreaksAt child rest →
      BreaksAt (.obj fs) (.key k :: rest)
  | stepIdx (xs : List JValue) (i : Nat) (rest : JPath) (c : JValue) :
      xs[i]? = some c → BreaksAt c rest → BreaksAt (.arr xs) (.idx i :: rest)

/-- If the walk breaks, `patchWalk` succeeds and returns the document
unchanged. -/
theorem patchWalk_of_breaks (upd : JDict → JDict) (v : JValue) (p : JPath)
    (h : BreaksAt v p) : patchWalk upd v p = some v := by
  induction h with
  | missKey fs k rest hm => simp [patchWalk, hm]
  | missIdx fs i rest => simp [patchWalk]
  | stepKey fs k child rest hg _hb ih =>
    simp [patchWalk, hg, ih, dictSet_get_self fs k child hg]
  | stepIdx xs i rest c hg _hb ih =>
    have hlt : i < xs.length := by
      by_contra hge
      rw [List.getElem?_eq_none (Nat.le_of_not_lt hge)] at hg
      cases hg
    have hx : xs[i] = c := by
      rw [List.getElem?_eq_getElem hlt] at hg
      exact Option.some.inj hg
    simp [patchWalk, hlt, hx, ih, list_set_get_self xs i c hg]

theorem patchEntriesSecretVars_cons_breaks (d : JValue) (p : JPath) (s nmv : JValue)
    (rest : List (JPath × JValue × JValue)) (hb : BreaksAt d p) :
    patchEntriesSecretVars d ((p, s, nmv) :: rest) = patchEntriesSecretVars d rest := by
  simp [patchEntriesSecretVars, applySecretVar, patchWalk_of_breaks _ d p hb]

theorem patchEntriesExisting_cons_breaks (d : JValue) (p : JPath) (s : JValue)
    (es : List (JPath × JValue)) (hb : BreaksAt d p) :
    patchEntriesExisting d ((p, s) :: es) = patchEntriesExisting d es := by
  simp [patchEntriesExisting, applyExisting, patchWalk_of_breaks _ d p hb]

/-- Claim C8: for every `(path, secret)` entry in `secret_variables` (or
`existing_secrets`) whose path reaches a dict lacking the next component,
`patch_secrets` skips the entry (the walk succeeds and leaves the document
entirely unchanged), raises no error, and processes the remaining entries
exactly as if the stale entry were absent. -/
theorem claim_C8_stale_path_skipped (res d : JValue) (sm : JMap) (p : JPath)
    (s nmv : JValue) (rest svars : List (JPath × JValue × JValue))
    (es : List (JPath × JValue))
    (hca : patchCredsAuth res sm = some d) (hb : BreaksAt d p) :
    applySecretVar d (p, s, nmv) = some d ∧
    applyExisting d (p, s) = some d ∧
    patch_secrets res sm ((p, s, nmv) :: rest) [] = patch_secrets res sm rest [] ∧
    patch_secrets res sm svars ((p, s) :: es) = patch_secrets res sm svars es := by
  refine ⟨?_, ?_, ?_, ?_⟩
  · simp [applySecretVar, patchWalk_of_breaks _ d p hb]
  · simp [applyExisting, patchWalk_of_breaks _ d p hb]
  · simp [patch_secrets, hca, patchEntriesExisting,
      patchEntriesSecretVars_cons_breaks d p s nmv rest hb]
  · simp [patch_secrets, hca, patchEntriesExisting_cons_breaks d p s es hb]

/-- A stripped document in which `strip_authentication_secret_variables`
recorded the path `ep.authentication.basic_auth.password` although the value
was popped from `ep.authentication.password`: the `basic_auth` component is
absent, so the walk breaks. -/
def c8doc : JValue :=
  .obj [("ep", .obj [("name", .str "e"),
    ("authentication", .obj [("auth_type", .str "basic"),
      ("password", authPwdPlaceholder)])])]

def c8path : JPath := [.key "ep", .key "authentication", .key "basic_auth", .key "password"]

theorem claim_C8_witness :
    applySecretVar c8doc (c8path, .str "s3cret", .str "p") = some c8doc ∧
    applyExisting c8doc (c8path, .str "s3cret") = some c8doc ∧
    patch_secrets c8doc [] ((c8path, .str "s3cret", .str "p") ::
      [([.key "other"], .str "x", .null)]) [] =
      patch_secrets c8doc [] [([.key "other"], .str "x", .null)] [] ∧
    patch_secrets c8doc [] [] ((c8path, .str "s3cret") :: [([.key "other"], .str "x")]) =
      patch_secrets c8doc [] [] [([.key "other"], .str "x")] :=
  claim_C8_stale_path_skipped c8doc c8doc [] c8path (.str "s3cret") (.str "p")
    [([.key "other"], .str "x", .null)] [] [([.key "other"], .str "x")]
    (by rfl)
    (BreaksAt.stepKey _ "ep" _ _ (by rfl)
      (BreaksAt.stepKey _ "authentication" _ _ (by rfl)
        (BreaksAt.missKey _ "basic_auth" _ (by rfl))))

/-! ## decompile/substrate.py: get_provider_spec_string -/

/-- `enumerate` over a value obtained by plain subscription whose elements
are then used as dicts: a list iterates; an empty dict / empty string
iterates nothing; anything else raises by the first element. -/
def iterAsList : JValue → Option (List JValue)
  | .arr xs => some xs
  | .obj [] => some []
  | .str "" => some []
  | _ => none

/-- The `for ind, disk in enumerate(disk_list)` loop of
`get_provider_spec_string` (AHV_VM branch): collects `ind+1 ↦
get_valid_identifier(name)` for every disk whose `data_source_reference` has
kind `app_package`, popping the reference's uuid.  `validIdent` abstracts
`get_valid_identifier` (calm/dsl/builtins, not under src/). -/
def diskIndImgLoop (validIdent : JValue → String) :
    List JValue → Nat → Option (List JValue × List (Nat × String))
  | [], _ => some ([], [])
  | d :: ds, ind => do
    let fs ← asObj d
    let dsr := dictGetD fs "data_source_reference" (.obj [])
    if dsr.truthy then do
      let dsrD ← asObj dsr
      if dictGetD dsrD "kind" .null = .str "app_package" then do
        let entry := (ind + 1, validIdent (dictGetD dsrD "name" .null))
        let dsrD := dictRemove dsrD "uuid"        -- data_source_ref.pop("uuid", None)
        let d' := JValue.obj (dictSet fs "data_source_reference" (.obj dsrD))
        let (ds', entries) ← diskIndImgLoop validIdent ds (ind + 1)
        pure (d' :: ds', entry :: entries)
      else do
        let (ds', entries) ← diskIndImgLoop validIdent ds (ind + 1)
        pure (d :: ds', entries)
    else do
      let (ds', entries) ← diskIndImgLoop validIdent ds (ind + 1)
      pure (d :: ds', entries)

/-- `s.startswith(",")`, on the character list so that it evaluates in the
kernel. -/
def strStartsWithComma (s : String) : Bool :=
  match s.data with
  | [] => false
  | c :: _ => c = ','

/-- `s[1:]`, on the character list. -/
def strDropOne (s : String) : String := ⟨s.data.drop 1⟩

/-- Lines 122-127: `disk_pkg_string` built by appending `",{k}: {v}"`,
stripping a leading comma, and wrapping in braces. -/
def diskPkgString (entries : List (Nat × String)) : String :=
  let s := entries.foldl (fun acc e => acc ++ "," ++ toString e.1 ++ ": " ++ e.2) ""
  let s := if strStartsWithComma s then strDropOne s else s
  "\x7b" ++ s ++ "\x7d"

/-- `get_provider_spec_string(spec, filename, provider_type, vm_images)`.
The Bool records whether the leftover `import pdb; pdb.set_trace()` on the
AHV_VM branch suspended execution into the interactive debugger before the
result was computed.  `AhvVmType.decompile(spec)` has its result discarded
and is not modelled.  Returns the flag, the result string and the (possibly
mutated) spec. -/
def get_provider_spec_string (validIdent : JValue → String) (spec : JValue)
    (filename : String) (provider_type : String) (vm_images : List String) :
    Option (Bool × String × JValue) :=
  if provider_type = "AHV_VM" then do
    let specD ← asObj spec
    let resources ← ((dictGet specD "resources").getD .null |> asObj)  -- spec["resources"]
    let diskListV ← dictGet resources "disk_list"                      -- ["disk_list"]
    let disks ← iterAsList diskListV
    let (disks', entries) ← diskIndImgLoop validIdent disks 0
    let specD := dictSet specD "resources" (.obj (setListBack resources "disk_list" disks'))
    pure (true,
      "read_ahv_spec('" ++ filename ++ "', disk_packages = " ++ diskPkgString entries ++ ")",
      .obj specD)
  else if provider_type = "VMWARE_VM" then do
    let specD ← asObj spec
    let tmpl ← dictGet specD "template"                                -- spec["template"]
    let spec_template := validIdent tmpl
    if vm_images.contains spec_template then
      pure (false, "read_vmw_spec('" ++ filename ++ "', vm_template=" ++ spec_template ++ ")",
        .obj (dictSet specD "template" (.str "")))
    else
      pure (false, "read_vmw_spec('" ++ filename ++ "')", spec)
  else pure (false, "read_provider_spec('" ++ filename ++ "')", spec)

/-- A concrete `get_valid_identifier` instantiation for evaluation. -/
def c7ident : JValue → String := fun v => match v with | .str s => s | _ => "img"

/-- An AHV provider spec with two disks; only the second one's
`data_source_reference` has kind `app_package`. -/
def c7spec : JValue := .obj [("resources", .obj [("disk_list", .arr [
  .obj [("data_source_reference",
          .obj [("kind", .str "image"), ("name", .str "base"), ("uuid", .str "u1")]),
        ("device_properties", .obj [("device_type", .str "DISK")])],
  .obj [("data_source_reference",
          .obj [("kind", .str "app_package"), ("name", .str "centos_disk"),
            ("uuid", .str "u2")])]])]),
  ("name", .str "vm1")]

/-- Claim C7 (code bug): on every AHV_VM provider spec the function first
executes the leftover `import pdb; pdb.set_trace()` (first component
`true`), i.e. it suspends into the interactive debugger instead of
terminating normally; the string it would return is otherwise exactly the
claimed `read_ahv_spec('<filename>', disk_packages = {...})` with one
`index: identifier` entry per app_package disk keyed by its 1-based position
(here the second disk, key 2), and the reference's uuid is popped. -/
theorem claim_C7_pdb_set_trace :
    get_provider_spec_string c7ident c7spec "specs/S_provider_spec.yaml" "AHV_VM" [] =
      some (true,
        "read_ahv_spec('specs/S_provider_spec.yaml', disk_packages = \x7b2: centos_disk\x7d)",
        .obj [("resources", .obj [("disk_list", .arr [
          .obj [("data_source_reference",
                  .obj [("kind", .str "image"), ("name", .str "base"), ("uuid", .str "u1")]),
                ("device_properties", .obj [("device_type", .str "DISK")])],
          .obj [("data_source_reference",
                  .obj [("kind", .str "app_package"), ("name", .str "centos_disk")])]])]),
          ("name", .str "vm1")]) := by
  decide

/-! ## providers/plugins/ahv_vm/main.py: AhvVmProvider.update_vm_image_config -/

/-- Distinguishable Python exceptions raised by `update_vm_image_config`.
`otherError` covers exceptions from malformed payloads (KeyError /
AttributeError / TypeError on subscripting) that the claim does not
distinguish. -/
inductive PyError where
  | valueError (msg : String)
  | typeError (msg : String)
  | indexError
  | otherError
deriving DecidableEq, Repr

/-- An image class passed in `disk_packages`: `img_cls.compile()` and
`ref(img_cls).compile()` live in calm/dsl/builtins (not under src/) and are
abstracted by their results. -/
structure ImgCls where
  pkg : JValue
  refCompiled : JValue
deriving DecidableEq

/-- Python list subscription `xs[i]` with negative-index semantics. -/
def pyListGet (xs : List JValue) (i : Int) : Option JValue :=
  if 0 ≤ i then xs[i.toNat]?
  else if 0 ≤ i + xs.length then xs[(i + xs.length).toNat]?
  else none

/-- Python list element assignment `xs[i] = v` (index known valid). -/
def pyListSet (xs : List JValue) (i : Int) (v : JValue) : List JValue :=
  if 0 ≤ i then xs.set i.toNat v else xs.set (i + xs.length).toNat v

/-- `vm_image_type = pkg["options"]["resources"]["image_type"]`. -/
def pkgImageType (pkg : JValue) : Option JValue :=
  (asObj pkg).bind (fun d => dictGet d "options")
    |>.bind asObj |>.bind (fun d => dictGet d "resources")
    |>.bind asObj |>.bind (fun d => dictGet d "image_type")

/-- `disk["device_properties"]["device_type"]` looked up via dict chain. -/
def diskDeviceType (dfs : JDict) : Option JValue :=
  ((dictGet dfs "device_properties").bind asObj).bind (fun d => dictGet d "device_type")

/-- The `for disk_ind, img_cls in disk_packages.items()` loop of
`update_vm_image_config`.  `image_types` abstracts
`AhvConstants.IMAGE_TYPES` (from .constants, not under src/): a dict from
device types to image types, subscripted with KeyError semantics. -/
def updateVmImageLoop (image_types : JMap) :
    List (Int × ImgCls) → List JValue → Except PyError (List JValue)
  | [], disks => .ok disks
  | (disk_ind, img) :: rest, disks =>
    if disk_ind > disks.length then
      .error (.valueError ("invalid disk address (" ++ toString disk_ind ++ ")"))
    else
      match pyListGet disks (disk_ind - 1) with
      | none => .error .indexError
      | some disk =>
        match asObj disk with
        | none => .error .otherError
        | some dfs =>
          if dictGet dfs "data_source_reference" = none then
            .error (.valueError ("unable to set downloadable image in disk "
              ++ toString disk_ind))
          else
            match pkgImageType img.pkg with
            | none => .error .otherError
            | some vmImageType =>
              match diskDeviceType dfs with
              | none => .error .otherError
              | some devType =>
                match jmapGet image_types devType with
                | none => .error .otherError           -- IMAGE_TYPES[...]: KeyError
                | some diskImgType =>
                  if vmImageType ≠ diskImgType then
                    .error (.typeError ("image type mismatch in disk " ++ toString disk_ind))
                  else
                    updateVmImageLoop image_types rest
                      (pyListSet disks (disk_ind - 1)
                        (.obj (dictSet dfs "data_source_reference" img.refCompiled)))

/-- `AhvVmProvider.update_vm_image_config(spec, disk_packages)`; returns the
updated spec (the Python function mutates it in place). -/
def update_vm_image_config (image_types : JMap) (spec : JValue)
    (disk_packages : List (Int × ImgCls)) : Except PyError JValue :=
  match asObj spec with
  | none => .error .otherError
  | some specD =>
    match (dictGet specD "resources").bind asObj with
    | none => .error .otherError
    | some resources =>
      -- disk_list = spec["resources"].get("disk_list", [])
      match
        (match dictGet resources "disk_list" with
         | none => some []
         | some (.arr xs) => some xs
         | some _ => none) with
      | none => .error .otherError
      | some disks =>
        match updateVmImageLoop image_types disk_packages disks with
        | .error e => .error e
        | .ok disks' =>
          .ok (.obj (dictSet specD "resources" (.obj (setListBack resources "disk_list" disks'))))

instance : DecidableEq (Except PyError JValue)
  | .ok a, .ok b =>
    if h : a = b then isTrue (by rw [h]) else isFalse (by simp [h])
  | .ok _, .error _ => isFalse (by simp)
  | .error _, .ok _ => isFalse (by simp)
  | .error a, .error b =>
    if h : a = b then isTrue (by rw [h]) else isFalse (by simp [h])

/-- `AhvConstants.IMAGE_TYPES` (modelled: DISK ↦ DISK_IMAGE, CDROM ↦ ISO_IMAGE). -/
def c10types : JMap := [(.str "DISK", .str "DISK_IMAGE"), (.str "CDROM", .str "ISO_IMAGE")]

def c10disk1fs : JDict :=
  [("data_source_reference", .obj [("kind", .str "image")]),
   ("device_properties", .obj [("device_type", .str "DISK")])]

def c10diskNoRef : JValue := .obj [("device_properties", .obj [("device_type", .str "DISK")])]

def c10imgOk : ImgCls :=
  ⟨.obj [("options", .obj [("resources", .obj [("image_type", .str "DISK_IMAGE")])])],
   .obj [("kind", .str "app_package"), ("name", .str "pkg")]⟩

def c10imgBad : ImgCls :=
  ⟨.obj [("options", .obj [("resources", .obj [("image_type", .str "ISO_IMAGE")])])],
   .obj [("kind", .str "app_package"), ("name", .str "pkg")]⟩

def c10spec : JValue := .obj [("resources", .obj [("disk_list", .arr [.obj c10disk1fs])])]

/-- Claim C10 counterexample: with one disk and `disk_packages = {1: <ISO
package>, 5: ...}` a requested disk index (5) exceeds the length of
`disk_list` (1), so the claim requires a ValueError, but the code processes
the entries in order and raises TypeError at the first entry. -/
theorem claim_C10_counterexample :
    update_vm_image_config c10types c10spec [((1 : Int), c10imgBad), ((5 : Int), c10imgOk)] =
      .error (.typeError "image type mismatch in disk 1") ∧
    [((1 : Int), c10imgBad), ((5 : Int), c10imgOk)].any
      (fun e => e.1 > (1 : Int)) = true ∧
    ∀ msg, update_vm_image_config c10types c10spec
      [((1 : Int), c10imgBad), ((5 : Int), c10imgOk)] ≠ .error (.valueError msg) := by
  refine ⟨by decide, by decide, ?_⟩
  intro msg hc
  rw [show update_vm_image_config c10types c10spec
      [((1 : Int), c10imgBad), ((5 : Int), c10imgOk)] =
      .error (.typeError "image type mismatch in disk 1") by decide] at hc
  simp at hc

/-- Claim C10 (amended): `update_vm_image_config` processes the
`disk_packages` entries in iteration order and stops at the first failing
one; for an entry with positive index `i`, it raises ValueError if `i`
exceeds the length of `disk_list`, ValueError if the addressed disk (the
`i-1`-st) lacks `data_source_reference`, TypeError if the package image type
differs from the image type of the disk's device type, and otherwise
replaces that disk's `data_source_reference` with the compiled reference of
the image class, leaving all other disks unchanged, and continues with the
remaining entries.  (Indices ≤ 0 follow Python negative indexing instead,
and a later entry's error cannot pre-empt an earlier one's.) -/
theorem claim_C10_amended_step (image_types : JMap) (disks : List JValue) (i : Int)
    (img : ImgCls) (rest : List (Int × ImgCls)) (hpos : 1 ≤ i) :
    (i > disks.length →
      updateVmImageLoop image_types ((i, img) :: rest) disks =
        .error (.valueError ("invalid disk address (" ++ toString i ++ ")"))) ∧
    (∀ dfs, i ≤ disks.length → disks[i.toNat - 1]? = some (.obj dfs) →
      dictGet dfs "data_source_reference" = none →
      updateVmImageLoop image_types ((i, img) :: rest) disks =
        .error (.valueError ("unable to set downloadable image in disk " ++ toString i))) ∧
    (∀ dfs dsr vmT devT diskT, i ≤ disks.length →
      disks[i.toNat - 1]? = some (.obj dfs) →
      dictGet dfs "data_source_reference" = some dsr →
      pkgImageType img.pkg = some vmT →
      diskDeviceType dfs = some devT →
      jmapGet image_types devT = some diskT →
      vmT ≠ diskT →
      updateVmImageLoop image_types ((i, img) :: rest) disks =
        .error (.typeError ("image type mismatch in disk " ++ toString i))) ∧
    (∀ dfs dsr vmT devT, i ≤ disks.length →
      disks[i.toNat - 1]? = some (.obj dfs) →
      dictGet dfs "data_source_reference" = some dsr →
      pkgImageType img.pkg = some vmT →
      diskDeviceType dfs = some devT →
      jmapGet image_types devT = some vmT →
      updateVmImageLoop image_types ((i, img) :: rest) disks =
        updateVmImageLoop image_types rest
          (disks.set (i.toNat - 1)
            (.obj (dictSet dfs "data_source_reference" img.refCompiled))) ∧
      ∀ j, j ≠ i.toNat - 1 →
        (disks.set (i.toNat - 1)
          (.obj (dictSet dfs "data_source_reference" img.refCompiled)))[j]? = disks[j]?) := by
  have h0 : (0 : Int) ≤ i - 1 := by omega
  refine ⟨?_, ?_, ?_, ?_⟩
  · intro hgt
    simp [updateVmImageLoop, hgt]
  · intro dfs hle hget hno
    have hngt : ¬ i > (disks.length : Int) := by omega
    simp [updateVmImageLoop, hngt, pyListGet, h0, hget, asObj, hno]
  · intro dfs dsr vmT devT diskT hle hget hdsr hpkg hdev hmap hne
    have hngt : ¬ i > (disks.length : Int) := by omega
    simp [updateVmImageLoop, hngt, pyListGet, h0, hget, asObj, hdsr, hpkg, hdev,
      hmap, hne]
  · intro dfs dsr vmT devT hle hget hdsr hpkg hdev hmap
    have hngt : ¬ i > (disks.length : Int) := by omega
    constructor
    · simp [updateVmImageLoop, hngt, pyListGet, h0, hget, asObj, hdsr, hpkg, hdev,
        hmap, pyListSet]
    · intro j hj
      rw [List.getElem?_set_ne (by omega)]

def c10disks1 : List JValue := [.obj c10disk1fs]

def c10noRefFs : JDict := [("device_properties", .obj [("device_type", .str "DISK")])]

def c10disksNoRef : List JValue := [.obj c10noRefFs]

def c10disks2 : List JValue := [.obj c10disk1fs, .obj c10disk1fs]

theorem claim_C10_witness :
    updateVmImageLoop c10types [((2 : Int), c10imgOk)] c10disks1 =
      .error (.valueError "invalid disk address (2)") ∧
    updateVmImageLoop c10types [((1 : Int), c10imgOk)] c10disksNoRef =
      .error (.valueError "unable to set downloadable image in disk 1") ∧
    updateVmImageLoop c10types [((1 : Int), c10imgBad)] c10disks1 =
      .error (.typeError "image type mismatch in disk 1") ∧
    (updateVmImageLoop c10types [((1 : Int), c10imgOk)] c10disks2 =
      updateVmImageLoop c10types []
        (c10disks2.set 0
          (.obj (dictSet c10disk1fs "data_source_reference" c10imgOk.refCompiled))) ∧
     (c10disks2.set 0
        (.obj (dictSet c10disk1fs "data_source_reference" c10imgOk.refCompiled)))[1]? =
       c10disks2[1]?) :=
  ⟨(claim_C10_amended_step c10types c10disks1 2 c10imgOk [] (by decide)).1 (by decide),
   (claim_C10_amended_step c10types c10disksNoRef 1 c10imgOk [] (by decide)).2.1
     c10noRefFs (by decide) (by decide) (by decide),
   (claim_C10_amended_step c10types c10disks1 1 c10imgBad [] (by decide)).2.2.1
     c10disk1fs (.obj [("kind", .str "image")]) (.str "ISO_IMAGE") (.str "DISK")
     (.str "DISK_IMAGE") (by decide) (by decide) (by decide) (by decide) (by decide)
     (by decide) (by decide),
   ⟨((claim_C10_amended_step c10types c10disks2 1 c10imgOk [] (by decide)).2.2.2
       c10disk1fs (.obj [("kind", .str "image")]) (.str "DISK_IMAGE") (.str "DISK")
       (by decide) (by decide) (by decide) (by decide) (by decide) (by decide)).1,
    ((claim_C10_amended_step c10types c10disks2 1 c10imgOk [] (by decide)).2.2.2
       c10disk1fs (.obj [("kind", .str "image")]) (.str "DISK_IMAGE") (.str "DISK")
       (by decide) (by decide) (by decide) (by decide) (by decide) (by decide)).2
      1 (by decide)⟩⟩

/-! ## util.py: strip_vmware_secrets -/

/-- `strip_vmware_secrets(path_list, obj, secret_variables, decompiled_secrets,
not_stripped_secrets)`.  The function mutates `path_list` (via
`extend`/`append`), the nested dicts of `obj`, and the two list arguments;
the embedding returns all of them updated. -/
def strip_vmware_secrets (path_list : JPath) (obj : JValue)
    (secret_variables : List (JPath × JValue × JValue))
    (decompiled_secrets : Decompiled)
    (not_stripped_secrets : List (JPath × JValue)) :
    Option (JValue × JPath × List (JPath × JValue × JValue) × List (JPath × JValue)) := do
  let path_list := path_list ++
    [.key "create_spec", .key "resources", .key "guest_customization"]
  let objD ← asObj obj
  let cs ← ((dictGet objD "create_spec").getD .null |> asObj)      -- obj["create_spec"]
  let rs ← ((dictGet cs "resources").getD .null |> asObj)
  let gc ← ((dictGet rs "guest_customization").getD .null |> asObj)
  let vmware_secrets_context := "create_spec.resources.guest_customization.windows_data"
  let wdv := dictGetD gc "windows_data" (.obj [])      -- obj.get("windows_data", {})
  if wdv.truthy then do
    let path_list := path_list ++ [.key "windows_data"]
    let wd ← asObj wdv
    -- (the `if not obj: return` that follows is unreachable: wdv is truthy)
    -- vmware_secrets_admin_context =
    --   context + "windows_data" + ".password." + obj["password"].get("name", "")
    let pwd ← ((dictGet wd "password").getD .null |> asObj)        -- obj["password"]
    let pn ← match dictGet pwd "name" with
      | none => pure ""
      | some (.str s) => pure s
      | some _ => none
    let adminCtx := vmware_secrets_context ++ "windows_data" ++ ".password." ++ pn
    let filtered := get_secrets_from_context decompiled_secrets adminCtx
    -- Check for admin_password
    let (wd, svars, nstrip) ←
      if (dictGetD wd "password" (.obj [])).truthy then
        if is_secret_modified filtered (.str pn) (dictGetD pwd "value" .null) then do
          let popped := (dictGet pwd "value").getD (.str "")       -- pop("value", "")
          let pwd := dictRemove pwd "value"
          let svars := secret_variables ++
            [(path_list ++ [.key "password"], popped, .str pn)]
          let pwd := dictSet pwd "attrs"
            (.obj [("is_secret_modified", .bool false), ("secret_reference", .null)])
          pure (dictSet wd "password" (.obj pwd), svars, not_stripped_secrets)
        else
          pure (wd, secret_variables, not_stripped_secrets ++
            [(path_list ++ [.key "password"], dictGetD pwd "value" (.str ""))])
      else pure (wd, secret_variables, not_stripped_secrets)
    -- Now check for domain password
    let (wd, svars, nstrip) ←
      if (dictGetD wd "is_domain" (.bool false)).truthy then
        if (dictGetD wd "domain_password" (.obj [])).truthy then do
          let dp ← ((dictGet wd "domain_password").getD .null |> asObj)
          let dn ← match dictGet dp "name" with
            | none => pure ""
            | some (.str s) => pure s
            | some _ => none
          let domainCtx := vmware_secrets_context ++ "windows_data"
            ++ ".domain_password." ++ dn
          let filtered2 := get_secrets_from_context decompiled_secrets domainCtx
          if is_secret_modified filtered2 (.str dn) (dictGetD dp "value" .null) then do
            let popped := (dictGet dp "value").getD (.str "")      -- pop("value", "")
            let dp' := dictRemove dp "value"
            let nm ← dictGet dp' "name"                 -- obj["domain_password"]["name"]
            let svars := svars ++
              [(path_list ++ [.key "domain_password"], popped, nm)]
            let dp' := dictSet dp' "attrs"
              (.obj [("is_secret_modified", .bool false), ("secret_reference", .null)])
            pure (dictSet wd "domain_password" (.obj dp'), svars, nstrip)
          else do
            -- the else branch also POPS the value while recording it
            let popped := (dictGet dp "value").getD (.str "")
            let dp' := dictRemove dp "value"
            pure (dictSet wd "domain_password" (.obj dp'), svars,
              nstrip ++ [(path_list ++ [.key "domain_password"], popped)])
        else pure (wd, svars, nstrip)
      else pure (wd, svars, nstrip)
    let gc := dictSet gc "windows_data" (.obj wd)
    let rs := dictSet rs "guest_customization" (.obj gc)
    let cs := dictSet cs "resources" (.obj rs)
    let objD := dictSet objD "create_spec" (.obj cs)
    pure (.obj objD, path_list, svars, nstrip)
  else
    pure (obj, path_list, secret_variables, not_stripped_secrets)

/-- Python evaluates default arguments once, at function definition time; the
default lists `secret_variables=[]` and `not_stripped_secrets=[]` of
`strip_vmware_secrets` are therefore module-level state shared by every call
that omits those arguments.  (`decompiled_secrets=[]` is never mutated:
`get_secrets_from_context` deep-copies.) -/
structure VmwareDefaults where
  secret_variables : List (JPath × JValue × JValue)
  not_stripped_secrets : List (JPath × JValue)
deriving DecidableEq

/-- A call `strip_vmware_secrets(path_list, obj)` with every optional
argument left at its default: it reads and mutates the shared default
lists. -/
def strip_vmware_secrets_default_call (st : VmwareDefaults) (path_list : JPath)
    (obj : JValue) : Option (VmwareDefaults × JValue × JPath) := do
  let (obj', pl', svars', nstrip') ←
    strip_vmware_secrets path_list obj st.secret_variables [] st.not_stripped_secrets
  pure (⟨svars', nstrip'⟩, obj', pl')

/-- A guest-customization payload with a windows admin password. -/
def c6obj : JValue := .obj [("create_spec", .obj [("resources", .obj [
  ("guest_customization", .obj [("windows_data", .obj [
    ("password", .obj [("name", .str "admin"), ("value", .str "pw1")])])])])])]

/-- Claim C6 (code bug): two successive `strip_vmware_secrets(ps, obj)` calls
at default arguments on equal inputs do not produce equal results: the
second call starts with the first call's entry still in the shared default
`secret_variables` list, so its collected list has two entries (the first
call's leaks into the second). -/
theorem claim_C6_mutable_default_lists :
    ∃ st1 obj1 pl1 st2 obj2 pl2,
      strip_vmware_secrets_default_call ⟨[], []⟩ [.key "s"] c6obj =
        some (st1, obj1, pl1) ∧
      strip_vmware_secrets_default_call st1 [.key "s"] c6obj =
        some (st2, obj2, pl2) ∧
      obj2 = obj1 ∧ pl2 = pl1 ∧
      st1.secret_variables.length = 1 ∧
      st2.secret_variables.length = 2 ∧
      st2.secret_variables ≠ st1.secret_variables := by
  refine ⟨_, _, _, _, _, _, rfl, rfl, ?_, ?_, ?_, ?_, ?_⟩ <;> decide

/-! ## util.py: strip_patch_config_tasks -/

/-- The `profile_patch_config_tasks` result: a dict from profile names to
dicts from patch-config names to task lists (names may be any value,
`profile.get("name")` can be None). -/
abbrev PPCT := List (JValue × JMap)

def ppctGet (m : PPCT) (k : JValue) : Option JMap :=
  match m with
  | [] => none
  | (k', v) :: rest => if k' = k then some v else ppctGet rest k

def ppctSet (m : PPCT) (k : JValue) (v : JMap) : PPCT :=
  match m with
  | [] => [(k, v)]
  | (k', v') :: rest => if k' = k then (k, v) :: rest else (k', v') :: ppctSet rest k v

/-- One patch config: `tasks = patch_config.get("runbook", {}).pop(
"task_definition_list", []); map[patch_config.get("name")] = tasks;
patch_config.pop("runbook", "")`.  Returns the stripped config, its name and
the tasks. -/
def stripPatchConfig (config : JValue) : Option (JValue × JValue × JValue) := do
  let cf ← asObj config
  let rb ← getObjD cf "runbook"
  let tasks := dictGetD rb "task_definition_list" (.arr [])
  let name := dictGetD cf "name" .null
  pure (.obj (dictRemove cf "runbook"), name, tasks)

def stripPatchConfigsLoop : List JValue → JMap → Option (List JValue × JMap)
  | [], m => some ([], m)
  | c :: cs, m => do
    let (c', name, tasks) ← stripPatchConfig c
    let m := jmapSet m name tasks
    let (cs', m) ← stripPatchConfigsLoop cs m
    pure (c' :: cs', m)

def stripProfilesLoop : List JValue → PPCT → Option (List JValue × PPCT)
  | [], acc => some ([], acc)
  | p :: ps, acc => do
    let pf ← asObj p
    let configs ← getListIter pf "patch_list"      -- profile.get("patch_list", [])
    let (configs', m) ← stripPatchConfigsLoop configs []
    let pf := setListBack pf "patch_list" configs'
    let acc := ppctSet acc (dictGetD pf "name" .null) m
    let (ps', acc) ← stripProfilesLoop ps acc
    pure (.obj pf :: ps', acc)

/-- `strip_patch_config_tasks(resources)`: returns the mutated resources and
the `profile_patch_config_tasks` dict. -/
def strip_patch_config_tasks (resources : JValue) : Option (JValue × PPCT) := do
  let res ← asObj resources
  let profiles ← getListIter res "app_profile_list"
  let (profiles', ppct) ← stripProfilesLoop profiles []
  pure (.obj (setListBack res "app_profile_list" profiles'), ppct)

theorem jmapGet_jmapSet_self (m : JMap) (k v : JValue) :
    jmapGet (jmapSet m k v) k = some v := by
  induction m with
  | nil => simp [jmapSet, jmapGet]
  | cons hd tl ih =>
    obtain ⟨k0, v0⟩ := hd
    by_cases hh : k0 = k
    · subst hh; simp [jmapSet, jmapGet]
    · simp [jmapSet, jmapGet, hh, ih]

theorem jmapGet_jmapSet_ne (m : JMap) (k k' v : JValue) (h : k' ≠ k) :
    jmapGet (jmapSet m k v) k' = jmapGet m k' := by
  induction m with
  | nil => simp [jmapSet, jmapGet, Ne.symm h]
  | cons hd tl ih =>
    obtain ⟨k0, v0⟩ := hd
    by_cases hh : k0 = k
    · subst hh; simp [jmapSet, jmapGet, Ne.symm h]
    · simp [jmapSet, jmapGet, hh, ih]

theorem ppctGet_ppctSet_self (m : PPCT) (k : JValue) (v : JMap) :
    ppctGet (ppctSet m k v) k = some v := by
  induction m with
  | nil => simp [ppctSet, ppctGet]
  | cons hd tl ih =>
    obtain ⟨k0, v0⟩ := hd
    by_cases hh : k0 = k
    · subst hh; simp [ppctSet, ppctGet]
    · simp [ppctSet, ppctGet, hh, ih]

theorem ppctGet_ppctSet_ne (m : PPCT) (k k' : JValue) (v : JMap) (h : k' ≠ k) :
    ppctGet (ppctSet m k v) k' = ppctGet m k' := by
  induction m with
  | nil => simp [ppctSet, ppctGet, Ne.symm h]
  | cons hd tl ih =>
    obtain ⟨k0, v0⟩ := hd
    by_cases hh : k0 = k
    · subst hh; simp [ppctSet, ppctGet, Ne.symm h]
    · simp [ppctSet, ppctGet, hh, ih]

theorem dictGet_eq_none_of_not_mem (d : JDict) (k : String)
    (h : k ∉ d.map Prod.fst) : dictGet d k = none := by
  induction d with
  | nil => simp [dictGet]
  | cons hd tl ih =>
    obtain ⟨k0, v0⟩ := hd
    rw [List.map_cons, List.mem_cons, not_or] at h
    have hne : k0 ≠ k := fun hh => h.1 hh.symm
    simp [dictGet, hne, ih h.2]

theorem dictGet_dictRemove_self (d : JDict) (k : String)
    (hnd : (d.map Prod.fst).Nodup) : dictGet (dictRemove d k) k = none := by
  induction d with
  | nil => simp [dictRemove, dictGet]
  | cons hd tl ih =>
    obtain ⟨k0, v0⟩ := hd
    rw [List.map_cons, List.nodup_cons] at hnd
    by_cases hh : k0 = k
    · subst hh
      simp [dictRemove]
      exact dictGet_eq_none_of_not_mem tl k0 hnd.1
    · simp [dictRemove, dictGet, hh, ih hnd.2]

theorem setListBack_get_ne (d : JDict) (k k' : String) (xs : List JValue)
    (h : k' ≠ k) : dictGet (setListBack d k xs) k' = dictGet d k' := by
  unfold setListBack
  match hg : dictGet d k with
  | some (.arr ys) => exact dictGet_dictSet_ne d k k' (.arr xs) h
  | some (.obj _) | some (.str _) | some .null | some (.bool _) | some (.int _) => rfl
  | none => rfl

/-- The key under which a patch config's tasks are recorded. -/
def configNameOf (c : JValue) : JValue :=
  match c with
  | .obj cf => dictGetD cf "name" .null
  | _ => .null

theorem stripPatchConfig_spec (c c1 name tasks : JValue)
    (h : stripPatchConfig c = some (c1, name, tasks)) :
    ∃ cf rb, c = .obj cf ∧ getObjD cf "runbook" = some rb ∧
      c1 = .obj (dictRemove cf "runbook") ∧ name = dictGetD cf "name" .null ∧
      tasks = dictGetD rb "task_definition_list" (.arr []) := by
  cases c with
  | obj cf =>
    cases hrb : getObjD cf "runbook" with
    | none => simp [stripPatchConfig, asObj, hrb] at h
    | some rb =>
      simp [stripPatchConfig, asObj, hrb] at h
      exact ⟨cf, rb, rfl, hrb, h.1.symm, h.2.1.symm, h.2.2.symm⟩
  | null => simp [stripPatchConfig, asObj] at h
  | bool b => simp [stripPatchConfig, asObj] at h
  | int n => simp [stripPatchConfig, asObj] at h
  | str s => simp [stripPatchConfig, asObj] at h
  | arr xs => simp [stripPatchConfig, asObj] at h

theorem stripPatchConfigsLoop_spec : ∀ (cs : List JValue) (m : JMap)
    (cs' : List JValue) (m' : JMap),
    stripPatchConfigsLoop cs m = some (cs', m') →
    cs'.length = cs.length ∧
    (∀ (j : Nat) (c : JValue), cs[j]? = some c →
      ∃ cf rb, c = JValue.obj cf ∧ getObjD cf "runbook" = some rb ∧
      cs'[j]? = some (.obj (dictRemove cf "runbook"))) ∧
    (∀ k, k ∉ cs.map configNameOf → jmapGet m' k = jmapGet m k) ∧
    ((cs.map configNameOf).Nodup →
      ∀ (j : Nat) (cf rb : JDict), cs[j]? = some (.obj cf) →
        getObjD cf "runbook" = some rb →
        jmapGet m' (dictGetD cf "name" .null) =
          some (dictGetD rb "task_definition_list" (.arr [])))
  | [], m, cs', m', h => by
    simp [stripPatchConfigsLoop] at h
    obtain ⟨h1, h2⟩ := h
    subst h1
    subst h2
    simp
  | c :: cs, m, cs', m', h => by
    cases hc : stripPatchConfig c with
    | none => simp [stripPatchConfigsLoop, hc] at h
    | some trip =>
      obtain ⟨c1, name, tasks⟩ := trip
      cases hrec : stripPatchConfigsLoop cs (jmapSet m name tasks) with
      | none => simp [stripPatchConfigsLoop, hc, hrec] at h
      | some pr =>
        obtain ⟨cs1, m1⟩ := pr
        simp [stripPatchConfigsLoop, hc, hrec] at h
        obtain ⟨hcs', hm'⟩ := h
        subst hcs'
        subst hm'
        obtain ⟨cf, rb, hcobj, hrb, hc1, hname, htasks⟩ :=
          stripPatchConfig_spec c c1 name tasks hc
        obtain ⟨ihlen, ihelem, ihpres, ihlook⟩ :=
          stripPatchConfigsLoop_spec cs (jmapSet m name tasks) cs1 m1 hrec
        refine ⟨by simp [ihlen], ?_, ?_, ?_⟩
        · intro j cc hj
          cases j with
          | zero =>
            simp at hj
            subst hj
            exact ⟨cf, rb, hcobj, hrb, by simp [hc1]⟩
          | succ jj =>
            simp at hj
            obtain ⟨cf2, rb2, h1, h2, h3⟩ := ihelem jj cc hj
            exact ⟨cf2, rb2, h1, h2, by simpa using h3⟩
        · intro k hk
          rw [List.map_cons, List.mem_cons, not_or] at hk
          rw [ihpres k hk.2, jmapGet_jmapSet_ne _ _ _ _ ?hne]
          case hne =>
            intro heq
            exact hk.1 (by rw [heq, hname, hcobj, configNameOf])
        · intro hnd j cf0 rb0 hj hrb0
          rw [List.map_cons, List.nodup_cons] at hnd
          cases j with
          | zero =>
            simp at hj
            rw [hcobj] at hj
            injection hj with hj2
            subst hj2
            rw [hrb] at hrb0
            injection hrb0 with hrb2
            subst hrb2
            have hn1 : dictGetD cf "name" JValue.null ∉ cs.map configNameOf := by
              have h1 := hnd.1
              rw [hcobj] at h1
              simpa [configNameOf] using h1
            rw [ihpres _ hn1, ← hname, jmapGet_jmapSet_self, htasks]
          | succ jj =>
            simp at hj
            exact ihlook hnd.2 jj cf0 rb0 hj hrb0

def profileNameOf (p : JValue) : JValue :=
  match p with
  | .obj pf => dictGetD pf "name" .null
  | _ => .null

theorem stripProfilesLoop_spec : ∀ (ps : List JValue) (acc : PPCT)
    (ps' : List JValue) (acc' : PPCT),
    stripProfilesLoop ps acc = some (ps', acc') →
    ps'.length = ps.length ∧
    (∀ (i : Nat) (p : JValue), ps[i]? = some p →
      ∃ pf configs configs' m, p = JValue.obj pf ∧
        getListIter pf "patch_list" = some configs ∧
        stripPatchConfigsLoop configs [] = some (configs', m) ∧
        ps'[i]? = some (.obj (setListBack pf "patch_list" configs'))) ∧
    (∀ k, k ∉ ps.map profileNameOf → ppctGet acc' k = ppctGet acc k) ∧
    ((ps.map profileNameOf).Nodup →
      ∀ (i : Nat) (pf : JDict) (configs configs' : List JValue) (m : JMap),
        ps[i]? = some (.obj pf) →
        getListIter pf "patch_list" = some configs →
        stripPatchConfigsLoop configs [] = some (configs', m) →
        ppctGet acc' (dictGetD pf "name" .null) = some m)
  | [], acc, ps', acc', h => by
    simp [stripProfilesLoop] at h
    obtain ⟨h1, h2⟩ := h
    subst h1
    subst h2
    simp
  | p :: ps, acc, ps', acc', h => by
    cases p with
    | obj pf =>
      cases hcl : getListIter pf "patch_list" with
      | none => simp [stripProfilesLoop, asObj, hcl] at h
      | some configs =>
        cases hloop : stripPatchConfigsLoop configs [] with
        | none => simp [stripProfilesLoop, asObj, hcl, hloop] at h
        | some pr1 =>
          obtain ⟨configs', m⟩ := pr1
          cases hrec : stripProfilesLoop ps
              (ppctSet acc
                (dictGetD (setListBack pf "patch_list" configs') "name" .null) m) with
          | none => simp [stripProfilesLoop, asObj, hcl, hloop, hrec] at h
          | some pr2 =>
            obtain ⟨ps1, acc1⟩ := pr2
            simp [stripProfilesLoop, asObj, hcl, hloop, hrec] at h
            obtain ⟨hps', hacc'⟩ := h
            subst hps'
            subst hacc'
            have hkey : dictGetD (setListBack pf "patch_list" configs') "name" .null =
                dictGetD pf "name" .null := by
              unfold dictGetD
              rw [setListBack_get_ne _ _ _ _ (by decide)]
            obtain ⟨ihlen, ihelem, ihpres, ihlook⟩ :=
              stripProfilesLoop_spec ps _ ps1 acc1 hrec
            refine ⟨by simp [ihlen], ?_, ?_, ?_⟩
            · intro i pp hi
              cases i with
              | zero =>
                simp at hi
                subst hi
                exact ⟨pf, configs, configs', m, rfl, hcl, hloop, by simp⟩
              | succ ii =>
                simp at hi
                obtain ⟨pf2, c2, c2', m2, h1, h2, h3, h4⟩ := ihelem ii pp hi
                exact ⟨pf2, c2, c2', m2, h1, h2, h3, by simpa using h4⟩
            · intro k hk
              rw [List.map_cons, List.mem_cons, not_or] at hk
              rw [ihpres k hk.2, hkey, ppctGet_ppctSet_ne _ _ _ _ ?hne]
              case hne =>
                intro heq
                exact hk.1 (by rw [heq, profileNameOf])
            · intro hnd i pf0 cfg0 cfg0' m0 hi hcl0 hloop0
              rw [List.map_cons, List.nodup_cons] at hnd
              cases i with
              | zero =>
                simp at hi
                subst hi
                rw [hcl] at hcl0
                injection hcl0 with hcl2
                subst hcl2
                rw [hloop] at hloop0
                injection hloop0 with hloop2
                rw [Prod.mk.injEq] at hloop2
                obtain ⟨_, hm0⟩ := hloop2
                subst hm0
                have hn1 : dictGetD pf "name" JValue.null ∉ ps.map profileNameOf := by
                  simpa [profileNameOf] using hnd.1
                rw [ihpres _ hn1, hkey, ppctGet_ppctSet_self]
              | succ ii =>
                simp at hi
                exact ihlook hnd.2 ii pf0 cfg0 cfg0' m0 hi hcl0 hloop0
    | null => simp [stripProfilesLoop, asObj] at h
    | bool b => simp [stripProfilesLoop, asObj] at h
    | int n => simp [stripProfilesLoop, asObj] at h
    | str s => simp [stripProfilesLoop, asObj] at h
    | arr xs => simp [stripProfilesLoop, asObj] at h

theorem getAtPath_obj_key (d : JDict) (k : String) :
    getAtPath (.obj d) [.key k] = dictGet d k := by
  cases h : dictGet d k <;> simp [getAtPath, h]

/-- Claim C9: after `strip_patch_config_tasks`, every patch config of every
profile in `resources["app_profile_list"]` has lost exactly its `runbook`
key; nothing else in the document changes (other top-level keys, other
profile keys, other config keys, list lengths); and the returned dict maps
each profile's name to a dict mapping each of its patch-config names to the
`task_definition_list` its runbook held before the call (name-keyed dicts
require the usual distinct names; duplicate names overwrite). -/
theorem claim_C9_strip_patch_config_tasks
    (res res' : JValue) (ppct : PPCT) (resD : JDict) (profiles : List JValue)
    (h : strip_patch_config_tasks res = some (res', ppct))
    (hres : res = .obj resD)
    (hpl : dictGet resD "app_profile_list" = some (.arr profiles)) :
    (∀ k, k ≠ "app_profile_list" →
      getAtPath res' [.key k] = getAtPath res [.key k]) ∧
    (∃ profiles', getAtPath res' [.key "app_profile_list"] = some (.arr profiles') ∧
      profiles'.length = profiles.length) ∧
    (∀ (i : Nat) (k : String), k ≠ "patch_list" →
      getAtPath res' [.key "app_profile_list", .idx i, .key k] =
        getAtPath res [.key "app_profile_list", .idx i, .key k]) ∧
    (∀ (i j : Nat) (cf : JDict),
      getAtPath res [.key "app_profile_list", .idx i, .key "patch_list", .idx j] =
        some (.obj cf) →
      getAtPath res' [.key "app_profile_list", .idx i, .key "patch_list", .idx j] =
        some (.obj (dictRemove cf "runbook")) ∧
      (∀ k, k ≠ "runbook" → dictGet (dictRemove cf "runbook") k = dictGet cf k) ∧
      ((cf.map Prod.fst).Nodup → dictGet (dictRemove cf "runbook") "runbook" = none)) ∧
    ((profiles.map profileNameOf).Nodup →
      ∀ (i : Nat) (pf : JDict), profiles[i]? = some (.obj pf) →
      ∃ m, ppctGet ppct (dictGetD pf "name" .null) = some m ∧
        ∀ (configs : List JValue), getListIter pf "patch_list" = some configs →
        (configs.map configNameOf).Nodup →
          ∀ (j : Nat) (cf rb : JDict), configs[j]? = some (.obj cf) →
            getObjD cf "runbook" = some rb →
            jmapGet m (dictGetD cf "name" .null) =
              some (dictGetD rb "task_definition_list" (.arr []))) := by
  subst hres
  have hiter : getListIter resD "app_profile_list" = some profiles := by
    simp [getListIter, hpl]
  cases hloop : stripProfilesLoop profiles [] with
  | none => simp [strip_patch_config_tasks, asObj, hiter, hloop] at h
  | some pr =>
    obtain ⟨profiles', ppct0⟩ := pr
    simp [strip_patch_config_tasks, asObj, hiter, hloop] at h
    obtain ⟨hres', hppct⟩ := h
    subst hres'
    subst hppct
    have hsb : setListBack resD "app_profile_list" profiles' =
        dictSet resD "app_profile_list" (.arr profiles') := by
      unfold setListBack
      rw [hpl]
    obtain ⟨slen, selem, _spres, slook⟩ :=
      stripProfilesLoop_spec profiles [] profiles' ppct0 hloop
    refine ⟨?_, ?_, ?_, ?_, ?_⟩
    · intro k hk
      rw [hsb, getAtPath_obj_key, getAtPath_obj_key, dictGet_dictSet_ne _ _ _ _ hk]
    · refine ⟨profiles', ?_, slen⟩
      rw [hsb, getAtPath_obj_key, dictGet_dictSet_self]
    · intro i k hk
      rw [hsb]
      simp only [getAtPath, dictGet_dictSet_self, hpl, Option.some_bind]
      cases hp : profiles[i]? with
      | none =>
        have hp' : profiles'[i]? = none := by
          rw [List.getElem?_eq_none_iff] at hp ⊢
          omega
        simp [getAtPath, hp, hp']
      | some p =>
        obtain ⟨pf, configs, configs', m, hpe, hcl2, hloop2, hp'⟩ := selem i p hp
        subst hpe
        simp [hp, hp', getAtPath]
        rw [setListBack_get_ne _ _ _ _ hk]
    · intro i j cf hacc
      rw [hsb]
      simp only [getAtPath, hpl, Option.some_bind] at hacc ⊢
      rw [dictGet_dictSet_self]
      cases hp : profiles[i]? with
      | none => rw [hp] at hacc; simp at hacc
      | some p =>
        rw [hp] at hacc
        obtain ⟨pf, configs, configs', m, hpe, hcl2, hloop2, hp'⟩ := selem i p hp
        subst hpe
        simp only [Option.some_bind] at hacc
        simp only [getAtPath] at hacc
        cases hpv : dictGet pf "patch_list" with
        | none => rw [hpv] at hacc; simp at hacc
        | some plv =>
          rw [hpv] at hacc
          cases plv with
          | arr cfgs =>
            simp only [Option.some_bind, getAtPath] at hacc
            cases hcj : cfgs[j]? with
            | none => rw [hcj] at hacc; simp at hacc
            | some cv =>
              rw [hcj] at hacc
              simp only [Option.some_bind] at hacc
              cases cv with
              | obj cf2 =>
                injection hacc with hacc2
                injection hacc2 with hacc3
                subst hacc3
                -- configs from the loop are exactly cfgs
                have hcfgs : configs = cfgs := by
                  rw [show getListIter pf "patch_list" = some cfgs by
                    simp [getListIter, hpv]] at hcl2
                  exact (Option.some.inj hcl2).symm
                subst hcfgs
                obtain ⟨_, celem, _, _⟩ :=
                  stripPatchConfigsLoop_spec configs [] configs' m hloop2
                obtain ⟨cf3, rb3, hc3, hrb3, hc3'⟩ := celem j (.obj cf2) hcj
                injection hc3 with hc3e
                subst hc3e
                refine ⟨?_, ?_, ?_⟩
                · have hpl2 : dictGet (setListBack pf "patch_list" configs')
                      "patch_list" = some (.arr configs') := by
                    unfold setListBack
                    rw [hpv]
                    exact dictGet_dictSet_self _ _ _
                  simp [getAtPath, hp', hpl2, hc3']
                · intro k hk
                  exact dictGet_dictRemove_ne cf2 "runbook" k hk
                · intro hnd
                  exact dictGet_dictRemove_self cf2 "runbook" hnd
              | null => simp [getAtPath] at hacc
              | bool b => simp [getAtPath] at hacc
              | int n => simp [getAtPath] at hacc
              | str s => simp [getAtPath] at hacc
              | arr xs => simp [getAtPath] at hacc
          | obj ofs => simp [getAtPath] at hacc
          | null => simp [getAtPath] at hacc
          | bool b => simp [getAtPath] at hacc
          | int n => simp [getAtPath] at hacc
          | str s => simp [getAtPath] at hacc
    · intro hnd i pf hp
      obtain ⟨pf2, configs, configs', m, hpe, hcl2, hloop2, hp'⟩ :=
        selem i (.obj pf) hp
      injection hpe with hpe2
      subst hpe2
      refine ⟨m, slook hnd i pf configs configs' m hp hcl2 hloop2, ?_⟩
      intro configs2 hcl3 hnd2 j cf rb hj hrb
      have hc2 : configs2 = configs := by
        rw [hcl2] at hcl3
        exact (Option.some.inj hcl3).symm
      rw [hc2] at hj hnd2
      obtain ⟨_, _, _, clook⟩ := stripPatchConfigsLoop_spec configs [] configs' m hloop2
      exact clook hnd2 j cf rb hj hrb

def c9task : JValue := .obj [("name", .str "T1"), ("uuid", .str "u")]

def c9cf : JDict := [("name", .str "cfg1"),
  ("runbook", .obj [("name", .str "rb"), ("task_definition_list", .arr [c9task])]),
  ("target", .str "svc")]

def c9profile : JDict := [("name", .str "P"), ("patch_list", .arr [.obj c9cf])]

def c9resD : JDict := [("app_profile_list", .arr [.obj c9profile]), ("other", .str "keep")]

def c9res : JValue := .obj c9resD

def c9res' : JValue := .obj [
  ("app_profile_list", .arr [
    .obj [("name", .str "P"),
      ("patch_list", .arr [.obj [("name", .str "cfg1"), ("target", .str "svc")]])]]),
  ("other", .str "keep")]

def c9ppct : PPCT := [(.str "P", [(.str "cfg1", .arr [c9task])])]

theorem claim_C9_witness :
    getAtPath c9res' [.key "other"] = getAtPath c9res [.key "other"] ∧
    getAtPath c9res' [.key "app_profile_list", .idx 0, .key "name"] =
      getAtPath c9res [.key "app_profile_list", .idx 0, .key "name"] ∧
    getAtPath c9res' [.key "app_profile_list", .idx 0, .key "patch_list", .idx 0] =
      some (.obj (dictRemove c9cf "runbook")) ∧
    dictGet (dictRemove c9cf "runbook") "runbook" = none ∧
    (∃ m, ppctGet c9ppct (.str "P") = some m ∧
      jmapGet m (.str "cfg1") = some (.arr [c9task])) := by
  have H := claim_C9_strip_patch_config_tasks c9res c9res' c9ppct c9resD [.obj c9profile]
    (by decide) rfl (by decide)
  refine ⟨H.1 "other" (by decide), H.2.2.1 0 "name" (by decide),
    (H.2.2.2.1 0 0 c9cf (by decide)).1,
    (H.2.2.2.1 0 0 c9cf (by decide)).2.2 (by decide), ?_⟩
  obtain ⟨m, hm, hrest⟩ := H.2.2.2.2 (by decide) 0 c9profile (by decide)
  refine ⟨m, hm, ?_⟩
  exact hrest [.obj c9cf] (by decide) (by decide) 0 c9cf
    [("name", .str "rb"), ("task_definition_list", .arr [c9task])] (by decide) (by decide)

theorem stripVariableOptionsAuth_spec (pl : JPath) (fn : String) (idx : Nat)
    (fs : JDict) (st : SSt) (v' : JValue) (st' : SSt)
    (h : stripVariableOptionsAuth pl fn idx fs st = some (v', st')) :
    ∃ fs' extra, v' = .obj fs' ∧
      st' = ⟨st.smap, st.svars ++ extra, st.nstrip⟩ ∧
      (∀ k, k ≠ "options" → dictGet fs' k = dictGet fs k) ∧
      (∀ e, e ∈ extra → (e : JPath × JValue × JValue).1 =
        pl ++ [.key fn, .idx idx, .key "options", .key "attrs",
          .key "authentication", .key "basic_auth", .key "password"]) := by
  unfold stripVariableOptionsAuth at h
  simp only [] at h
  cases h1 : (dictGetD fs "options" JValue.null).truthy with
  | false =>
    rw [h1] at h
    simp at h
    exact ⟨fs, [], h.1.symm, by cases st; cases st'; simp at h ⊢; simp [h.2.symm], 
      fun k _ => rfl, by simp⟩
  | true =>
    rw [h1] at h
    simp only [if_true] at h
    cases ho : asObj (dictGetD fs "options" JValue.null) with
    | none => rw [ho] at h; simp at h
    | some optsD =>
      rw [ho] at h
      simp only [Option.bind_eq_bind, Option.some_bind] at h
      cases h2 : (dictGetD optsD "attrs" JValue.null).truthy with
      | false =>
        rw [h2] at h
        simp at h
        exact ⟨fs, [], h.1.symm, by cases st; cases st'; simp at h ⊢; simp [h.2.symm],
          fun k _ => rfl, by simp⟩
      | true =>
        rw [h2] at h
        simp only [if_true] at h
        cases ha : asObj (dictGetD optsD "attrs" JValue.null) with
        | none => rw [ha] at h; simp at h
        | some attrsD =>
          rw [ha] at h
          simp only [Option.bind_eq_bind, Option.some_bind] at h
          cases h3 : (dictGetD attrsD "authentication" JValue.null).truthy with
          | false =>
            rw [h3] at h
            simp at h
            exact ⟨fs, [], h.1.symm, by cases st; cases st'; simp at h ⊢; simp [h.2.symm],
              fun k _ => rfl, by simp⟩
          | true =>
            rw [h3] at h
            simp only [if_true] at h
            cases hau : asObj (dictGetD attrsD "authentication" JValue.null) with
            | none => rw [hau] at h; simp at h
            | some authD =>
              rw [hau] at h
              simp only [Option.bind_eq_bind, Option.some_bind] at h
              by_cases h4 : dictGetD authD "auth_type" JValue.null = JValue.str "basic"
              · rw [if_pos h4] at h
                cases hb : asObj ((dictGet authD "basic_auth").getD JValue.null) with
                | none => rw [hb] at h; simp at h
                | some basicD =>
                  rw [hb] at h
                  simp only [Option.bind_eq_bind, Option.some_bind] at h
                  cases hpw : dictGet basicD "password" with
                  | none => rw [hpw] at h; simp at h
                  | some password =>
                    rw [hpw] at h
                    simp only [Option.bind_eq_bind, Option.some_bind] at h
                    cases hpd : asObj password with
                    | none => rw [hpd] at h; simp at h
                    | some pwD =>
                      rw [hpd] at h
                      simp only [Option.bind_eq_bind, Option.some_bind] at h
                      simp at h
                      refine ⟨_, [(pl ++ [.key fn, .idx idx, .key "options", .key "attrs",
                        .key "authentication", .key "basic_auth", .key "password"],
                        dictGetD pwD "value" .null,
                        dictGetD basicD "username" JValue.null)], h.1.symm, ?_, ?_, ?_⟩
                      · cases st; cases st'; simp at h ⊢; simp [h.2.symm]
                      · intro k hk
                        exact dictGet_dictSet_ne _ _ _ _ hk
                      · intro e he
                        simp at he
                        rw [he]
              · rw [if_neg h4] at h
                simp at h
                exact ⟨fs, [], h.1.symm,
                  by cases st; cases st'; simp at h ⊢; simp [h.2.symm],
                  fun k _ => rfl, by simp⟩

/-- Claim C2 (amended): for a SECRET-typed variable processed by the
variable loop of `strip_entity_secret_variables`, the value is detached into
`secret_variables` (keyed by `path_list + [field_name, idx]`) iff
`is_secret_modified` holds of the recorded decompiled value (name missing,
or recorded value different); an unmodified secret is left in place, and its
path and value are appended to `not_stripped_secrets` only when the value is
truthy (a falsy unmodified value, e.g. the empty string, is recorded
nowhere). -/
theorem claim_C2_amended_secret_variable (path_list : JPath) (field_name : String)
    (filtered : JMap) (idx : Nat) (fs : JDict) (st : SSt) (v' : JValue) (st' : SSt)
    (ht : dictGet fs "type" = some (.str "SECRET"))
    (h : stripOneVariable path_list field_name filtered idx (.obj fs) st = some (v', st')) :
    (is_secret_modified filtered (dictGetD fs "name" .null)
        (dictGetD fs "value" .null) = true →
      ∃ pv, dictGet fs "value" = some pv ∧
        (path_list ++ [.key field_name, .idx idx], pv, dictGetD fs "name" .null)
          ∈ st'.svars ∧
        st'.nstrip = st.nstrip ∧
        ((fs.map Prod.fst).Nodup → ∃ fs2, v' = .obj fs2 ∧
          dictGet fs2 "value" = none ∧
          dictGet fs2 "attrs" = some varAttrsPlaceholder)) ∧
    (is_secret_modified filtered (dictGetD fs "name" .null)
        (dictGetD fs "value" .null) = false →
      (∀ sv nm, ((path_list ++ [.key field_name, .idx idx], sv, nm) ∈ st'.svars ↔
        (path_list ++ [.key field_name, .idx idx], sv, nm) ∈ st.svars)) ∧
      st'.nstrip = st.nstrip ++
        (if (dictGetD fs "value" .null).truthy then
          [(path_list ++ [.key field_name, .idx idx], dictGetD fs "value" .null)]
         else []) ∧
      ∃ fs2, v' = .obj fs2 ∧ dictGet fs2 "value" = dictGet fs "value" ∧
        dictGet fs2 "type" = dictGet fs "type" ∧
        dictGet fs2 "name" = dictGet fs "name") := by
  unfold stripOneVariable at h
  simp only [asObj, Option.some_bind, Option.bind_eq_bind, ht] at h
  have hpathne : ∀ (rest : JPath), rest ≠ [] →
      path_list ++ [PathElem.key field_name, PathElem.idx idx] ≠
      path_list ++ [PathElem.key field_name, PathElem.idx idx] ++ rest := by
    intro rest hne heq
    have hlen := congrArg List.length heq
    simp at hlen
    exact hne hlen
  constructor
  · intro hmod
    rw [hmod] at h
    simp only [if_true] at h
    cases hv : dictGet fs "value" with
    | none => rw [hv] at h; simp at h
    | some pv =>
      rw [hv] at h
      simp only [Option.bind_eq_bind, Option.some_bind] at h
      obtain ⟨fs2, extra, hv', hst', hframe, hextra⟩ :=
        stripVariableOptionsAuth_spec _ _ _ _ _ _ _ h
      refine ⟨pv, rfl, ?_, ?_, ?_⟩
      · rw [hst']
        simp
      · rw [hst']
      · intro hnd
        refine ⟨fs2, hv', ?_, ?_⟩
        · rw [hframe "value" (by decide), dictGet_dictSet_ne _ _ _ _ (by decide)]
          exact dictGet_dictRemove_self fs "value" hnd
        · rw [hframe "attrs" (by decide), dictGet_dictSet_self]
  · intro hmod
    rw [hmod] at h
    simp only [Bool.false_eq_true, if_false] at h
    cases htv : (dictGetD fs "value" JValue.null).truthy with
    | true =>
      rw [htv] at h
      simp only [if_true] at h
      obtain ⟨fs2, extra, hv', hst', hframe, hextra⟩ :=
        stripVariableOptionsAuth_spec _ _ _ _ _ _ _ h
      refine ⟨?_, ?_, fs2, hv', hframe "value" (by decide),
        hframe "type" (by decide), hframe "name" (by decide)⟩
      · intro sv nm
        rw [hst']
        simp only [SSt.svars, List.mem_append]
        constructor
        · intro hc
          cases hc with
          | inl hl => exact hl
          | inr hr =>
            have := hextra _ hr
            simp at this
        · exact Or.inl
      · rw [hst']
        simp
    | false =>
      rw [htv] at h
      simp only [Bool.false_eq_true, if_false] at h
      obtain ⟨fs2, extra, hv', hst', hframe, hextra⟩ :=
        stripVariableOptionsAuth_spec _ _ _ _ _ _ _ h
      refine ⟨?_, ?_, fs2, hv', hframe "value" (by decide),
        hframe "type" (by decide), hframe "name" (by decide)⟩
      · intro sv nm
        rw [hst']
        simp only [SSt.svars, List.mem_append]
        constructor
        · intro hc
          cases hc with
          | inl hl => exact hl
          | inr hr =>
            have := hextra _ hr
            simp at this
        · exact Or.inl
      · rw [hst']
        simp

def c2fsA : JDict := [("name", .str "v"), ("type", .str "SECRET"), ("value", .str "top")]

def c2vA : JValue := .obj [("name", .str "v"), ("type", .str "SECRET"),
  ("attrs", varAttrsPlaceholder)]

def c2stA : SSt := ⟨[], [([.key "variable_list", .idx 0], .str "top", .str "v")], []⟩

def c2fsB : JDict := [("name", .str "w"), ("type", .str "SECRET"), ("value", .str "keep")]

def c2vB : JValue := .obj c2fsB

def c2stB : SSt := ⟨[], [], [([.key "variable_list", .idx 0], .str "keep")]⟩

def c2dec : Decompiled := [("svc.S.variable_list", [(.str "v", .str "")])]

def c2res : JValue := .obj [("svc", .arr [.obj [("name", .str "S"),
  ("variable_list", .arr [.obj [("name", .str "v"), ("type", .str "SECRET"),
    ("value", .str "")]])]])]

/-- C2 counterexample: a SECRET variable whose name and value equal the recorded
decompiled ones (here the falsy value "") is indeed left in place, but nothing is
appended to not_stripped_secrets: strip_secrets returns the document unchanged with
empty secret_variables AND empty not_stripped_secrets, because the code only records
an unmodified secret when its value is truthy (`elif value:`). This refutes the
claim's clause "its path and value are appended to not_stripped_secrets instead". -/
theorem claim_C2_counterexample :
    is_secret_modified (get_secrets_from_context c2dec "svc.S.variable_list")
      (.str "v") (.str "") = false ∧
    strip_secrets c2res [] [] ["svc"] [] c2dec [] = some (c2res, ⟨[], [], []⟩) := by
  constructor
  · decide
  · decide

/-- C2 witness: instantiates the amended theorem twice. A modified SECRET variable
(recorded values empty, current value "top") is detached into secret_variables at
path [variable_list, 0] with its value removed and attrs set to the placeholder;
an unmodified truthy SECRET variable ("keep" matching the recorded value) stays in
place, adds nothing to secret_variables, and its path/value are appended to
not_stripped_secrets. -/
theorem claim_C2_witness :
    (∃ pv, dictGet c2fsA "value" = some pv ∧
      ([.key "variable_list", .idx 0], pv, JValue.str "v") ∈ c2stA.svars ∧
      c2stA.nstrip = [] ∧
      ((c2fsA.map Prod.fst).Nodup → ∃ fs2, c2vA = .obj fs2 ∧
        dictGet fs2 "value" = none ∧
        dictGet fs2 "attrs" = some varAttrsPlaceholder)) ∧
    ((([.key "variable_list", .idx 0], JValue.str "keep", JValue.str "w")
        ∈ c2stB.svars ↔
      ([.key "variable_list", .idx 0], JValue.str "keep", JValue.str "w")
        ∈ ([] : List (JPath × JValue × JValue))) ∧
      c2stB.nstrip = [([.key "variable_list", .idx 0], .str "keep")] ∧
      ∃ fs2, c2vB = .obj fs2 ∧ dictGet fs2 "value" = dictGet c2fsB "value" ∧
        dictGet fs2 "type" = dictGet c2fsB "type" ∧
        dictGet fs2 "name" = dictGet c2fsB "name") := by
  have hA := (claim_C2_amended_secret_variable [] "variable_list" [] 0 c2fsA
    ⟨[], [], []⟩ c2vA c2stA (by decide) (by decide)).1 (by decide)
  have hB := (claim_C2_amended_secret_variable [] "variable_list"
    [(.str "w", .str "keep")] 0 c2fsB
    ⟨[], [], []⟩ c2vB c2stB (by decide) (by decide)).2 (by decide)
  exact ⟨hA, hB.1 (.str "keep") (.str "w"), hB.2.1, hB.2.2⟩

def c3res : JValue := .obj [("service_definition_list", .arr [.obj [("name", .str "S"),
  ("variable_list", .arr [
    .obj [("name", .str "v"), ("type", .str "SECRET"), ("value", .str "pw")],
    .obj [("name", .str "w"), ("type", .str "LOCAL"), ("value", .str "pw")]])]])]

def c3res' : JValue := .obj [("service_definition_list", .arr [.obj [("name", .str "S"),
  ("variable_list", .arr [
    .obj [("name", .str "v"), ("type", .str "SECRET"), ("attrs", varAttrsPlaceholder)],
    .obj [("name", .str "w"), ("type", .str "LOCAL"), ("value", .str "pw")]])]])]

def c3st : SSt :=
  ⟨[], [([.key "service_definition_list", .idx 0, .key "variable_list", .idx 0],
    .str "pw", .str "v")], []⟩

/-- C3 counterexample to "no detached secret value remains anywhere in the
resources document": the SECRET variable `v` has its value "pw" detached into
secret_variables and replaced by the placeholder, but the same value "pw" sits
in the non-secret LOCAL variable `w`, which strip_secrets does not touch, so the
detached secret value still occurs in the returned document. -/
theorem claim_C3_counterexample :
    strip_secrets c3res [] [] ["service_definition_list"] [] [] [] =
      some (c3res', c3st) ∧
    ([.key "service_definition_list", .idx 0, .key "variable_list", .idx 0],
      JValue.str "pw", JValue.str "v") ∈ c3st.svars ∧
    getAtPath c3res' [.key "service_definition_list", .idx 0, .key "variable_list",
      .idx 1, .key "value"] = some (.str "pw") := by
  refine ⟨by decide, by decide, by decide⟩

/-- C3 (amended): per-location placeholder postcondition.  (a) A credential
whose secret is detached by the `for cred in creds` loop has its `secret` field
replaced by `{"attrs": {"is_secret_modified": False, "secret_reference": None}}`
and the original secret object stored in secret_map under the credential's name.
(b) A SECRET variable whose modified value is detached by
strip_entity_secret_variables has the value recorded in secret_variables at its
path, the `value` key removed, and `attrs` set to `{"is_secret_modified": False,
"secret_reference": None}`.  (c) A modified basic-auth password detached by
strip_authentication_secret_variables is recorded in secret_variables at
path + [authentication, basic_auth, password] and the `password` field is
replaced by `{"attrs": {"is_secret_modified": False}}`.  (The claim's further
"no detached secret value remains anywhere in the document" is dropped: an
equal value elsewhere in a non-secret field is untouched.) -/
theorem claim_C3_amended_placeholders :
    (∀ (filtered : JMap) (fs : JDict) (st : SSt) (v' : JValue) (st' : SSt)
        (name secret : JValue) (sd : JDict) (value : JValue),
      dictGet fs "name" = some name →
      dictGet fs "secret" = some secret →
      secret = .obj sd →
      dictGet sd "value" = some value →
      is_secret_modified filtered name value = true →
      stripOneCred filtered (.obj fs) st = some (v', st') →
      st'.smap = jmapSet st.smap name secret ∧
      ∃ fs2, v' = .obj fs2 ∧ dictGet fs2 "secret" = some credSecretPlaceholder) ∧
    (∀ (path_list : JPath) (field_name : String) (filtered : JMap) (idx : Nat)
        (fs : JDict) (st : SSt) (v' : JValue) (st' : SSt) (pv : JValue),
      dictGet fs "type" = some (.str "SECRET") →
      dictGet fs "value" = some pv →
      is_secret_modified filtered (dictGetD fs "name" .null)
        (dictGetD fs "value" .null) = true →
      stripOneVariable path_list field_name filtered idx (.obj fs) st = some (v', st') →
      (path_list ++ [.key field_name, .idx idx], pv, dictGetD fs "name" .null)
        ∈ st'.svars ∧
      ((fs.map Prod.fst).Nodup → ∃ fs2, v' = .obj fs2 ∧ dictGet fs2 "value" = none ∧
        dictGet fs2 "attrs" = some varAttrsPlaceholder)) ∧
    (∀ (dec : Decompiled) (path_list : JPath) (obj : JDict) (st : SSt)
        (ctx nm : String) (obj' : JDict) (st' : SSt) (auth pw : JDict) (pv : JValue),
      dictGet obj "name" = some (.str nm) →
      dictGet obj "authentication" = some (.obj auth) →
      dictGetD auth "auth_type" .null = .str "basic" →
      dictGet auth "password" = some (.obj pw) →
      dictGet pw "value" = some pv →
      is_secret_modified
        (get_secrets_from_context dec (ctx ++ "." ++ nm ++ ".basic_auth"))
        (dictGetD pw "name" .null) (dictGetD pw "value" .null) = true →
      strip_authentication_secret_variables dec path_list obj st ctx = some (obj', st') →
      st'.svars = st.svars ++ [(path_list ++ [.key "authentication", .key "basic_auth",
        .key "password"], pv, dictGetD pw "name" .null)] ∧
      ∃ auth2, dictGet obj' "authentication" = some (.obj auth2) ∧
        dictGet auth2 "password" = some authPwdPlaceholder) := by
  refine ⟨?_, ?_, ?_⟩
  · intro filtered fs st v' st' name secret sd value hname hsec hsd hval hmod h
    subst hsd
    unfold stripOneCred at h
    simp only [asObj, Option.bind_eq_bind, Option.some_bind, hname, hsec, hval,
      hmod, if_true] at h
    obtain ⟨hv', hst'⟩ := Prod.mk.injEq .. ▸ Option.some.injEq .. ▸ h
    refine ⟨?_, ?_⟩
    · rw [← hst']
    · exact ⟨_, hv'.symm, dictGet_dictSet_self _ _ _⟩
  · intro path_list field_name filtered idx fs st v' st' pv ht hv hmod h
    unfold stripOneVariable at h
    simp only [asObj, Option.some_bind, Option.bind_eq_bind, ht] at h
    rw [hmod] at h
    simp only [if_true] at h
    rw [hv] at h
    simp only [Option.bind_eq_bind, Option.some_bind] at h
    obtain ⟨fs2, extra, hv', hst', hframe, hextra⟩ :=
      stripVariableOptionsAuth_spec _ _ _ _ _ _ _ h
    constructor
    · rw [hst']
      simp
    · intro hnd
      refine ⟨fs2, hv', ?_, ?_⟩
      · rw [hframe "value" (by decide), dictGet_dictSet_ne _ _ _ _ (by decide)]
        exact dictGet_dictRemove_self fs "value" hnd
      · rw [hframe "attrs" (by decide), dictGet_dictSet_self]
  · intro dec path_list obj st ctx nm obj' st' auth pw pv hnm hauth hbasic hpw hval hmod h
    unfold strip_authentication_secret_variables at h
    simp only [hnm, getObjD, hauth, asObj, Option.bind_eq_bind, Option.some_bind,
      Option.pure_def, hbasic, if_true, hpw, hval, Option.getD, hmod] at h
    obtain ⟨ho', hst'⟩ := Prod.mk.injEq .. ▸ Option.some.injEq .. ▸ h
    refine ⟨?_, ?_⟩
    · rw [← hst']
    · exact ⟨_, ho' ▸ dictGet_dictSet_self _ _ _, dictGet_dictSet_self _ _ _⟩

def c3credFs : JDict := [("name", .str "c"), ("secret", .obj [("value", .str "s")])]

def c3credV : JValue := .obj [("name", .str "c"), ("secret", credSecretPlaceholder)]

def c3credSt : SSt := ⟨[(.str "c", .obj [("value", .str "s")])], [], []⟩

def c3varFs : JDict := [("name", .str "x"), ("type", .str "SECRET"), ("value", .str "s3")]

def c3varV : JValue := .obj [("name", .str "x"), ("type", .str "SECRET"),
  ("attrs", varAttrsPlaceholder)]

def c3varSt : SSt := ⟨[], [([.key "variable_list", .idx 0], .str "s3", .str "x")], []⟩

def c3epAuth : JDict := [("auth_type", .str "basic"),
  ("password", .obj [("name", .str "u"), ("value", .str "pw3")])]

def c3epObj : JDict := [("name", .str "E"), ("authentication", .obj c3epAuth)]

def c3epPw : JDict := [("name", .str "u"), ("value", .str "pw3")]

def c3epObj' : JDict := [("name", .str "E"), ("authentication",
  .obj [("auth_type", .str "basic"), ("password", authPwdPlaceholder)])]

def c3epSt : SSt := ⟨[], [([.key "authentication", .key "basic_auth", .key "password"],
  .str "pw3", .str "u")], []⟩

/-- C3 witness: the amended theorem applied to a concrete credential (secret "s"
detached into secret_map under name "c" and replaced by the placeholder), a
concrete SECRET variable (value "s3" detached at [variable_list, 0], value key
removed, attrs set to the placeholder), and a concrete endpoint object (basic-auth
password "pw3" detached at [authentication, basic_auth, password] and replaced by
the placeholder). -/
theorem claim_C3_witness :
    (c3credSt.smap = [(.str "c", .obj [("value", .str "s")])] ∧
      ∃ fs2, c3credV = .obj fs2 ∧ dictGet fs2 "secret" = some credSecretPlaceholder) ∧
    (([.key "variable_list", .idx 0], JValue.str "s3", JValue.str "x")
      ∈ c3varSt.svars) ∧
    (∃ fs2, c3varV = .obj fs2 ∧ dictGet fs2 "value" = none ∧
      dictGet fs2 "attrs" = some varAttrsPlaceholder) ∧
    c3epSt.svars = [([.key "authentication", .key "basic_auth", .key "password"],
      .str "pw3", .str "u")] ∧
    ∃ auth2, dictGet c3epObj' "authentication" = some (.obj auth2) ∧
      dictGet auth2 "password" = some authPwdPlaceholder := by
  have hA := claim_C3_amended_placeholders.1 [] c3credFs ⟨[], [], []⟩ c3credV c3credSt
    (.str "c") (.obj [("value", .str "s")]) [("value", .str "s")] (.str "s")
    rfl rfl rfl rfl (by decide) (by decide)
  have hB := claim_C3_amended_placeholders.2.1 [] "variable_list" [] 0 c3varFs
    ⟨[], [], []⟩ c3varV c3varSt (.str "s3") rfl rfl (by decide) (by decide)
  have hC := claim_C3_amended_placeholders.2.2 [] [] c3epObj ⟨[], [], []⟩ "ep" "E"
    c3epObj' c3epSt c3epAuth c3epPw (.str "pw3") rfl rfl (by decide) rfl rfl
    (by decide) (by decide)
  exact ⟨⟨hA.1, hA.2⟩, hB.1, hB.2 (by decide), hC.1, hC.2⟩

/-! ## cli/acps.py and cli/mpis.py: CLI error surfacing

Each handler is embedded as a pure function from an environment (the REST
client responses and the library helpers that live outside `src/`) to the
list of emitted log/echo events and a process outcome.  `click`,
`PrettyTable` and `arrow` rendering is abstracted into structured events
carrying the data being printed; `sys.exit(code)` becomes `.exited code`
and an uncaught `raise`/KeyError becomes `.raised`. -/

inductive CliEvent where
  | logWarning (msg : String)
  | logError (msg : String)
  | logInfo (msg : String)
  | echoHighlight (msg : String)
  | echoVal (v : JValue)
  | echoJson (v : JValue)
  | echoTable (rows : JValue)
  | warnNoProject (uuid : JValue)
  | echoDeleteTriggered (uuid : JValue)
deriving DecidableEq

inductive Outcome where
  | finished
  | exited (code : Int)
  | raised (msg : String)
deriving DecidableEq

/-- The pieces of the runtime the handlers read: `config["SERVER"]["pc_ip"]`,
`client.acp.list` (as the pair `(err, res.json())`, the error abstracted to
its message), `client.acp.get_name_uuid_map(params)`, `client.acp.read`
(whose `err` the code never checks, so only `res.json()` is kept),
`projects_internal` read, `client.project.update` (only `err` is consumed),
and the `categories/AppFamily` list (its `err` as `(code, error)`). -/
structure CliEnv where
  pcIp : String
  acpList : Option String × JValue
  nameUuidMap : JDict
  acpRead : JValue → JValue
  projRead : JValue → Option String × JValue
  projUpdate : JValue → JValue → Option String
  afList : Option (String × String) × JValue

def strHeadSemi (s : String) : Bool :=
  match s.data with
  | c :: _ => c = ';'
  | [] => false

def strTail1 (s : String) : String :=
  match s.data with
  | _ :: cs => ⟨cs⟩
  | [] => ""

/-- The `if quiet` loop of `get_acps`: `row = _row["status"];
click.echo(highlight_text(row["name"]))`. -/
def acpQuietLoop : List JValue → Option (List CliEvent)
  | [] => some []
  | r :: rs => do
    let rD ← asObj r
    let row ← dictGet rD "status"
    let rowD ← asObj row
    let nm ← dictGet rowD "name"
    let evs ← acpQuietLoop rs
    pure (.echoVal nm :: evs)

/-- The cells of one PrettyTable row of `get_acps`:
`[row["name"], row["state"], role, project_name, metadata["uuid"]]`. -/
def acpTableRow (r : JValue) : Option JValue := do
  let rD ← asObj r
  let row ← dictGet rD "status"
  let rowD ← asObj row
  let metadata ← dictGet rD "metadata"
  let mdD ← asObj metadata
  let resources ← dictGet rowD "resources"
  let resD ← asObj resources
  let roleRef ← getObjD resD "role_reference"
  let role := dictGetD roleRef "name" (.str "-")
  let projRef ← getObjD mdD "project_reference"
  let project_name := dictGetD projRef "name" (.str "-")
  let nm ← dictGet rowD "name"
  let stt ← dictGet rowD "state"
  let u ← dictGet mdD "uuid"
  pure (.arr [nm, stt, role, project_name, u])

/-- The PrettyTable loop of `get_acps`: one `table.add_row` per entity. -/
def acpTableLoop : List JValue → Option (List JValue)
  | [] => some []
  | r :: rs => do
    let cells ← acpTableRow r
    let rest ← acpTableLoop rs
    pure (cells :: rest)

/-- `get_acps(name, filter_by, limit, offset, quiet, out)`.  `limit`/`offset`
only populate `params` for the API call, which the environment abstracts;
`get_name_query([name])` lives outside `src/` and is passed in as
`nameQuery`. -/
def get_acps (env : CliEnv) (name filter_by nameQuery : String)
    (quiet : Bool) (out : String) : List CliEvent × Outcome :=
  let filter_query := if name ≠ "" then nameQuery else ""
  let filter_query :=
    if filter_by ≠ "" then filter_query ++ ";(" ++ filter_by ++ ")" else filter_query
  let _filter_query :=
    if strHeadSemi filter_query then strTail1 filter_query else filter_query
  match env.acpList with
  | (some _, _) => ([.logWarning ("Cannot fetch acps from " ++ env.pcIp)], .finished)
  | (none, res) =>
    if out = "json" then ([.echoJson res], .finished)
    else
      match res with
      | .obj resD =>
        match dictGet resD "entities" with
        | none => ([], .raised "KeyError")
        | some json_rows =>
          if json_rows.truthy = false then
            ([.echoHighlight "No acp found !!!\n"], .finished)
          else
            match json_rows with
            | .arr rows =>
              if quiet then
                match acpQuietLoop rows with
                | none => ([], .raised "KeyError")
                | some evs => (evs, .finished)
              else
                match acpTableLoop rows with
                | none => ([], .raised "KeyError")
                | some cells => ([.echoTable (.arr cells)], .finished)
            | _ => ([], .raised "TypeError")
      | _ => ([], .raised "TypeError")

/-- The `for _row in project_payload["spec"].get("access_control_policy_list",
[])` loop: set `operation` to DELETE on the row whose metadata uuid matches,
UPDATE otherwise. -/
def acpOpRowsLoop (acp_uuid : JValue) : List JValue → Option (List JValue)
  | [] => some []
  | r :: rs => do
    let rD ← asObj r
    let md ← dictGet rD "metadata"
    let mdD ← asObj md
    let u ← dictGet mdD "uuid"
    let rD := dictSet rD "operation" (if u = acp_uuid then .str "DELETE" else .str "UPDATE")
    let rest ← acpOpRowsLoop acp_uuid rs
    pure (.obj rD :: rest)

/-- `delete_acp_using_projects_internal_api(acp_uuid)`.  Note the code unpacks
`res, err = client.acp.read(acp_uuid)` and never checks `err`. -/
def delete_acp_using_projects_internal_api (env : CliEnv) (acp_uuid : JValue) :
    List CliEvent × Outcome :=
  match asObj (env.acpRead acp_uuid) with
  | none => ([], .raised "TypeError")
  | some resD =>
    match dictGet resD "metadata" with
    | none => ([], .raised "KeyError")
    | some md =>
      match asObj md with
      | none => ([], .raised "AttributeError")
      | some mdD =>
        match getObjD mdD "project_reference" with
        | none => ([], .raised "AttributeError")
        | some pr =>
          let project_uuid := dictGetD pr "uuid" .null
          if project_uuid.truthy = false then
            ([.warnNoProject acp_uuid], .finished)
          else
            match env.projRead project_uuid with
            | (some e, _) => ([.logError e], .exited (-1))
            | (none, pj) =>
              match asObj pj with
              | none => ([], .raised "AttributeError")
              | some pjD =>
                let pjD := dictRemove pjD "status"
                match dictGet pjD "spec" with
                | none => ([], .raised "KeyError")
                | some spec =>
                  match asObj spec with
                  | none => ([], .raised "AttributeError")
                  | some specD =>
                    match getListIter specD "access_control_policy_list" with
                    | none => ([], .raised "TypeError")
                    | some rows =>
                      match acpOpRowsLoop acp_uuid rows with
                      | none => ([], .raised "KeyError")
                      | some rows2 =>
                        let specD := setListBack specD "access_control_policy_list" rows2
                        let pjD := dictSet pjD "spec" (.obj specD)
                        match env.projUpdate project_uuid (.obj pjD) with
                        | some e => ([.logError e], .exited (-1))
                        | none => ([.echoDeleteTriggered acp_uuid], .finished)

/-- `for _uuid in acp_uuid: delete_acp_using_projects_internal_api(_uuid)`
(the `isinstance(acp_uuid, list)` branch). -/
def delAcpUuidList (env : CliEnv) : List JValue → List CliEvent × Outcome
  | [] => ([], .finished)
  | u :: us =>
    match delete_acp_using_projects_internal_api env u with
    | (evs, .finished) =>
      let (evs2, oc) := delAcpUuidList env us
      (evs ++ evs2, oc)
    | r => r

/-- The second (effective) `delete_acp(acp_names)` definition of acps.py;
Python's redefinition shadows the first. -/
def delete_acp (env : CliEnv) : List String → List CliEvent × Outcome
  | [] => ([], .finished)
  | a :: rest =>
    let acp_uuid := dictGetD env.nameUuidMap a (.str "")
    if acp_uuid.truthy = false then
      ([.logError ("ACP " ++ a ++ " not found.")], .exited (-1))
    else
      let r :=
        match acp_uuid with
        | .arr us => delAcpUuidList env us
        | uv => delete_acp_using_projects_internal_api env uv
      match r with
      | (evs, .finished) =>
        let (evs2, oc) := delete_acp env rest
        (evs ++ [.logInfo ("ACP " ++ a ++ " deleted")] ++ evs2, oc)
      | r2 => r2

/-- The `for entity in res["entities"]: categories.append(entity["value"])`
loop of `get_app_family_list`. -/
def afEntitiesLoop : List JValue → Option (List JValue)
  | [] => some []
  | e :: es => do
    let eD ← asObj e
    let v ← dictGet eD "value"
    let rest ← afEntitiesLoop es
    pure (v :: rest)

/-- `get_app_family_list()` from mpis.py; `raise Exception("[{}] - {}"...)`
becomes `.raised`, and the returned category list is the third component. -/
def get_app_family_list (env : CliEnv) :
    List CliEvent × Outcome × Option (List JValue) :=
  match env.afList with
  | (some (c, e), _) => ([], .raised ("[" ++ c ++ "] - " ++ e), none)
  | (none, res) =>
    match asObj res with
    | none => ([], .raised "TypeError", none)
    | some rD =>
      match dictGet rD "entities" with
      | none => ([], .raised "KeyError", none)
      | some ents =>
        match ents with
        | .arr es =>
          match afEntitiesLoop es with
          | none => ([], .raised "KeyError", none)
          | some cats => ([], .finished, some cats)
        | .obj [] => ([], .finished, some [])
        | .str "" => ([], .finished, some [])
        | _ => ([], .raised "TypeError", none)

def c5env : CliEnv :=
  ⟨"10.0.0.1",
   (some "connection error", .null),
   [("a", .str "u1")],
   fun _ => .obj [("metadata", .obj [("kind", .str "access_control_policy")])],
   fun _ => (none, .null),
   fun _ _ => none,
   (some ("500", "INTERNAL_ERROR"), .null)⟩

/-- C5 counterexample: two handlers detect an error and do NOT exit the
process.  `get_acps` on a failed list call logs a warning and returns,
finishing normally; `delete_acp` on an ACP whose read result references no
project logs a warning, then continues, logs "ACP a deleted" anyway, and
finishes normally.  This refutes "surfaces the error by printing or logging a
message and exiting the process; no handler recovers, retries, or continues
past a detected error". -/
theorem claim_C5_counterexample :
    get_acps c5env "" "" "" false "text" =
      ([.logWarning "Cannot fetch acps from 10.0.0.1"], .finished) ∧
    delete_acp c5env ["a"] =
      ([.warnNoProject (.str "u1"), .logInfo "ACP a deleted"], .finished) := by
  constructor
  · rfl
  · rfl

/-- C5 (amended): the CLI handlers surface detected errors in three distinct
ways.  (a) `get_acps` on a failed list call logs a warning and returns
normally (no exit).  (b) `delete_acp` on a name missing from the uuid map
logs an error and exits with -1; (c) but when an ACP's read result lacks a
project reference it only logs a warning and continues with the remaining
names (logging "deleted" for the not-deleted ACP).  (d)
`get_app_family_list` on a failed list call raises an exception instead of
printing and exiting. -/
theorem claim_C5_amended_error_surfacing :
    (∀ (env : CliEnv) (name filter_by nameQuery : String) (quiet : Bool)
        (out msg : String) (res : JValue),
      env.acpList = (some msg, res) →
      get_acps env name filter_by nameQuery quiet out =
        ([.logWarning ("Cannot fetch acps from " ++ env.pcIp)], .finished)) ∧
    (∀ (env : CliEnv) (a : String) (rest : List String),
      (dictGetD env.nameUuidMap a (.str "")).truthy = false →
      delete_acp env (a :: rest) =
        ([.logError ("ACP " ++ a ++ " not found.")], .exited (-1))) ∧
    (∀ (env : CliEnv) (a : String) (rest : List String) (u : String)
        (md meta pr : JDict),
      dictGetD env.nameUuidMap a (.str "") = .str u →
      (JValue.str u).truthy = true →
      env.acpRead (.str u) = .obj md →
      dictGet md "metadata" = some (.obj meta) →
      getObjD meta "project_reference" = some pr →
      (dictGetD pr "uuid" .null).truthy = false →
      delete_acp env (a :: rest) =
        ([.warnNoProject (.str u), .logInfo ("ACP " ++ a ++ " deleted")] ++
          (delete_acp env rest).1, (delete_acp env rest).2)) ∧
    (∀ (env : CliEnv) (c e : String) (res : JValue),
      env.afList = (some (c, e), res) →
      get_app_family_list env = ([], .raised ("[" ++ c ++ "] - " ++ e), none)) := by
  refine ⟨?_, ?_, ?_, ?_⟩
  · intro env name filter_by nameQuery quiet out msg res h
    unfold get_acps
    rw [h]
  · intro env a rest h
    unfold delete_acp
    simp [h]
  · intro env a rest u md meta pr hu htr hread hmeta hpr hpu
    rcases hrest : delete_acp env rest with ⟨evs2, oc⟩
    conv_lhs => rw [delete_acp]
    simp only [hu, htr, Bool.true_eq_false, if_false]
    unfold delete_acp_using_projects_internal_api
    rw [hread]
    simp only [asObj, hmeta, hpr, hpu, Bool.false_eq_true, if_true, hrest]
    simp
  · intro env c e res h
    unfold get_app_family_list
    rw [h]

/-- C5 witness: the amended theorem applied to the concrete environment
`c5env` - a failed acp list call (warn + return), a name missing from the
uuid map (error + exit -1), an ACP without a project reference (warn, then
continue with the remaining names), and a failed AppFamily list call
(raised exception). -/
theorem claim_C5_witness :
    get_acps c5env "x" "y" "nq" true "json" =
      ([.logWarning ("Cannot fetch acps from " ++ c5env.pcIp)], .finished) ∧
    delete_acp c5env ["missing"] =
      ([.logError ("ACP " ++ "missing" ++ " not found.")], .exited (-1)) ∧
    delete_acp c5env ["a", "missing"] =
      ([.warnNoProject (.str "u1"), .logInfo ("ACP " ++ "a" ++ " deleted")] ++
        (delete_acp c5env ["missing"]).1, (delete_acp c5env ["missing"]).2) ∧
    get_app_family_list c5env =
      ([], .raised ("[" ++ "500" ++ "] - " ++ "INTERNAL_ERROR"), none) := by
  refine ⟨?_, ?_, ?_, ?_⟩
  · exact claim_C5_amended_error_surfacing.1 c5env "x" "y" "nq" true "json"
      "connection error" .null rfl
  · exact claim_C5_amended_error_surfacing.2.1 c5env "missing" [] (by decide)
  · exact claim_C5_amended_error_surfacing.2.2.1 c5env "a" ["missing"] "u1"
      [("metadata", .obj [("kind", .str "access_control_policy")])]
      [("kind", .str "access_control_policy")] [] rfl (by decide) rfl rfl rfl
      (by decide)
  · exact claim_C5_amended_error_surfacing.2.2.2 c5env "500" "INTERNAL_ERROR"
      .null rfl

theorem list_set_getElem_self {α : Type} (xs : List α) (i : Nat) (a : α)
    (h : i < xs.length) : (xs.set i a)[i]? = some a := by
  induction xs generalizing i with
  | nil => simp at h
  | cons hd tl ih =>
    cases i with
    | zero => simp
    | succ j =>
      simp only [List.set]
      simpa using ih j (by simpa using h)

/-- `patch_secrets`' descent loop succeeds on a path that resolves to a dict
in the document and rewrites exactly that dict with `upd`. -/
theorem patchWalk_resolves (upd : JDict → JDict) (p : JPath) :
    ∀ (doc : JValue) (fs : JDict),
      getAtPath doc p = some (.obj fs) →
      ∃ doc', patchWalk upd doc p = some doc' ∧
        getAtPath doc' p = some (.obj (upd fs)) := by
  induction p with
  | nil =>
    intro doc fs h
    simp only [getAtPath, Option.some.injEq] at h
    subst h
    exact ⟨.obj (upd fs), rfl, rfl⟩
  | cons pe rest ih =>
    intro doc fs h
    cases pe with
    | key k =>
      cases doc with
      | obj fs0 =>
        simp only [getAtPath] at h
        cases hk : dictGet fs0 k with
        | none => rw [hk] at h; simp at h
        | some child =>
          rw [hk, Option.some_bind] at h
          obtain ⟨doc', hw, hg⟩ := ih child fs h
          refine ⟨.obj (dictSet fs0 k doc'), ?_, ?_⟩
          · simp only [patchWalk, hk]
            rw [hw]
          · simp only [getAtPath]
            rw [dictGet_dictSet_self, Option.some_bind]
            exact hg
      | null => simp [getAtPath] at h
      | bool b => simp [getAtPath] at h
      | int n => simp [getAtPath] at h
      | str s => simp [getAtPath] at h
      | arr xs => simp [getAtPath] at h
    | idx i =>
      cases doc with
      | arr xs =>
        simp only [getAtPath] at h
        cases hx : xs[i]? with
        | none => rw [hx] at h; simp at h
        | some child =>
          rw [hx, Option.some_bind] at h
          obtain ⟨doc', hw, hg⟩ := ih child fs h
          have hlt : i < xs.length := by
            by_contra hc
            rw [List.getElem?_eq_none (Nat.le_of_not_lt hc)] at hx
            exact Option.noConfusion hx
          have hget : xs.get ⟨i, hlt⟩ = child := by
            have h2 := List.getElem?_eq_getElem hlt
            rw [h2] at hx
            exact Option.some.inj hx
          refine ⟨.arr (xs.set i doc'), ?_, ?_⟩
          · simp only [patchWalk]
            rw [dif_pos hlt, hget, hw]

          · simp only [getAtPath]
            rw [list_set_getElem_self xs i doc' hlt, Option.some_bind]
            exact hg
      | null => simp [getAtPath] at h
      | bool b => simp [getAtPath] at h
      | int n => simp [getAtPath] at h
      | str s => simp [getAtPath] at h
      | obj fs0 => simp [getAtPath] at h

def c1res : JValue := .obj [("service_definition_list", .arr [.obj [("name", .str "S"),
  ("authentication", .obj [("auth_type", .str "basic"),
    ("password", .obj [("name", .str "u"), ("value", .str "pw")])])]])]

def c1doc : JValue := .obj [("service_definition_list", .arr [.obj [("name", .str "S"),
  ("authentication", .obj [("auth_type", .str "basic"),
    ("password", authPwdPlaceholder)])]])]

def c1st : SSt :=
  ⟨[], [([.key "service_definition_list", .idx 0, .key "authentication",
    .key "basic_auth", .key "password"], .str "pw", .str "u")], []⟩

/-- C1 counterexample: strip_authentication_secret_variables records the path
`... + ["authentication", "basic_auth", "password"]` for a detached basic-auth
password, but the document stores the password at
`...["authentication"]["password"]` - there is no "basic_auth" key.  patch_secrets'
descent loop breaks on the missing key and silently skips the entry, so the
stripped location never regains its value: the round trip loses the secret. -/
theorem claim_C1_counterexample :
    strip_secrets c1res [] [] ["service_definition_list"] [] [] [] =
      some (c1doc, c1st) ∧
    patch_secrets c1doc c1st.smap c1st.svars [] = some c1doc ∧
    getAtPath c1res [.key "service_definition_list", .idx 0, .key "authentication",
      .key "password", .key "value"] = some (.str "pw") ∧
    getAtPath c1doc [.key "service_definition_list", .idx 0, .key "authentication",
      .key "password", .key "value"] = none := by
  refine ⟨by decide, by decide, by decide, by decide⟩

/-- C1 (amended): the re-attachment half of the round trip holds where the
recorded path actually resolves.  (a) A credential whose modified secret was
detached by strip_secrets' credential loop is restored by patch_secrets'
credential loop: looking its name up in the resulting secret_map yields the
original secret object, which patch writes back into the cred's "secret"
field.  (b) A SECRET variable whose modified value was detached is recorded
in secret_variables at path `path_list + [field_name, idx]`; whenever that
path resolves to the stripped variable dict in the transmitted document,
patch_secrets' entry application rewrites the dict so that "value" again
holds the original secret and attrs.is_secret_modified is True.  (Recorded
authentication basic-auth paths need not resolve - they contain a
"basic_auth" component absent from the document - and such entries are
silently skipped; duplicate credential names collapse secret_map to the last
secret.) -/
theorem claim_C1_amended_roundtrip :
    (∀ (filtered : JMap) (fs : JDict) (st : SSt) (v' : JValue) (st' : SSt)
        (name secret : JValue) (sd : JDict) (value : JValue),
      dictGet fs "name" = some name →
      dictGet fs "secret" = some secret →
      secret = .obj sd →
      dictGet sd "value" = some value →
      is_secret_modified filtered name value = true →
      stripOneCred filtered (.obj fs) st = some (v', st') →
      ∃ fs2, patchCred st'.smap v' = some (.obj fs2) ∧
        dictGet fs2 "secret" = some secret) ∧
    (∀ (path_list : JPath) (field_name : String) (filtered : JMap) (idx : Nat)
        (fs : JDict) (st : SSt) (v' : JValue) (st' : SSt) (pv : JValue)
        (doc : JValue) (fs2 : JDict),
      dictGet fs "type" = some (.str "SECRET") →
      dictGet fs "value" = some pv →
      is_secret_modified filtered (dictGetD fs "name" .null)
        (dictGetD fs "value" .null) = true →
      stripOneVariable path_list field_name filtered idx (.obj fs) st = some (v', st') →
      v' = .obj fs2 →
      getAtPath doc (path_list ++ [.key field_name, .idx idx]) = some v' →
      (path_list ++ [.key field_name, .idx idx], pv, dictGetD fs "name" .null)
        ∈ st'.svars ∧
      ∃ doc' g,
        applySecretVar doc (path_list ++ [.key field_name, .idx idx], pv,
          dictGetD fs "name" .null) = some doc' ∧
        getAtPath doc' (path_list ++ [.key field_name, .idx idx]) = some (.obj g) ∧
        dictGet g "value" = some pv ∧
        dictGet g "attrs" = some (.obj [("is_secret_modified", .bool true)])) := by
  constructor
  · intro filtered fs st v' st' name secret sd value hname hsec hsd hval hmod h
    subst hsd
    unfold stripOneCred at h
    simp only [asObj, Option.bind_eq_bind, Option.some_bind, hname, hsec, hval,
      hmod, if_true] at h
    obtain ⟨hv', hst'⟩ := Prod.mk.injEq .. ▸ Option.some.injEq .. ▸ h
    have hn : dictGet (dictSet (dictRemove fs "secret") "secret"
        credSecretPlaceholder) "name" = some name := by
      rw [dictGet_dictSet_ne _ _ _ _ (by decide), dictGet_dictRemove_ne _ _ _ (by decide)]
      exact hname
    refine ⟨dictSet (dictSet (dictRemove fs "secret") "secret"
      credSecretPlaceholder) "secret" (.obj sd), ?_, dictGet_dictSet_self _ _ _⟩
    rw [← hv', ← hst']
    unfold patchCred
    simp only [asObj, Option.bind_eq_bind, Option.some_bind, hn, jmapGet_jmapSet_self]
    rfl
  · intro path_list field_name filtered idx fs st v' st' pv doc fs2
      ht hv hmod h hv2 hres
    constructor
    · unfold stripOneVariable at h
      simp only [asObj, Option.some_bind, Option.bind_eq_bind, ht] at h
      rw [hmod] at h
      simp only [if_true] at h
      rw [hv] at h
      simp only [Option.bind_eq_bind, Option.some_bind] at h
      obtain ⟨fs3, extra, hv3, hst', hframe, hextra⟩ :=
        stripVariableOptionsAuth_spec _ _ _ _ _ _ _ h
      rw [hst']
      simp
    · rw [hv2] at hres
      obtain ⟨doc', hw, hg⟩ := patchWalk_resolves (patchSecretUpd pv) _ doc fs2 hres
      refine ⟨doc', patchSecretUpd pv fs2, hw, hg, dictGet_dictSet_self _ _ _, ?_⟩
      unfold patchSecretUpd
      rw [dictGet_dictSet_ne _ _ _ _ (by decide), dictGet_dictSet_self]

def c1credFs : JDict := [("name", .str "cr"), ("secret", .obj [("value", .str "sv")])]

def c1credV : JValue := .obj [("name", .str "cr"), ("secret", credSecretPlaceholder)]

def c1credSt : SSt := ⟨[(.str "cr", .obj [("value", .str "sv")])], [], []⟩

def c1varFs : JDict := [("name", .str "vv"), ("type", .str "SECRET"), ("value", .str "sx")]

def c1varFs2 : JDict := [("name", .str "vv"), ("type", .str "SECRET"),
  ("attrs", varAttrsPlaceholder)]

def c1varSt : SSt := ⟨[], [([.key "variable_list", .idx 0], .str "sx", .str "vv")], []⟩

def c1vdoc : JValue := .obj [("variable_list", .arr [.obj c1varFs2])]

/-- C1 witness: the amended theorem applied to a concrete credential (secret
"sv" stored in secret_map under name "cr" and written back by patch_secrets'
credential loop) and a concrete SECRET variable (value "sx" detached at
[variable_list, 0]; the entry application on the stripped document restores
"value" to "sx" and sets attrs.is_secret_modified to True). -/
theorem claim_C1_witness :
    (∃ fs2, patchCred c1credSt.smap c1credV = some (.obj fs2) ∧
      dictGet fs2 "secret" = some (.obj [("value", .str "sv")])) ∧
    (([.key "variable_list", .idx 0], JValue.str "sx", JValue.str "vv")
      ∈ c1varSt.svars ∧
     ∃ doc' g,
       applySecretVar c1vdoc ([.key "variable_list", .idx 0], .str "sx", .str "vv") =
         some doc' ∧
       getAtPath doc' [.key "variable_list", .idx 0] = some (.obj g) ∧
       dictGet g "value" = some (.str "sx") ∧
       dictGet g "attrs" = some (.obj [("is_secret_modified", .bool true)])) := by
  refine ⟨?_, ?_⟩
  · exact claim_C1_amended_roundtrip.1 [] c1credFs ⟨[], [], []⟩ c1credV c1credSt
      (.str "cr") (.obj [("value", .str "sv")]) [("value", .str "sv")] (.str "sv")
      rfl rfl rfl rfl (by decide) (by decide)
  · exact claim_C1_amended_roundtrip.2 [] "variable_list" [] 0 c1varFs
      ⟨[], [], []⟩ (.obj c1varFs2) c1varSt (.str "sx") c1vdoc c1varFs2
      rfl rfl (by decide) (by decide) rfl (by decide)

theorem getListOr_arr (d : JDict) (k : String) (xs : List JValue)
    (h : dictGet d k = some (.arr xs)) : getListOr d k = some xs := by
  unfold getListOr
  rw [h]
  cases xs with
  | nil => rfl
  | cons hd tl => rfl

theorem setListBack_get_self (d : JDict) (k : String) (xs ys : List JValue)
    (h : dictGet d k = some (.arr ys)) :
    dictGet (setListBack d k xs) k = some (.arr xs) := by
  unfold setListBack
  rw [h]
  exact dictGet_dictSet_self d k (.arr xs)

/-- `strip_entity_secret_variables` only writes the `field_name` key of its
object. -/
theorem strip_entity_frame (dec : Decompiled) (pl : JPath) (fs : JDict) (st : SSt)
    (fn ctx : String) (fs' : JDict) (st' : SSt)
    (h : strip_entity_secret_variables dec pl fs st fn ctx = some (fs', st')) :
    ∀ k, k ≠ fn → dictGet fs' k = dictGet fs k := by
  intro k hk
  unfold strip_entity_secret_variables at h
  simp only [Option.bind_eq_bind] at h
  rw [Option.bind_eq_some] at h
  obtain ⟨c, hc, h⟩ := h
  rw [Option.bind_eq_some] at h
  obtain ⟨vars, hv, h⟩ := h
  rw [Option.bind_eq_some] at h
  obtain ⟨⟨vars', st1⟩, hl, h⟩ := h
  simp only [Option.pure_def, Option.some.injEq, Prod.mk.injEq] at h
  obtain ⟨h1, h2⟩ := h
  rw [← h1]
  exact setListBack_get_ne fs fn k vars' hk

/-- `strip_action_secret_variables` only writes the `action_list` key. -/
theorem strip_action_frame (dec : Decompiled) (pl : JPath) (fs : JDict) (st : SSt)
    (fs' : JDict) (st' : SSt)
    (h : strip_action_secret_variables dec pl fs st = some (fs', st')) :
    ∀ k, k ≠ "action_list" → dictGet fs' k = dictGet fs k := by
  intro k hk
  unfold strip_action_secret_variables at h
  simp only [Option.bind_eq_bind] at h
  rw [Option.bind_eq_some] at h
  obtain ⟨s0, hs0, h⟩ := h
  rw [Option.bind_eq_some] at h
  obtain ⟨nm, hnm, h⟩ := h
  rw [Option.bind_eq_some] at h
  obtain ⟨acts, hacts, h⟩ := h
  rw [Option.bind_eq_some] at h
  obtain ⟨⟨acts', st1⟩, hl, h⟩ := h
  simp only [Option.pure_def, Option.some.injEq, Prod.mk.injEq] at h
  obtain ⟨h1, h2⟩ := h
  rw [← h1]
  exact setListBack_get_ne fs "action_list" k acts' hk

/-- `strip_runbook_secret_variables` only writes the `task_definition_list`
key. -/
theorem strip_runbook_frame (dec : Decompiled) (pl : JPath) (fs : JDict) (st : SSt)
    (fs' : JDict) (st' : SSt)
    (h : strip_runbook_secret_variables dec pl fs st = some (fs', st')) :
    ∀ k, k ≠ "task_definition_list" → dictGet fs' k = dictGet fs k := by
  intro k hk
  unfold strip_runbook_secret_variables at h
  simp only [Option.bind_eq_bind] at h
  rw [Option.bind_eq_some] at h
  obtain ⟨s0, hs0, h⟩ := h
  rw [Option.bind_eq_some] at h
  obtain ⟨nm, hnm, h⟩ := h
  rw [Option.bind_eq_some] at h
  obtain ⟨tasks, htasks, h⟩ := h
  rw [Option.bind_eq_some] at h
  obtain ⟨⟨tasks', st1⟩, hl, h⟩ := h
  simp only [Option.pure_def, Option.some.injEq, Prod.mk.injEq] at h
  obtain ⟨h1, h2⟩ := h
  rw [← h1]
  exact setListBack_get_ne fs "task_definition_list" k tasks' hk

/-- `strip_authentication_secret_variables` only writes the `authentication`
key. -/
theorem strip_auth_frame (dec : Decompiled) (pl : JPath) (fs : JDict) (st : SSt)
    (ctx : String) (fs' : JDict) (st' : SSt)
    (h : strip_authentication_secret_variables dec pl fs st ctx = some (fs', st')) :
    ∀ k, k ≠ "authentication" → dictGet fs' k = dictGet fs k := by
  intro k hk
  unfold strip_authentication_secret_variables at h
  simp only [Option.bind_eq_bind] at h
  cases hn : dictGet fs "name" with
  | none =>
    rw [hn] at h
    simp only [Option.pure_def, Option.some_bind] at h
    rw [Option.bind_eq_some] at h
    obtain ⟨auth, hauth, h⟩ := h
    split at h
    · rw [Option.bind_eq_some] at h
      obtain ⟨pw, hpw, h⟩ := h
      split at h
      · rw [Option.bind_eq_some] at h
        obtain ⟨pwReal, hpwr, h⟩ := h
        rw [Option.bind_eq_some] at h
        obtain ⟨popped, hpop, h⟩ := h
        simp only [Option.pure_def, Option.some.injEq, Prod.mk.injEq] at h
        obtain ⟨h1, h2⟩ := h
        rw [← h1]
        exact dictGet_dictSet_ne fs "authentication" k _ hk
      · rw [Option.bind_eq_some] at h
        obtain ⟨pwReal, hpwr, h⟩ := h
        split at h
        · simp only [Option.pure_def, Option.some.injEq, Prod.mk.injEq] at h
          obtain ⟨h1, h2⟩ := h
          rw [← h1]
        · simp only [Option.pure_def, Option.some.injEq, Prod.mk.injEq] at h
          obtain ⟨h1, h2⟩ := h
          rw [← h1]
    · simp only [Option.pure_def, Option.some.injEq, Prod.mk.injEq] at h
      obtain ⟨h1, h2⟩ := h
      rw [← h1]
  | some v =>
    rw [hn] at h
    cases v
    case str s =>
      simp only [Option.pure_def, Option.some_bind] at h
      rw [Option.bind_eq_some] at h
      obtain ⟨auth, hauth, h⟩ := h
      split at h
      · rw [Option.bind_eq_some] at h
        obtain ⟨pw, hpw, h⟩ := h
        split at h
        · rw [Option.bind_eq_some] at h
          obtain ⟨pwReal, hpwr, h⟩ := h
          rw [Option.bind_eq_some] at h
          obtain ⟨popped, hpop, h⟩ := h
          simp only [Option.pure_def, Option.some.injEq, Prod.mk.injEq] at h
          obtain ⟨h1, h2⟩ := h
          rw [← h1]
          exact dictGet_dictSet_ne fs "authentication" k _ hk
        · rw [Option.bind_eq_some] at h
          obtain ⟨pwReal, hpwr, h⟩ := h
          split at h
          · simp only [Option.pure_def, Option.some.injEq, Prod.mk.injEq] at h
            obtain ⟨h1, h2⟩ := h
            rw [← h1]
          · simp only [Option.pure_def, Option.some.injEq, Prod.mk.injEq] at h
            obtain ⟨h1, h2⟩ := h
            rw [← h1]
      · simp only [Option.pure_def, Option.some.injEq, Prod.mk.injEq] at h
        obtain ⟨h1, h2⟩ := h
        rw [← h1]
    all_goals simp at h

theorem asObj_eq {c : JValue} {fs : JDict} (h : asObj c = some fs) : c = .obj fs := by
  cases c <;> simp [asObj] at h
  rw [h]

theorem getObjOr_obj (d : JDict) (k : String) (g : JDict)
    (h : dictGet d k = some (.obj g)) : getObjOr d k = some g := by
  unfold getObjOr
  rw [h]
  cases g with
  | nil => rfl
  | cons hd tl => rfl

/-- One credential-loop iteration changes at most the `secret` key. -/
theorem stripOneCred_frame (filtered : JMap) (c : JValue) (st : SSt)
    (c' : JValue) (st2 : SSt) (h : stripOneCred filtered c st = some (c', st2)) :
    ∃ fs fs', c = .obj fs ∧ c' = .obj fs' ∧
      ∀ k, k ≠ "secret" → dictGet fs' k = dictGet fs k := by
  unfold stripOneCred at h
  simp only [Option.bind_eq_bind] at h
  rw [Option.bind_eq_some] at h
  obtain ⟨fs, hfs, h⟩ := h
  rw [Option.bind_eq_some] at h
  obtain ⟨name, hname, h⟩ := h
  rw [Option.bind_eq_some] at h
  obtain ⟨secret, hsec, h⟩ := h
  rw [Option.bind_eq_some] at h
  obtain ⟨sd, hsd, h⟩ := h
  rw [Option.bind_eq_some] at h
  obtain ⟨value, hval, h⟩ := h
  split at h
  · simp only [Option.pure_def, Option.some.injEq, Prod.mk.injEq] at h
    obtain ⟨h1, h2⟩ := h
    refine ⟨fs, _, asObj_eq hfs, h1.symm, ?_⟩
    intro k hk
    rw [dictGet_dictSet_ne _ _ _ _ hk, dictGet_dictRemove_ne _ _ _ hk]
  · simp only [Option.pure_def, Option.some.injEq, Prod.mk.injEq] at h
    obtain ⟨h1, h2⟩ := h
    exact ⟨fs, fs, asObj_eq hfs, h1.symm, fun k _ => rfl⟩

/-- The credential loop is elementwise: same length, each credential an
object changed at most at its `secret` key. -/
theorem stripCredsLoop_spec (filtered : JMap) :
    ∀ (creds : List JValue) (st : SSt) (creds' : List JValue) (st' : SSt),
      stripCredsLoop filtered creds st = some (creds', st') →
      creds'.length = creds.length ∧
      ∀ i, i < creds.length → ∃ fs fs', creds[i]? = some (.obj fs) ∧
        creds'[i]? = some (.obj fs') ∧
        ∀ k, k ≠ "secret" → dictGet fs' k = dictGet fs k := by
  intro creds
  induction creds with
  | nil =>
    intro st creds' st' h
    simp only [stripCredsLoop, Option.some.injEq, Prod.mk.injEq] at h
    obtain ⟨h1, h2⟩ := h
    rw [← h1]
    exact ⟨rfl, fun i hi => absurd hi (by simp)⟩
  | cons c cs ih =>
    intro st creds' st' h
    unfold stripCredsLoop at h
    simp only [Option.bind_eq_bind] at h
    rw [Option.bind_eq_some] at h
    obtain ⟨⟨c', st1⟩, h1, h⟩ := h
    rw [Option.bind_eq_some] at h
    obtain ⟨⟨cs', st2⟩, h2, h⟩ := h
    simp only [Option.pure_def, Option.some.injEq, Prod.mk.injEq] at h
    obtain ⟨hl, hr⟩ := h
    obtain ⟨hlen, hspec⟩ := ih st1 cs' st2 h2
    obtain ⟨fs, fs', hc, hc', hfr⟩ := stripOneCred_frame filtered c st c' st1 h1
    rw [← hl]
    refine ⟨by simp [hlen], ?_⟩
    intro i hi
    cases i with
    | zero => exact ⟨fs, fs', by simp [hc], by simp [hc'], hfr⟩
    | succ n =>
      obtain ⟨gs, gs', hg, hg', hfr'⟩ := hspec n (by simpa using hi)
      exact ⟨gs, gs', by simpa using hg, by simpa using hg', hfr'⟩

/-- `strip_all_secret_variables` changes at most the four known
secret-bearing keys of its object. -/
theorem strip_all_frame (dec : Decompiled) (pl : JPath) (obj : JValue) (st : SSt)
    (v' : JValue) (st' : SSt)
    (h : strip_all_secret_variables dec pl obj st = some (v', st')) :
    ∃ fs fs', obj = .obj fs ∧ v' = .obj fs' ∧
      ∀ k, k ≠ "variable_list" → k ≠ "action_list" →
        k ≠ "task_definition_list" → k ≠ "authentication" →
        dictGet fs' k = dictGet fs k := by
  unfold strip_all_secret_variables at h
  simp only [Option.bind_eq_bind] at h
  rw [Option.bind_eq_some] at h
  obtain ⟨fs, hfs, h⟩ := h
  rw [Option.bind_eq_some] at h
  obtain ⟨s0, hs0, h⟩ := h
  rw [Option.bind_eq_some] at h
  obtain ⟨⟨fs1, st1⟩, h1, h⟩ := h
  rw [Option.bind_eq_some] at h
  obtain ⟨⟨fs2, st2⟩, h2, h⟩ := h
  rw [Option.bind_eq_some] at h
  obtain ⟨⟨fs3, st3⟩, h3, h⟩ := h
  rw [Option.bind_eq_some] at h
  obtain ⟨⟨fs4, st4⟩, h4, h⟩ := h
  simp only [Option.pure_def, Option.some.injEq, Prod.mk.injEq] at h
  obtain ⟨hv, hst⟩ := h
  refine ⟨fs, fs4, asObj_eq hfs, hv.symm, ?_⟩
  intro k k1 k2 k3 k4
  rw [strip_auth_frame _ _ _ _ _ _ _ h4 k k4,
      strip_runbook_frame _ _ _ _ _ _ h3 k k3,
      strip_action_frame _ _ _ _ _ _ h2 k k2,
      strip_entity_frame _ _ _ _ _ _ _ _ h1 k k1]

/-- The HTTP-endpoint credential stage changes at most
`resources["authentication"]["password"]`. -/
theorem stripAuthStage_spec (dec : Decompiled) (res : JDict) (st : SSt)
    (res2 : JDict) (st2 : SSt) (h : stripAuthStage dec res st = some (res2, st2)) :
    (∀ k, k ≠ "authentication" → dictGet res2 k = dictGet res k) ∧
    (∀ g, dictGet res "authentication" = some (.obj g) →
      ∃ g', dictGet res2 "authentication" = some (.obj g') ∧
        ∀ k, k ≠ "password" → dictGet g' k = dictGet g k) := by
  unfold stripAuthStage at h
  simp only [Option.bind_eq_bind] at h
  rw [Option.bind_eq_some] at h
  obtain ⟨auth, hauth, h⟩ := h
  split at h
  · rw [Option.bind_eq_some] at h
    obtain ⟨username, hun, h⟩ := h
    rw [Option.bind_eq_some] at h
    obtain ⟨password, hpw, h⟩ := h
    split at h
    · simp only [Option.pure_def, Option.some.injEq, Prod.mk.injEq] at h
      obtain ⟨h1, h2⟩ := h
      constructor
      · intro k hk
        rw [← h1, dictGet_dictSet_ne _ _ _ _ hk]
      · intro g hg
        have hao : g = auth := Option.some.inj ((getObjOr_obj res "authentication" g hg).symm.trans hauth)
        subst hao
        refine ⟨dictSet (dictRemove g "password") "password" endpointPwdPlaceholder,
          ?_, ?_⟩
        · rw [← h1, dictGet_dictSet_self]
        · intro k hk
          rw [dictGet_dictSet_ne _ _ _ _ hk, dictGet_dictRemove_ne _ _ _ hk]
    · simp only [Option.pure_def, Option.some.injEq, Prod.mk.injEq] at h
      obtain ⟨h1, h2⟩ := h
      rw [← h1]
      exact ⟨fun k _ => rfl, fun g hg => ⟨g, hg, fun k _ => rfl⟩⟩
  · simp only [Option.pure_def, Option.some.injEq, Prod.mk.injEq] at h
    obtain ⟨h1, h2⟩ := h
    rw [← h1]
    exact ⟨fun k _ => rfl, fun g hg => ⟨g, hg, fun k _ => rfl⟩⟩

/-- The per-object-list loop is elementwise: same length, each entry an
object changed at most at the four known secret-bearing keys. -/
theorem stripObjListLoop_spec (dec : Decompiled) (ol : String) :
    ∀ (xs : List JValue) (idx : Nat) (st : SSt) (xs' : List JValue) (st' : SSt),
      stripObjListLoop dec ol xs idx st = some (xs', st') →
      xs'.length = xs.length ∧
      ∀ i, i < xs.length → ∃ fs fs', xs[i]? = some (.obj fs) ∧
        xs'[i]? = some (.obj fs') ∧
        ∀ k, k ≠ "variable_list" → k ≠ "action_list" →
          k ≠ "task_definition_list" → k ≠ "authentication" →
          dictGet fs' k = dictGet fs k := by
  intro xs
  induction xs with
  | nil =>
    intro idx st xs' st' h
    simp only [stripObjListLoop, Option.some.injEq, Prod.mk.injEq] at h
    obtain ⟨h1, h2⟩ := h
    rw [← h1]
    exact ⟨rfl, fun i hi => absurd hi (by simp)⟩
  | cons o os ih =>
    intro idx st xs' st' h
    unfold stripObjListLoop at h
    simp only [Option.bind_eq_bind] at h
    rw [Option.bind_eq_some] at h
    obtain ⟨⟨o', st1⟩, h1, h⟩ := h
    rw [Option.bind_eq_some] at h
    obtain ⟨⟨os', st2⟩, h2, h⟩ := h
    simp only [Option.pure_def, Option.some.injEq, Prod.mk.injEq] at h
    obtain ⟨hl, hr⟩ := h
    obtain ⟨hlen, hspec⟩ := ih (idx + 1) st1 os' st2 h2
    obtain ⟨fs, fs', hc, hc', hfr⟩ := strip_all_frame dec [.key ol, .idx idx] o st o' st1 h1
    rw [← hl]
    refine ⟨by simp [hlen], ?_⟩
    intro i hi
    cases i with
    | zero => exact ⟨fs, fs', by simp [hc], by simp [hc'], hfr⟩
    | succ n =>
      obtain ⟨gs, gs', hg, hg', hfr'⟩ := hspec n (by simpa using hi)
      exact ⟨gs, gs', by simpa using hg, by simpa using hg', hfr'⟩

/-- The object-lists stage: keys outside `object_lists` are unchanged, and
each processed list keeps its length with entries changed at most at the
four known secret-bearing keys. -/
theorem stripObjectLists_spec (dec : Decompiled) :
    ∀ (ols : List String) (res : JDict) (st : SSt) (res' : JDict) (st' : SSt),
      stripObjectLists dec ols res st = some (res', st') →
      (∀ k, k ∉ ols → dictGet res' k = dictGet res k) ∧
      (ols.Nodup → ∀ ol ∈ ols, ∀ xs, dictGet res ol = some (.arr xs) →
        ∃ xs', dictGet res' ol = some (.arr xs') ∧ xs'.length = xs.length ∧
          ∀ i, i < xs.length → ∃ fs fs', xs[i]? = some (.obj fs) ∧
            xs'[i]? = some (.obj fs') ∧
            ∀ k, k ≠ "variable_list" → k ≠ "action_list" →
              k ≠ "task_definition_list" → k ≠ "authentication" →
              dictGet fs' k = dictGet fs k) := by
  intro ols
  induction ols with
  | nil =>
    intro res st res' st' h
    simp only [stripObjectLists, Option.some.injEq, Prod.mk.injEq] at h
    obtain ⟨h1, h2⟩ := h
    rw [← h1]
    exact ⟨fun k _ => rfl, fun _ ol hm => absurd hm (by simp)⟩
  | cons ol ols ih =>
    intro res st res' st' h
    unfold stripObjectLists at h
    simp only [Option.bind_eq_bind] at h
    rw [Option.bind_eq_some] at h
    obtain ⟨items, hitems, h⟩ := h
    rw [Option.bind_eq_some] at h
    obtain ⟨⟨items', st1⟩, hloop, h⟩ := h
    obtain ⟨ihf, ihm⟩ := ih (setListBack res ol items') st1 res' st' h
    constructor
    · intro k hk
      have hk1 : k ≠ ol := fun he => hk (he ▸ List.mem_cons_self ol ols)
      have hk2 : k ∉ ols := fun hm => hk (List.mem_cons_of_mem _ hm)
      rw [ihf k hk2, setListBack_get_ne res ol k items' hk1]
    · intro hnd ol0 hmem xs hxs
      rw [List.nodup_cons] at hnd
      obtain ⟨hnotin, hnd'⟩ := hnd
      rcases List.mem_cons.mp hmem with he | hm
      · subst he
        have hix : items = xs := by
          rw [getListOr_arr _ _ _ hxs] at hitems
          exact (Option.some.inj hitems).symm
        subst hix
        obtain ⟨hlen, hspec⟩ := stripObjListLoop_spec dec ol0 items 0 st items' st1 hloop
        have hre : dictGet (setListBack res ol0 items') ol0 = some (.arr items') :=
          setListBack_get_self res ol0 items' items hxs
        refine ⟨items', ?_, hlen, hspec⟩
        rw [ihf ol0 hnotin, hre]
      · have hne : ol0 ≠ ol := fun he => hnotin (he ▸ hm)
        have hxs1 : dictGet (setListBack res ol items') ol0 = some (.arr xs) := by
          rw [setListBack_get_ne res ol ol0 items' hne]
          exact hxs
        exact ihm hnd' ol0 hm xs hxs1

/-- The objects stage: keys outside `objects` are unchanged, and each
processed object's dict changes at most at the four known secret-bearing
keys. -/
theorem stripObjects_spec (dec : Decompiled) :
    ∀ (objs : List String) (res : JDict) (st : SSt) (res' : JDict) (st' : SSt),
      stripObjects dec objs res st = some (res', st') →
      (∀ k, k ∉ objs → dictGet res' k = dictGet res k) ∧
      (objs.Nodup → ∀ o ∈ objs, ∀ g, dictGet res o = some (.obj g) →
        ∃ g', dictGet res' o = some (.obj g') ∧
          ∀ k, k ≠ "variable_list" → k ≠ "action_list" →
            k ≠ "task_definition_list" → k ≠ "authentication" →
            dictGet g' k = dictGet g k) := by
  intro objs
  induction objs with
  | nil =>
    intro res st res' st' h
    simp only [stripObjects, Option.some.injEq, Prod.mk.injEq] at h
    obtain ⟨h1, h2⟩ := h
    rw [← h1]
    exact ⟨fun k _ => rfl, fun _ o hm => absurd hm (by simp)⟩
  | cons o os ih =>
    intro res st res' st' h
    unfold stripObjects at h
    cases hro : dictGet res o with
    | some v =>
      rw [hro] at h
      simp only [Option.bind_eq_bind] at h
      rw [Option.bind_eq_some] at h
      obtain ⟨⟨v2, st1⟩, hsa, h⟩ := h
      obtain ⟨ihf, ihm⟩ := ih (dictSet res o v2) st1 res' st' h
      constructor
      · intro k hk
        have hk1 : k ≠ o := fun he => hk (he ▸ List.mem_cons_self o os)
        have hk2 : k ∉ os := fun hm => hk (List.mem_cons_of_mem _ hm)
        rw [ihf k hk2, dictGet_dictSet_ne _ _ _ _ hk1]
      · intro hnd o0 hmem g hg
        rw [List.nodup_cons] at hnd
        obtain ⟨hnotin, hnd'⟩ := hnd
        rcases List.mem_cons.mp hmem with he | hm
        · subst he
          obtain ⟨fs, fs', hv, hv2, hfr⟩ := strip_all_frame dec [.key o0] v st v2 st1 hsa
          have hfg : fs = g := by
            rw [hro, hv] at hg
            exact JValue.obj.inj (Option.some.inj hg)
          refine ⟨fs', ?_, hfg ▸ hfr⟩
          rw [ihf o0 hnotin, dictGet_dictSet_self, hv2]
        · have hne : o0 ≠ o := fun he => hnotin (he ▸ hm)
          have hg1 : dictGet (dictSet res o v2) o0 = some (.obj g) := by
            rw [dictGet_dictSet_ne _ _ _ _ hne]
            exact hg
          exact ihm hnd' o0 hm g hg1
    | none =>
      rw [hro] at h
      simp only [Option.bind_eq_bind] at h
      rw [Option.bind_eq_some] at h
      obtain ⟨⟨vdump, st1⟩, hsa, h⟩ := h
      obtain ⟨ihf, ihm⟩ := ih res st1 res' st' h
      constructor
      · intro k hk
        exact ihf k (fun hm => hk (List.mem_cons_of_mem _ hm))
      · intro hnd o0 hmem g hg
        rw [List.nodup_cons] at hnd
        obtain ⟨hnotin, hnd'⟩ := hnd
        rcases List.mem_cons.mp hmem with he | hm
        · subst he
          rw [hro] at hg
          exact Option.noConfusion hg
        · exact ihm hnd' o0 hm g hg


theorem getD_asObj_eq {o : Option JValue} {g : JDict}
    (h : asObj (o.getD .null) = some g) : o = some (.obj g) := by
  cases o with
  | none => simp [asObj] at h
  | some v =>
    simp only [Option.getD_some] at h
    rw [asObj_eq h]

theorem dictGetD_obj {d : JDict} {k : String} {g : JDict}
    (h : dictGetD d k .null = .obj g) : dictGet d k = some (.obj g) := by
  unfold dictGetD at h
  cases hk : dictGet d k with
  | none => rw [hk] at h; exact absurd h (by simp)
  | some v =>
    rw [hk] at h
    simp only [Option.getD_some] at h
    rw [h]

theorem getObjD_ne_nil {d : JDict} {k : String} {g : JDict}
    (h : getObjD d k = some g) (hne : g ≠ []) : dictGet d k = some (.obj g) := by
  unfold getObjD at h
  cases hk : dictGet d k with
  | none => rw [hk] at h; exact absurd (Option.some.inj h).symm hne
  | some v =>
    rw [hk] at h
    exact congrArg some (asObj_eq h)

theorem getObjOr_ne_nil {d : JDict} {k : String} {g : JDict}
    (h : getObjOr d k = some g) (hne : g ≠ []) : dictGet d k = some (.obj g) := by
  unfold getObjOr at h
  cases hk : dictGet d k with
  | none => rw [hk] at h; exact absurd (Option.some.inj h).symm hne
  | some v =>
    rw [hk] at h
    have h' : (if v.truthy = true then asObj v else some []) = some g := h
    split at h'
    · exact congrArg some (asObj_eq h')
    · exact absurd (Option.some.inj h').symm hne

/-! ## Leaf-level change relations for the strip_secrets frame

`DiffKeys ks d d'` : the dict changed at most at the keys in `ks`.
`KeyObjRel key R d d'` : the value at `key` is unchanged, or was a dict
related to the new dict by `R`.  `KeyArrRel key R d d'` : the value at
`key` is unchanged, or was a list of the same length whose entries are
unchanged or related by `R`. -/

def DiffKeys (ks : List String) (d d' : JDict) : Prop :=
  ∀ k, k ∉ ks → dictGet d' k = dictGet d k

def KeyObjRel (key : String) (R : JDict → JDict → Prop) (d d' : JDict) : Prop :=
  dictGet d' key = dictGet d key ∨
  ∃ g g', dictGet d key = some (.obj g) ∧ dictGet d' key = some (.obj g') ∧ R g g'

def KeyArrRel (key : String) (R : JValue → JValue → Prop) (d d' : JDict) : Prop :=
  dictGet d' key = dictGet d key ∨
  ∃ xs xs', dictGet d key = some (.arr xs) ∧ dictGet d' key = some (.arr xs') ∧
    xs'.length = xs.length ∧
    ∀ i, i < xs.length → ∃ a a', xs[i]? = some a ∧ xs'[i]? = some a' ∧
      (a' = a ∨ R a a')

def ObjRel (R : JDict → JDict → Prop) (v v' : JValue) : Prop :=
  ∃ g g', v = .obj g ∧ v' = .obj g' ∧ R g g'

/-- Only the `password` field may change (authentication dicts). -/
def PwdOnly (d d' : JDict) : Prop := DiffKeys ["password"] d d'

/-- `options.attrs.authentication`: only `basic_auth.password` may change. -/
def OptionsAuthRel (au au' : JDict) : Prop :=
  DiffKeys ["basic_auth"] au au' ∧ KeyObjRel "basic_auth" PwdOnly au au'

def OptionsAttrsRel (a a' : JDict) : Prop :=
  DiffKeys ["authentication"] a a' ∧ KeyObjRel "authentication" OptionsAuthRel a a'

def OptionsRel (o o' : JDict) : Prop :=
  DiffKeys ["attrs"] o o' ∧ KeyObjRel "attrs" OptionsAttrsRel o o'

/-- One variable of a variable_list / headers / inarg_list: only `value` and
`attrs` may change, and only for a SECRET-typed variable; `options` may
change only at its nested http-task basic-auth password. -/
def VarEntryRel (d d' : JDict) : Prop :=
  DiffKeys ["value", "attrs", "options"] d d' ∧
  (dictGet d "type" ≠ some (.str "SECRET") →
    dictGet d' "value" = dictGet d "value" ∧ dictGet d' "attrs" = dictGet d "attrs") ∧
  KeyObjRel "options" OptionsRel d d'

/-- A task's `attrs.authentication`: only `password` (runbook HTTP tasks) or
`basic_auth.password` (action HTTP tasks) may change. -/
def AuthInnerRel (au au' : JDict) : Prop :=
  DiffKeys ["basic_auth", "password"] au au' ∧ KeyObjRel "basic_auth" PwdOnly au au'

/-- A task's `attrs`: only its authentication secrets, header secrets and
inarg_list secrets may change. -/
def TaskAttrsRel (a a' : JDict) : Prop :=
  DiffKeys ["inarg_list", "authentication", "headers"] a a' ∧
  KeyObjRel "authentication" AuthInnerRel a a' ∧
  KeyArrRel "headers" (ObjRel VarEntryRel) a a' ∧
  KeyArrRel "inarg_list" (ObjRel VarEntryRel) a a'

/-- A task: only its `attrs` may change, and only as `TaskAttrsRel`. -/
def TaskRel (d d' : JDict) : Prop :=
  DiffKeys ["attrs"] d d' ∧ KeyObjRel "attrs" TaskAttrsRel d d'

/-- A runbook: only its variable_list entries and task attrs may change. -/
def RunbookRel (d d' : JDict) : Prop :=
  DiffKeys ["variable_list", "task_definition_list"] d d' ∧
  KeyArrRel "variable_list" (ObjRel VarEntryRel) d d' ∧
  KeyArrRel "task_definition_list" (ObjRel TaskRel) d d'

/-- An action: only its `runbook` may change, and only as `RunbookRel`. -/
def ActionRel (d d' : JDict) : Prop :=
  DiffKeys ["runbook"] d d' ∧ KeyObjRel "runbook" RunbookRel d d'

/-- A processed entity (object-list entry or object): only its
variable_list entries, action runbooks, runbook task attrs and basic-auth
password may change, each as its leaf-level relation. -/
def EntityRel (d d' : JDict) : Prop :=
  DiffKeys ["variable_list", "action_list", "task_definition_list", "authentication"] d d' ∧
  KeyArrRel "variable_list" (ObjRel VarEntryRel) d d' ∧
  KeyArrRel "action_list" (ObjRel ActionRel) d d' ∧
  KeyArrRel "task_definition_list" (ObjRel TaskRel) d d' ∧
  KeyObjRel "authentication" PwdOnly d d'

theorem diffKeys_refl (ks : List String) (d : JDict) : DiffKeys ks d d :=
  fun _ _ => rfl

theorem diffKeys_trans {ks : List String} {d d1 d2 : JDict}
    (h1 : DiffKeys ks d d1) (h2 : DiffKeys ks d1 d2) : DiffKeys ks d d2 :=
  fun k hk => (h2 k hk).trans (h1 k hk)

theorem diffKeys_mono {ks ks' : List String} {d d' : JDict}
    (hsub : ∀ k, k ∉ ks' → k ∉ ks) (h : DiffKeys ks d d') : DiffKeys ks' d d' :=
  fun k hk => h k (hsub k hk)

theorem keyObjRel_refl (key : String) (R : JDict → JDict → Prop) (d : JDict) :
    KeyObjRel key R d d := Or.inl rfl

theorem keyArrRel_refl (key : String) (R : JValue → JValue → Prop) (d : JDict) :
    KeyArrRel key R d d := Or.inl rfl

theorem keyObjRel_congr_left {key : String} {R : JDict → JDict → Prop}
    {d d1 d' : JDict} (he : dictGet d1 key = dictGet d key)
    (h : KeyObjRel key R d1 d') : KeyObjRel key R d d' := by
  rcases h with h | ⟨g, g', hg, hg', hr⟩
  · exact Or.inl (h.trans he)
  · exact Or.inr ⟨g, g', he ▸ hg, hg', hr⟩

theorem keyObjRel_congr_right {key : String} {R : JDict → JDict → Prop}
    {d d1 d' : JDict} (he : dictGet d' key = dictGet d1 key)
    (h : KeyObjRel key R d d1) : KeyObjRel key R d d' := by
  rcases h with h | ⟨g, g', hg, hg', hr⟩
  · exact Or.inl (he.trans h)
  · exact Or.inr ⟨g, g', hg, he.trans hg', hr⟩

theorem keyArrRel_congr_left {key : String} {R : JValue → JValue → Prop}
    {d d1 d' : JDict} (he : dictGet d1 key = dictGet d key)
    (h : KeyArrRel key R d1 d') : KeyArrRel key R d d' := by
  rcases h with h | ⟨xs, xs', hx, hx', hlen, hsp⟩
  · exact Or.inl (h.trans he)
  · exact Or.inr ⟨xs, xs', he ▸ hx, hx', hlen, hsp⟩

theorem keyArrRel_congr_right {key : String} {R : JValue → JValue → Prop}
    {d d1 d' : JDict} (he : dictGet d' key = dictGet d1 key)
    (h : KeyArrRel key R d d1) : KeyArrRel key R d d' := by
  rcases h with h | ⟨xs, xs', hx, hx', hlen, hsp⟩
  · exact Or.inl (he.trans h)
  · exact Or.inr ⟨xs, xs', hx, he.trans hx', hlen, hsp⟩

theorem keyObjRel_trans {key : String} {R : JDict → JDict → Prop}
    (htr : ∀ a b c, R a b → R b c → R a c) {d d1 d' : JDict}
    (h1 : KeyObjRel key R d d1) (h2 : KeyObjRel key R d1 d') :
    KeyObjRel key R d d' := by
  rcases h1 with h1 | ⟨g, g1, hg, hg1, hr1⟩
  · exact keyObjRel_congr_left h1 h2
  · rcases h2 with h2 | ⟨g1', g', hg1', hg', hr2⟩
    · exact Or.inr ⟨g, g1, hg, h2.trans hg1, hr1⟩
    · have : g1' = g1 := (JValue.obj.inj (Option.some.inj (hg1.symm.trans hg1'))).symm
      subst this
      exact Or.inr ⟨g, g', hg, hg', htr _ _ _ hr1 hr2⟩

theorem keyArrRel_trans {key : String} {R : JValue → JValue → Prop}
    (htr : ∀ a b c, R a b → R b c → R a c) {d d1 d' : JDict}
    (h1 : KeyArrRel key R d d1) (h2 : KeyArrRel key R d1 d') :
    KeyArrRel key R d d' := by
  rcases h1 with h1 | ⟨xs, xs1, hx, hx1, hlen1, hsp1⟩
  · exact keyArrRel_congr_left h1 h2
  · rcases h2 with h2 | ⟨xs1', xs', hx1', hx', hlen2, hsp2⟩
    · exact Or.inr ⟨xs, xs1, hx, h2.trans hx1, hlen1, hsp1⟩
    · have : xs1' = xs1 := (JValue.arr.inj (Option.some.inj (hx1.symm.trans hx1'))).symm
      subst this
      refine Or.inr ⟨xs, xs', hx, hx', hlen2.trans hlen1, ?_⟩
      intro i hi
      obtain ⟨a, a1, ha, ha1, hr1⟩ := hsp1 i hi
      obtain ⟨a1', a', ha1', ha', hr2⟩ := hsp2 i (hlen1 ▸ hi)
      have : a1' = a1 := (Option.some.inj (ha1.symm.trans ha1')).symm
      subst this
      refine ⟨a, a', ha, ha', ?_⟩
      rcases hr1 with hr1 | hr1
      · rcases hr2 with hr2 | hr2
        · exact Or.inl (hr2.trans hr1)
        · exact Or.inr (hr1 ▸ hr2)
      · rcases hr2 with hr2 | hr2
        · exact Or.inr (hr2 ▸ hr1)
        · exact Or.inr (htr _ _ _ hr1 hr2)

theorem objRel_trans {R : JDict → JDict → Prop}
    (htr : ∀ a b c, R a b → R b c → R a c) :
    ∀ u v w, ObjRel R u v → ObjRel R v w → ObjRel R u w := by
  rintro u v w ⟨g, g1, hu, hv, h1⟩ ⟨g1', g2, hv', hw, h2⟩
  have he : g1' = g1 := (JValue.obj.inj (hv.symm.trans hv')).symm
  subst he
  exact ⟨g, g2, hu, hw, htr _ _ _ h1 h2⟩

theorem pwdOnly_trans : ∀ a b c, PwdOnly a b → PwdOnly b c → PwdOnly a c :=
  fun _ _ _ h1 h2 => diffKeys_trans h1 h2

theorem optionsAuthRel_refl (d : JDict) : OptionsAuthRel d d :=
  ⟨diffKeys_refl _ _, keyObjRel_refl _ _ _⟩

theorem optionsAuthRel_trans :
    ∀ a b c, OptionsAuthRel a b → OptionsAuthRel b c → OptionsAuthRel a c :=
  fun _ _ _ h1 h2 =>
    ⟨diffKeys_trans h1.1 h2.1, keyObjRel_trans pwdOnly_trans h1.2 h2.2⟩

theorem optionsAttrsRel_refl (d : JDict) : OptionsAttrsRel d d :=
  ⟨diffKeys_refl _ _, keyObjRel_refl _ _ _⟩

theorem optionsAttrsRel_trans :
    ∀ a b c, OptionsAttrsRel a b → OptionsAttrsRel b c → OptionsAttrsRel a c :=
  fun _ _ _ h1 h2 =>
    ⟨diffKeys_trans h1.1 h2.1, keyObjRel_trans optionsAuthRel_trans h1.2 h2.2⟩

theorem optionsRel_refl (d : JDict) : OptionsRel d d :=
  ⟨diffKeys_refl _ _, keyObjRel_refl _ _ _⟩

theorem optionsRel_trans :
    ∀ a b c, OptionsRel a b → OptionsRel b c → OptionsRel a c :=
  fun _ _ _ h1 h2 =>
    ⟨diffKeys_trans h1.1 h2.1, keyObjRel_trans optionsAttrsRel_trans h1.2 h2.2⟩

theorem varEntryRel_refl (d : JDict) : VarEntryRel d d :=
  ⟨diffKeys_refl _ _, fun _ => ⟨rfl, rfl⟩, keyObjRel_refl _ _ _⟩

theorem varEntryRel_trans :
    ∀ a b c, VarEntryRel a b → VarEntryRel b c → VarEntryRel a c := by
  intro a b c h1 h2
  refine ⟨diffKeys_trans h1.1 h2.1, ?_, keyObjRel_trans optionsRel_trans h1.2.2 h2.2.2⟩
  intro ht
  have htype : dictGet b "type" = dictGet a "type" := h1.1 "type" (by decide)
  obtain ⟨hv1, ha1⟩ := h1.2.1 ht
  obtain ⟨hv2, ha2⟩ := h2.2.1 (by rw [htype]; exact ht)
  exact ⟨hv2.trans hv1, ha2.trans ha1⟩

theorem authInnerRel_refl (d : JDict) : AuthInnerRel d d :=
  ⟨diffKeys_refl _ _, keyObjRel_refl _ _ _⟩

theorem authInnerRel_trans :
    ∀ a b c, AuthInnerRel a b → AuthInnerRel b c → AuthInnerRel a c :=
  fun _ _ _ h1 h2 =>
    ⟨diffKeys_trans h1.1 h2.1, keyObjRel_trans pwdOnly_trans h1.2 h2.2⟩

theorem taskAttrsRel_refl (d : JDict) : TaskAttrsRel d d :=
  ⟨diffKeys_refl _ _, keyObjRel_refl _ _ _, keyArrRel_refl _ _ _, keyArrRel_refl _ _ _⟩

theorem taskAttrsRel_trans :
    ∀ a b c, TaskAttrsRel a b → TaskAttrsRel b c → TaskAttrsRel a c :=
  fun _ _ _ h1 h2 =>
    ⟨diffKeys_trans h1.1 h2.1,
     keyObjRel_trans authInnerRel_trans h1.2.1 h2.2.1,
     keyArrRel_trans (objRel_trans varEntryRel_trans) h1.2.2.1 h2.2.2.1,
     keyArrRel_trans (objRel_trans varEntryRel_trans) h1.2.2.2 h2.2.2.2⟩

theorem taskRel_refl (d : JDict) : TaskRel d d :=
  ⟨diffKeys_refl _ _, keyObjRel_refl _ _ _⟩

theorem taskRel_trans : ∀ a b c, TaskRel a b → TaskRel b c → TaskRel a c :=
  fun _ _ _ h1 h2 =>
    ⟨diffKeys_trans h1.1 h2.1, keyObjRel_trans taskAttrsRel_trans h1.2 h2.2⟩

theorem runbookRel_refl (d : JDict) : RunbookRel d d :=
  ⟨diffKeys_refl _ _, keyArrRel_refl _ _ _, keyArrRel_refl _ _ _⟩

theorem runbookRel_trans :
    ∀ a b c, RunbookRel a b → RunbookRel b c → RunbookRel a c :=
  fun _ _ _ h1 h2 =>
    ⟨diffKeys_trans h1.1 h2.1,
     keyArrRel_trans (objRel_trans varEntryRel_trans) h1.2.1 h2.2.1,
     keyArrRel_trans (objRel_trans taskRel_trans) h1.2.2 h2.2.2⟩

theorem actionRel_refl (d : JDict) : ActionRel d d :=
  ⟨diffKeys_refl _ _, keyObjRel_refl _ _ _⟩

theorem actionRel_trans : ∀ a b c, ActionRel a b → ActionRel b c → ActionRel a c :=
  fun _ _ _ h1 h2 =>
    ⟨diffKeys_trans h1.1 h2.1, keyObjRel_trans runbookRel_trans h1.2 h2.2⟩

theorem entityRel_refl (d : JDict) : EntityRel d d :=
  ⟨diffKeys_refl _ _, keyArrRel_refl _ _ _, keyArrRel_refl _ _ _,
   keyArrRel_refl _ _ _, keyObjRel_refl _ _ _⟩

theorem entityRel_trans : ∀ a b c, EntityRel a b → EntityRel b c → EntityRel a c :=
  fun _ _ _ h1 h2 =>
    ⟨diffKeys_trans h1.1 h2.1,
     keyArrRel_trans (objRel_trans varEntryRel_trans) h1.2.1 h2.2.1,
     keyArrRel_trans (objRel_trans actionRel_trans) h1.2.2.1 h2.2.2.1,
     keyArrRel_trans (objRel_trans taskRel_trans) h1.2.2.2.1 h2.2.2.2.1,
     keyObjRel_trans pwdOnly_trans h1.2.2.2.2 h2.2.2.2.2⟩

/-- The dynamic-variable options branch touches only
`options.attrs.authentication.basic_auth.password`. -/
theorem stripVariableOptionsAuth_rel (pl : JPath) (fn : String) (idx : Nat)
    (fs : JDict) (st : SSt) (v' : JValue) (st' : SSt)
    (h : stripVariableOptionsAuth pl fn idx fs st = some (v', st')) :
    ∃ fs', v' = .obj fs' ∧ DiffKeys ["options"] fs fs' ∧
      KeyObjRel "options" OptionsRel fs fs' := by
  unfold stripVariableOptionsAuth at h
  simp only [Option.bind_eq_bind] at h
  by_cases hc1 : (dictGetD fs "options" JValue.null).truthy = true
  · rw [if_pos hc1] at h
    rw [Option.bind_eq_some] at h
    obtain ⟨optsD, hod, h⟩ := h
    by_cases hc2 : (dictGetD optsD "attrs" JValue.null).truthy = true
    · rw [if_pos hc2] at h
      rw [Option.bind_eq_some] at h
      obtain ⟨attrsD, had, h⟩ := h
      by_cases hc3 : (dictGetD attrsD "authentication" JValue.null).truthy = true
      · rw [if_pos hc3] at h
        rw [Option.bind_eq_some] at h
        obtain ⟨authD, hau, h⟩ := h
        by_cases hc4 : dictGetD authD "auth_type" JValue.null = JValue.str "basic"
        · rw [if_pos hc4] at h
          rw [Option.bind_eq_some] at h
          obtain ⟨basicD, hba, h⟩ := h
          rw [Option.bind_eq_some] at h
          obtain ⟨password, hpw, h⟩ := h
          rw [Option.bind_eq_some] at h
          obtain ⟨pwD, hpd, h⟩ := h
          simp only [Option.pure_def, Option.some.injEq, Prod.mk.injEq] at h
          obtain ⟨h1, h2⟩ := h
          have hfsO : dictGet fs "options" = some (.obj optsD) :=
            dictGetD_obj (asObj_eq hod)
          have hoA : dictGet optsD "attrs" = some (.obj attrsD) :=
            dictGetD_obj (asObj_eq had)
          have haAu : dictGet attrsD "authentication" = some (.obj authD) :=
            dictGetD_obj (asObj_eq hau)
          have hab : dictGet authD "basic_auth" = some (.obj basicD) :=
            getD_asObj_eq hba
          refine ⟨_, h1.symm, ?_, ?_⟩
          · intro k hk
            rw [dictGet_dictSet_ne _ _ _ _ (by simpa using hk)]
          · exact Or.inr ⟨optsD, _, hfsO, dictGet_dictSet_self _ _ _,
              ⟨fun k hk => dictGet_dictSet_ne _ _ _ _ (by simpa using hk),
               Or.inr ⟨attrsD, _, hoA, dictGet_dictSet_self _ _ _,
                 ⟨fun k hk => dictGet_dictSet_ne _ _ _ _ (by simpa using hk),
                  Or.inr ⟨authD, _, haAu, dictGet_dictSet_self _ _ _,
                    ⟨fun k hk => dictGet_dictSet_ne _ _ _ _ (by simpa using hk),
                     Or.inr ⟨basicD, _, hab, dictGet_dictSet_self _ _ _,
                       fun k hk => by
                         rw [dictGet_dictSet_ne _ _ _ _ (by simpa using hk),
                             dictGet_dictRemove_ne _ _ _ (by simpa using hk)]⟩⟩⟩⟩⟩⟩⟩
        · rw [if_neg hc4] at h
          simp only [Option.pure_def, Option.some.injEq, Prod.mk.injEq] at h
          obtain ⟨h1, h2⟩ := h
          exact ⟨fs, h1.symm, diffKeys_refl _ _, keyObjRel_refl _ _ _⟩
      · rw [if_neg hc3] at h
        simp only [Option.pure_def, Option.some.injEq, Prod.mk.injEq] at h
        obtain ⟨h1, h2⟩ := h
        exact ⟨fs, h1.symm, diffKeys_refl _ _, keyObjRel_refl _ _ _⟩
    · rw [if_neg hc2] at h
      simp only [Option.pure_def, Option.some.injEq, Prod.mk.injEq] at h
      obtain ⟨h1, h2⟩ := h
      exact ⟨fs, h1.symm, diffKeys_refl _ _, keyObjRel_refl _ _ _⟩
  · rw [if_neg hc1] at h
    simp only [Option.pure_def, Option.some.injEq, Prod.mk.injEq] at h
    obtain ⟨h1, h2⟩ := h
    exact ⟨fs, h1.symm, diffKeys_refl _ _, keyObjRel_refl _ _ _⟩

/-- One variable-loop iteration relates input and output by `VarEntryRel`:
only `value`/`attrs` of a SECRET variable and the nested options basic-auth
password may change. -/
theorem stripOneVariable_rel (pl : JPath) (fn : String) (filtered : JMap)
    (idx : Nat) (var : JValue) (st : SSt) (v' : JValue) (st' : SSt)
    (h : stripOneVariable pl fn filtered idx var st = some (v', st')) :
    ∃ fs fs', var = .obj fs ∧ v' = .obj fs' ∧ VarEntryRel fs fs' := by
  unfold stripOneVariable at h
  simp only [Option.bind_eq_bind] at h
  rw [Option.bind_eq_some] at h
  obtain ⟨fs, hfs, h⟩ := h
  rw [Option.bind_eq_some] at h
  obtain ⟨t, ht, h⟩ := h
  have mk : ∀ fs2, v' = JValue.obj fs2 → DiffKeys ["options"] fs fs2 →
      KeyObjRel "options" OptionsRel fs fs2 →
      ∃ g g', var = .obj g ∧ v' = .obj g' ∧ VarEntryRel g g' :=
    fun fs2 hv' hdk2 hko2 => ⟨fs, fs2, asObj_eq hfs, hv',
      ⟨fun k hk => hdk2 k (by simp at hk ⊢; exact hk.2.2),
       fun _ => ⟨hdk2 "value" (by decide), hdk2 "attrs" (by decide)⟩, hko2⟩⟩
  by_cases hsec : t = JValue.str "SECRET"
  · rw [if_pos hsec] at h
    by_cases hmod : is_secret_modified filtered (dictGetD fs "name" JValue.null)
        (dictGetD fs "value" JValue.null) = true
    · rw [if_pos hmod] at h
      rw [Option.bind_eq_some] at h
      obtain ⟨popped, hpop, h⟩ := h
      simp only [Option.pure_def, Option.some_bind] at h
      obtain ⟨fs2, hv', hdk2, hko2⟩ := stripVariableOptionsAuth_rel _ _ _ _ _ _ _ h
      refine ⟨fs, fs2, asObj_eq hfs, hv', ?_, ?_, ?_⟩
      · intro k hk
        simp only [List.mem_cons, List.mem_singleton, not_or] at hk
        obtain ⟨hkv, hka, hko⟩ := hk
        rw [hdk2 k (by simpa using hko), dictGet_dictSet_ne _ _ _ _ hka,
            dictGet_dictRemove_ne _ _ _ hkv]
      · intro hts
        exact absurd (hsec ▸ ht) hts
      · exact keyObjRel_congr_left
          (by rw [dictGet_dictSet_ne _ _ _ _ (by decide),
                  dictGet_dictRemove_ne _ _ _ (by decide)]) hko2
    · rw [if_neg hmod] at h
      by_cases htr : (dictGetD fs "value" JValue.null).truthy = true
      · rw [if_pos htr] at h
        simp only [Option.pure_def, Option.some_bind] at h
        obtain ⟨fs2, hv', hdk2, hko2⟩ := stripVariableOptionsAuth_rel _ _ _ _ _ _ _ h
        exact mk fs2 hv' hdk2 hko2
      · rw [if_neg htr] at h
        simp only [Option.pure_def, Option.some_bind] at h
        obtain ⟨fs2, hv', hdk2, hko2⟩ := stripVariableOptionsAuth_rel _ _ _ _ _ _ _ h
        exact mk fs2 hv' hdk2 hko2
  · rw [if_neg hsec] at h
    simp only [Option.pure_def, Option.some_bind] at h
    obtain ⟨fs2, hv', hdk2, hko2⟩ := stripVariableOptionsAuth_rel _ _ _ _ _ _ _ h
    exact mk fs2 hv' hdk2 hko2

/-- The variable loop is elementwise `VarEntryRel`. -/
theorem stripVariablesLoop_rel (pl : JPath) (fn : String) (filtered : JMap) :
    ∀ (xs : List JValue) (idx : Nat) (st : SSt) (xs' : List JValue) (st' : SSt),
      stripVariablesLoop pl fn filtered xs idx st = some (xs', st') →
      xs'.length = xs.length ∧
      ∀ i, i < xs.length → ∃ a a', xs[i]? = some a ∧ xs'[i]? = some a' ∧
        (a' = a ∨ ObjRel VarEntryRel a a') := by
  intro xs
  induction xs with
  | nil =>
    intro idx st xs' st' h
    simp only [stripVariablesLoop, Option.some.injEq, Prod.mk.injEq] at h
    obtain ⟨h1, h2⟩ := h
    rw [← h1]
    exact ⟨rfl, fun i hi => absurd hi (by simp)⟩
  | cons v vs ih =>
    intro idx st xs' st' h
    unfold stripVariablesLoop at h
    simp only [Option.bind_eq_bind] at h
    rw [Option.bind_eq_some] at h
    obtain ⟨⟨v', st1⟩, h1, h⟩ := h
    rw [Option.bind_eq_some] at h
    obtain ⟨⟨vs', st2⟩, h2, h⟩ := h
    simp only [Option.pure_def, Option.some.injEq, Prod.mk.injEq] at h
    obtain ⟨hl, hr⟩ := h
    obtain ⟨hlen, hspec⟩ := ih (idx + 1) st1 vs' st2 h2
    obtain ⟨fs, fs', hc, hc', hrel⟩ := stripOneVariable_rel pl fn filtered idx v st v' st1 h1
    rw [← hl]
    refine ⟨by simp [hlen], ?_⟩
    intro i hi
    cases i with
    | zero => exact ⟨v, v', by simp, by simp, Or.inr ⟨fs, fs', hc, hc', hrel⟩⟩
    | succ n =>
      obtain ⟨a, a', ha, ha', hr'⟩ := hspec n (by simpa using hi)
      exact ⟨a, a', by simpa using ha, by simpa using ha', hr'⟩

/-- `strip_entity_secret_variables` changes only the `field_name` list, and
elementwise by `VarEntryRel`. -/
theorem strip_entity_rel (dec : Decompiled) (pl : JPath) (fs : JDict) (st : SSt)
    (fn ctx : String) (fs' : JDict) (st' : SSt)
    (h : strip_entity_secret_variables dec pl fs st fn ctx = some (fs', st')) :
    DiffKeys [fn] fs fs' ∧ KeyArrRel fn (ObjRel VarEntryRel) fs fs' := by
  unfold strip_entity_secret_variables at h
  simp only [Option.bind_eq_bind] at h
  rw [Option.bind_eq_some] at h
  obtain ⟨c, hc, h⟩ := h
  rw [Option.bind_eq_some] at h
  obtain ⟨vars, hvars, h⟩ := h
  rw [Option.bind_eq_some] at h
  obtain ⟨⟨vars', st1⟩, hloop, h⟩ := h
  simp only [Option.pure_def, Option.some.injEq, Prod.mk.injEq] at h
  obtain ⟨h1, h2⟩ := h
  subst h1
  constructor
  · exact fun k hk => setListBack_get_ne fs fn k vars' (by simpa using hk)
  · cases hg : dictGet fs fn with
    | none =>
      left
      unfold setListBack
      rw [hg]
      exact hg
    | some v =>
      cases v with
      | arr xs =>
        have hvx : vars = xs := by
          rw [getListOr_arr _ _ _ hg] at hvars
          exact (Option.some.inj hvars).symm
        subst hvx
        obtain ⟨hlen, hspec⟩ := stripVariablesLoop_rel pl fn _ vars 0 st vars' st1 hloop
        exact Or.inr ⟨vars, vars', hg, setListBack_get_self fs fn vars' vars hg,
          hlen, hspec⟩
      | null =>
        left
        unfold setListBack
        rw [hg]
        exact hg
      | bool b =>
        left
        unfold setListBack
        rw [hg]
        exact hg
      | int n =>
        left
        unfold setListBack
        rw [hg]
        exact hg
      | str s2 =>
        left
        unfold setListBack
        rw [hg]
        exact hg
      | obj g =>
        left
        unfold setListBack
        rw [hg]
        exact hg

/-- `strip_authentication_secret_variables` changes only
`authentication.password`. -/
theorem strip_auth_rel (dec : Decompiled) (pl : JPath) (fs : JDict) (st : SSt)
    (ctx : String) (fs' : JDict) (st' : SSt)
    (h : strip_authentication_secret_variables dec pl fs st ctx = some (fs', st')) :
    DiffKeys ["authentication"] fs fs' ∧ KeyObjRel "authentication" PwdOnly fs fs' := by
  unfold strip_authentication_secret_variables at h
  simp only [Option.bind_eq_bind] at h
  cases hn : dictGet fs "name" with
  | none =>
    rw [hn] at h
    simp only [Option.pure_def, Option.some_bind] at h
    rw [Option.bind_eq_some] at h
    obtain ⟨auth, hauth, h⟩ := h
    by_cases c1 : dictGetD auth "auth_type" JValue.null = JValue.str "basic"
    · rw [if_pos c1] at h
      rw [Option.bind_eq_some] at h
      obtain ⟨pw, hpw, h⟩ := h
      by_cases c2 : is_secret_modified
          (get_secrets_from_context dec (ctx ++ "." ++ "" ++ ".basic_auth"))
          (dictGetD pw "name" JValue.null) (dictGetD pw "value" JValue.null) = true
      · rw [if_pos c2] at h
        rw [Option.bind_eq_some] at h
        obtain ⟨pwReal, hpwr, h⟩ := h
        rw [Option.bind_eq_some] at h
        obtain ⟨popped, hpop, h⟩ := h
        simp only [Option.pure_def, Option.some.injEq, Prod.mk.injEq] at h
        obtain ⟨h1, h2⟩ := h
        subst h1
        refine ⟨fun k hk => dictGet_dictSet_ne _ _ _ _ (by simpa using hk), ?_⟩
        have hane : auth ≠ [] := fun he => by
          rw [he] at c1
          exact absurd c1 (by decide)
        have hfa : dictGet fs "authentication" = some (.obj auth) :=
          getObjD_ne_nil hauth hane
        exact Or.inr ⟨auth, _, hfa, dictGet_dictSet_self _ _ _,
          fun k hk => dictGet_dictSet_ne _ _ _ _ (by simpa using hk)⟩
      · rw [if_neg c2] at h
        rw [Option.bind_eq_some] at h
        obtain ⟨pwReal, hpwr, h⟩ := h
        by_cases c3 : (dictGetD pwReal "value" JValue.null).truthy = true
        · rw [if_pos c3] at h
          simp only [Option.pure_def, Option.some.injEq, Prod.mk.injEq] at h
          obtain ⟨h1, h2⟩ := h
          subst h1
          exact ⟨diffKeys_refl _ _, keyObjRel_refl _ _ _⟩
        · rw [if_neg c3] at h
          simp only [Option.pure_def, Option.some.injEq, Prod.mk.injEq] at h
          obtain ⟨h1, h2⟩ := h
          subst h1
          exact ⟨diffKeys_refl _ _, keyObjRel_refl _ _ _⟩
    · rw [if_neg c1] at h
      simp only [Option.pure_def, Option.some.injEq, Prod.mk.injEq] at h
      obtain ⟨h1, h2⟩ := h
      subst h1
      exact ⟨diffKeys_refl _ _, keyObjRel_refl _ _ _⟩
  | some v =>
    rw [hn] at h
    cases v
    case str s =>
      simp only [Option.pure_def, Option.some_bind] at h
      rw [Option.bind_eq_some] at h
      obtain ⟨auth, hauth, h⟩ := h
      by_cases c1 : dictGetD auth "auth_type" JValue.null = JValue.str "basic"
      · rw [if_pos c1] at h
        rw [Option.bind_eq_some] at h
        obtain ⟨pw, hpw, h⟩ := h
        by_cases c2 : is_secret_modified
            (get_secrets_from_context dec (ctx ++ "." ++ s ++ ".basic_auth"))
            (dictGetD pw "name" JValue.null) (dictGetD pw "value" JValue.null) = true
        · rw [if_pos c2] at h
          rw [Option.bind_eq_some] at h
          obtain ⟨pwReal, hpwr, h⟩ := h
          rw [Option.bind_eq_some] at h
          obtain ⟨popped, hpop, h⟩ := h
          simp only [Option.pure_def, Option.some.injEq, Prod.mk.injEq] at h
          obtain ⟨h1, h2⟩ := h
          subst h1
          refine ⟨fun k hk => dictGet_dictSet_ne _ _ _ _ (by simpa using hk), ?_⟩
          have hane : auth ≠ [] := fun he => by
            rw [he] at c1
            exact absurd c1 (by decide)
          have hfa : dictGet fs "authentication" = some (.obj auth) :=
            getObjD_ne_nil hauth hane
          exact Or.inr ⟨auth, _, hfa, dictGet_dictSet_self _ _ _,
            fun k hk => dictGet_dictSet_ne _ _ _ _ (by simpa using hk)⟩
        · rw [if_neg c2] at h
          rw [Option.bind_eq_some] at h
          obtain ⟨pwReal, hpwr, h⟩ := h
          by_cases c3 : (dictGetD pwReal "value" JValue.null).truthy = true
          · rw [if_pos c3] at h
            simp only [Option.pure_def, Option.some.injEq, Prod.mk.injEq] at h
            obtain ⟨h1, h2⟩ := h
            subst h1
            exact ⟨diffKeys_refl _ _, keyObjRel_refl _ _ _⟩
          · rw [if_neg c3] at h
            simp only [Option.pure_def, Option.some.injEq, Prod.mk.injEq] at h
            obtain ⟨h1, h2⟩ := h
            subst h1
            exact ⟨diffKeys_refl _ _, keyObjRel_refl _ _ _⟩
      · rw [if_neg c1] at h
        simp only [Option.pure_def, Option.some.injEq, Prod.mk.injEq] at h
        obtain ⟨h1, h2⟩ := h
        subst h1
        exact ⟨diffKeys_refl _ _, keyObjRel_refl _ _ _⟩
    all_goals simp at h

/-- The header-secrets tail changes a task only at `attrs.headers`,
elementwise by `VarEntryRel`. -/
theorem stripTaskHeadersTail_rel (dec : Decompiled) (pl : JPath) (hctx : String)
    (fs : JDict) (st : SSt) (v' : JValue) (st' : SSt)
    (h : stripTaskHeadersTail dec pl hctx fs st = some (v', st')) :
    ∃ fs', v' = .obj fs' ∧ TaskRel fs fs' := by
  unfold stripTaskHeadersTail at h
  simp only [Option.bind_eq_bind] at h
  rw [Option.bind_eq_some] at h
  obtain ⟨attrs2, ha2, h⟩ := h
  rw [Option.bind_eq_some] at h
  obtain ⟨headers, hh, h⟩ := h
  by_cases he : headers.isEmpty = true
  · rw [if_pos he] at h
    simp only [Option.pure_def, Option.some.injEq, Prod.mk.injEq] at h
    obtain ⟨h1, h2⟩ := h
    exact ⟨fs, h1.symm, taskRel_refl fs⟩
  · rw [if_neg he] at h
    rw [Option.bind_eq_some] at h
    obtain ⟨attrsReal, har, h⟩ := h
    rw [Option.bind_eq_some] at h
    obtain ⟨⟨attrs3, st1⟩, hse, h⟩ := h
    simp only [Option.pure_def, Option.some.injEq, Prod.mk.injEq] at h
    obtain ⟨h1, h2⟩ := h
    have hfa : dictGet fs "attrs" = some (.obj attrsReal) := getD_asObj_eq har
    obtain ⟨hdk, hka⟩ := strip_entity_rel dec pl attrsReal st "headers" hctx attrs3 st1 hse
    refine ⟨_, h1.symm, ?_, ?_⟩
    · exact fun k hk => dictGet_dictSet_ne _ _ _ _ (by simpa using hk)
    · refine Or.inr ⟨attrsReal, attrs3, hfa, dictGet_dictSet_self _ _ _, ?_,
        Or.inl (hdk "authentication" (by decide)), hka,
        Or.inl (hdk "inarg_list" (by decide))⟩
      intro k hk
      exact hdk k (by simp at hk ⊢; exact hk.2.2)

/-- One task of the action task loop: unchanged, or changed only at its
attrs' basic-auth password and header secrets. -/
theorem stripActionTask_rel (dec : Decompiled) (pl : JPath) (action_idx : Nat)
    (trctx : String) (task_idx : Nat) (task : JValue) (st : SSt)
    (v' : JValue) (st' : SSt)
    (h : stripActionTask dec pl action_idx trctx task_idx task st = some (v', st')) :
    v' = task ∨ ∃ fs fs', task = .obj fs ∧ v' = .obj fs' ∧ TaskRel fs fs' := by
  unfold stripActionTask at h
  simp only [Option.bind_eq_bind] at h
  rw [Option.bind_eq_some] at h
  obtain ⟨fs, hfs, h⟩ := h
  by_cases htype : dictGetD fs "type" JValue.null ≠ JValue.str "HTTP"
  · rw [if_pos htype] at h
    simp only [Option.pure_def, Option.some.injEq, Prod.mk.injEq] at h
    exact Or.inl h.1.symm
  · rw [if_neg htype] at h
    rw [Option.bind_eq_some] at h
    obtain ⟨attrs, hat, h⟩ := h
    rw [Option.bind_eq_some] at h
    obtain ⟨auth, hau, h⟩ := h
    rw [Option.bind_eq_some] at h
    obtain ⟨tn, htn, h⟩ := h
    by_cases hbasic : dictGetD auth "auth_type" JValue.null = JValue.str "basic"
    · rw [if_pos hbasic] at h
      rw [Option.bind_eq_some] at h
      obtain ⟨ba, hba, h⟩ := h
      rw [Option.bind_eq_some] at h
      obtain ⟨pwd, hpwd, h⟩ := h
      by_cases hmod : is_secret_modified
          (get_secrets_from_context dec (trctx ++ "." ++ tn ++ ".basic_auth"))
          (dictGetD ba "username" JValue.null) (dictGetD pwd "value" JValue.null) = true
      · rw [if_pos hmod] at h
        rw [Option.bind_eq_some] at h
        obtain ⟨baReal, hbar, h⟩ := h
        rw [Option.bind_eq_some] at h
        obtain ⟨pwdReal, hpwr, h⟩ := h
        rw [Option.bind_eq_some] at h
        obtain ⟨popped, hpop, h⟩ := h
        simp only [Option.pure_def, Option.some_bind] at h
        obtain ⟨fs2, hv2, hrel2⟩ := stripTaskHeadersTail_rel _ _ _ _ _ _ _ h
        have hane : auth ≠ [] := fun he => by
          rw [he] at hbasic
          exact absurd hbasic (by decide)
        have hattrs_ne : attrs ≠ [] := by
          intro he
          apply hane
          rw [he] at hau
          exact (Option.some.inj hau).symm
        have hfa : dictGet fs "attrs" = some (.obj attrs) := getObjOr_ne_nil hat hattrs_ne
        have haa : dictGet attrs "authentication" = some (.obj auth) :=
          getObjOr_ne_nil hau hane
        have hab : dictGet auth "basic_auth" = some (.obj baReal) := getD_asObj_eq hbar
        have hrel1 : TaskRel fs (dictSet fs "attrs" (.obj (dictSet attrs "authentication"
            (.obj (dictSet auth "basic_auth"
              (.obj (dictSet baReal "password" taskPwdPlaceholder))))))) := by
          refine ⟨fun k hk => dictGet_dictSet_ne _ _ _ _ (by simpa using hk), ?_⟩
          refine Or.inr ⟨attrs, _, hfa, dictGet_dictSet_self _ _ _, ?_, ?_,
            Or.inl (dictGet_dictSet_ne _ _ _ _ (by decide)),
            Or.inl (dictGet_dictSet_ne _ _ _ _ (by decide))⟩
          · exact fun k hk => dictGet_dictSet_ne _ _ _ _ (by simp at hk ⊢; exact hk.2.1)
          · exact Or.inr ⟨auth, _, haa, dictGet_dictSet_self _ _ _,
              ⟨fun k hk => dictGet_dictSet_ne _ _ _ _ (by simp at hk ⊢; exact hk.1),
               Or.inr ⟨baReal, _, hab, dictGet_dictSet_self _ _ _,
                 fun k hk => dictGet_dictSet_ne _ _ _ _ (by simpa using hk)⟩⟩⟩
        exact Or.inr ⟨fs, fs2, asObj_eq hfs, hv2, taskRel_trans _ _ _ hrel1 hrel2⟩
      · rw [if_neg hmod] at h
        rw [Option.bind_eq_some] at h
        obtain ⟨baReal, hbar, h⟩ := h
        rw [Option.bind_eq_some] at h
        obtain ⟨pwdReal, hpwr, h⟩ := h
        by_cases htr : (dictGetD pwdReal "value" JValue.null).truthy = true
        · rw [if_pos htr] at h
          simp only [Option.pure_def, Option.some_bind] at h
          obtain ⟨fs2, hv2, hrel2⟩ := stripTaskHeadersTail_rel _ _ _ _ _ _ _ h
          exact Or.inr ⟨fs, fs2, asObj_eq hfs, hv2, hrel2⟩
        · rw [if_neg htr] at h
          simp only [Option.pure_def, Option.some_bind] at h
          obtain ⟨fs2, hv2, hrel2⟩ := stripTaskHeadersTail_rel _ _ _ _ _ _ _ h
          exact Or.inr ⟨fs, fs2, asObj_eq hfs, hv2, hrel2⟩
    · rw [if_neg hbasic] at h
      simp only [Option.pure_def, Option.some_bind] at h
      obtain ⟨fs2, hv2, hrel2⟩ := stripTaskHeadersTail_rel _ _ _ _ _ _ _ h
      exact Or.inr ⟨fs, fs2, asObj_eq hfs, hv2, hrel2⟩

theorem keyObjRel_mono {key : String} {R R' : JDict → JDict → Prop}
    (hle : ∀ a b, R a b → R' a b) {d d' : JDict}
    (h : KeyObjRel key R d d') : KeyObjRel key R' d d' := by
  rcases h with h | ⟨g, g', hg, hg', hr⟩
  · exact Or.inl h
  · exact Or.inr ⟨g, g', hg, hg', hle _ _ hr⟩

theorem pwdOnly_le_authInner : ∀ a b, PwdOnly a b → AuthInnerRel a b :=
  fun _ _ h =>
    ⟨diffKeys_mono (fun k hk => by simp at hk ⊢; exact hk.2) h,
     Or.inl (h "basic_auth" (by decide))⟩

/-- One task of the runbook task loop: unchanged, or changed only at its
attrs' inarg_list secrets, authentication password and header secrets. -/
theorem stripRunbookTask_rel (dec : Decompiled) (pl : JPath) (context : String)
    (task_idx : Nat) (task : JValue) (st : SSt) (v' : JValue) (st' : SSt)
    (h : stripRunbookTask dec pl context task_idx task st = some (v', st')) :
    v' = task ∨ ∃ fs fs', task = .obj fs ∧ v' = .obj fs' ∧ TaskRel fs fs' := by
  unfold stripRunbookTask at h
  simp only [Option.bind_eq_bind] at h
  rw [Option.bind_eq_some] at h
  obtain ⟨fs, hfs, h⟩ := h
  by_cases hrt : dictGetD fs "type" JValue.null = JValue.str "RT_OPERATION"
  · rw [if_pos hrt] at h
    rw [Option.bind_eq_some] at h
    obtain ⟨attrsReal, har, h⟩ := h
    rw [Option.bind_eq_some] at h
    obtain ⟨⟨attrs1, st1⟩, hse, h⟩ := h
    simp only [Option.pure_def, Option.some.injEq, Prod.mk.injEq] at h
    obtain ⟨h1, h2⟩ := h
    have hfa : dictGet fs "attrs" = some (.obj attrsReal) := getD_asObj_eq har
    obtain ⟨hdk, hka⟩ := strip_entity_rel _ _ _ _ _ _ _ _ hse
    refine Or.inr ⟨fs, _, asObj_eq hfs, h1.symm, ?_, ?_⟩
    · exact fun k hk => dictGet_dictSet_ne _ _ _ _ (by simpa using hk)
    · refine Or.inr ⟨attrsReal, attrs1, hfa, dictGet_dictSet_self _ _ _, ?_,
        Or.inl (hdk "authentication" (by decide)),
        Or.inl (hdk "headers" (by decide)), hka⟩
      intro k hk
      exact hdk k (by simp at hk ⊢; exact hk.1)
  · rw [if_neg hrt] at h
    by_cases hhttp : dictGetD fs "type" JValue.null ≠ JValue.str "HTTP"
    · rw [if_pos hhttp] at h
      simp only [Option.pure_def, Option.some.injEq, Prod.mk.injEq] at h
      exact Or.inl h.1.symm
    · rw [if_neg hhttp] at h
      rw [Option.bind_eq_some] at h
      obtain ⟨attrs, hat, h⟩ := h
      rw [Option.bind_eq_some] at h
      obtain ⟨auth, hau, h⟩ := h
      rw [Option.bind_eq_some] at h
      obtain ⟨tn, htn, h⟩ := h
      rw [Option.bind_eq_some] at h
      obtain ⟨⟨attrs1, st1⟩, hsa, h⟩ := h
      obtain ⟨fs2, hv2, hrel2⟩ := stripTaskHeadersTail_rel _ _ _ _ _ _ _ h
      obtain ⟨hdk1, hko1⟩ := strip_auth_rel _ _ _ _ _ _ _ hsa
      cases hfa : dictGet fs "attrs" with
      | none =>
        rw [hfa] at hrel2
        exact Or.inr ⟨fs, fs2, asObj_eq hfs, hv2, hrel2⟩
      | some v =>
        rw [hfa] at hrel2
        cases v with
        | obj g =>
          cases g with
          | nil => exact Or.inr ⟨fs, fs2, asObj_eq hfs, hv2, hrel2⟩
          | cons a l =>
            have hattrs : a :: l = attrs :=
              Option.some.inj ((getObjOr_obj fs "attrs" (a :: l) hfa).symm.trans hat)
            subst hattrs
            have hrel1 : TaskRel fs (dictSet fs "attrs" (.obj attrs1)) := by
              refine ⟨fun k hk => dictGet_dictSet_ne _ _ _ _ (by simpa using hk), ?_⟩
              refine Or.inr ⟨a :: l, attrs1, hfa, dictGet_dictSet_self _ _ _, ?_,
                keyObjRel_mono pwdOnly_le_authInner hko1,
                Or.inl (hdk1 "headers" (by decide)),
                Or.inl (hdk1 "inarg_list" (by decide))⟩
              intro k hk
              exact hdk1 k (by simp at hk ⊢; exact hk.2.1)
            exact Or.inr ⟨fs, fs2, asObj_eq hfs, hv2, taskRel_trans _ _ _ hrel1 hrel2⟩
        | null => exact Or.inr ⟨fs, fs2, asObj_eq hfs, hv2, hrel2⟩
        | bool b => exact Or.inr ⟨fs, fs2, asObj_eq hfs, hv2, hrel2⟩
        | int n => exact Or.inr ⟨fs, fs2, asObj_eq hfs, hv2, hrel2⟩
        | str s2 => exact Or.inr ⟨fs, fs2, asObj_eq hfs, hv2, hrel2⟩
        | arr xs => exact Or.inr ⟨fs, fs2, asObj_eq hfs, hv2, hrel2⟩

theorem stripActionTasksLoop_rel (dec : Decompiled) (pl : JPath) (action_idx : Nat)
    (trctx : String) :
    ∀ (xs : List JValue) (idx : Nat) (st : SSt) (xs' : List JValue) (st' : SSt),
      stripActionTasksLoop dec pl action_idx trctx xs idx st = some (xs', st') →
      xs'.length = xs.length ∧
      ∀ i, i < xs.length → ∃ a a', xs[i]? = some a ∧ xs'[i]? = some a' ∧
        (a' = a ∨ ObjRel TaskRel a a') := by
  intro xs
  induction xs with
  | nil =>
    intro idx st xs' st' h
    simp only [stripActionTasksLoop, Option.some.injEq, Prod.mk.injEq] at h
    obtain ⟨h1, h2⟩ := h
    rw [← h1]
    exact ⟨rfl, fun i hi => absurd hi (by simp)⟩
  | cons t ts ih =>
    intro idx st xs' st' h
    unfold stripActionTasksLoop at h
    simp only [Option.bind_eq_bind] at h
    rw [Option.bind_eq_some] at h
    obtain ⟨⟨t', st1⟩, h1, h⟩ := h
    rw [Option.bind_eq_some] at h
    obtain ⟨⟨ts', st2⟩, h2, h⟩ := h
    simp only [Option.pure_def, Option.some.injEq, Prod.mk.injEq] at h
    obtain ⟨hl, hr⟩ := h
    obtain ⟨hlen, hspec⟩ := ih (idx + 1) st1 ts' st2 h2
    have hhead := stripActionTask_rel dec pl action_idx trctx idx t st t' st1 h1
    rw [← hl]
    refine ⟨by simp [hlen], ?_⟩
    intro i hi
    cases i with
    | zero =>
      refine ⟨t, t', by simp, by simp, ?_⟩
      rcases hhead with hh | ⟨fs, fs', hc, hc', hrel⟩
      · exact Or.inl hh
      · exact Or.inr ⟨fs, fs', hc, hc', hrel⟩
    | succ n =>
      obtain ⟨a, a', ha, ha', hr'⟩ := hspec n (by simpa using hi)
      exact ⟨a, a', by simpa using ha, by simpa using ha', hr'⟩

theorem stripRunbookTasksLoop_rel (dec : Decompiled) (pl : JPath) (context : String) :
    ∀ (xs : List JValue) (idx : Nat) (st : SSt) (xs' : List JValue) (st' : SSt),
      stripRunbookTasksLoop dec pl context xs idx st = some (xs', st') →
      xs'.length = xs.length ∧
      ∀ i, i < xs.length → ∃ a a', xs[i]? = some a ∧ xs'[i]? = some a' ∧
        (a' = a ∨ ObjRel TaskRel a a') := by
  intro xs
  induction xs with
  | nil =>
    intro idx st xs' st' h
    simp only [stripRunbookTasksLoop, Option.some.injEq, Prod.mk.injEq] at h
    obtain ⟨h1, h2⟩ := h
    rw [← h1]
    exact ⟨rfl, fun i hi => absurd hi (by simp)⟩
  | cons t ts ih =>
    intro idx st xs' st' h
    unfold stripRunbookTasksLoop at h
    simp only [Option.bind_eq_bind] at h
    rw [Option.bind_eq_some] at h
    obtain ⟨⟨t', st1⟩, h1, h⟩ := h
    rw [Option.bind_eq_some] at h
    obtain ⟨⟨ts', st2⟩, h2, h⟩ := h
    simp only [Option.pure_def, Option.some.injEq, Prod.mk.injEq] at h
    obtain ⟨hl, hr⟩ := h
    obtain ⟨hlen, hspec⟩ := ih (idx + 1) st1 ts' st2 h2
    have hhead := stripRunbookTask_rel dec pl context idx t st t' st1 h1
    rw [← hl]
    refine ⟨by simp [hlen], ?_⟩
    intro i hi
    cases i with
    | zero =>
      refine ⟨t, t', by simp, by simp, ?_⟩
      rcases hhead with hh | ⟨fs, fs', hc, hc', hrel⟩
      · exact Or.inl hh
      · exact Or.inr ⟨fs, fs', hc, hc', hrel⟩
    | succ n =>
      obtain ⟨a, a', ha, ha', hr'⟩ := hspec n (by simpa using hi)
      exact ⟨a, a', by simpa using ha, by simpa using ha', hr'⟩

/-- The action loop is elementwise `ActionRel` (an action without a runbook
stops the loop, leaving itself and the remaining actions unchanged). -/
theorem stripActionsLoop_rel (dec : Decompiled) (pl : JPath) (context : String) :
    ∀ (xs : List JValue) (idx : Nat) (st : SSt) (xs' : List JValue) (st' : SSt),
      stripActionsLoop dec pl context xs idx st = some (xs', st') →
      xs'.length = xs.length ∧
      ∀ i, i < xs.length → ∃ a a', xs[i]? = some a ∧ xs'[i]? = some a' ∧
        (a' = a ∨ ObjRel ActionRel a a') := by
  intro xs
  induction xs with
  | nil =>
    intro idx st xs' st' h
    simp only [stripActionsLoop, Option.some.injEq, Prod.mk.injEq] at h
    obtain ⟨h1, h2⟩ := h
    rw [← h1]
    exact ⟨rfl, fun i hi => absurd hi (by simp)⟩
  | cons a rest ih =>
    intro idx st xs' st' h
    unfold stripActionsLoop at h
    simp only [Option.bind_eq_bind] at h
    rw [Option.bind_eq_some] at h
    obtain ⟨af, haf, h⟩ := h
    rw [Option.bind_eq_some] at h
    obtain ⟨an, han, h⟩ := h
    rw [Option.bind_eq_some] at h
    obtain ⟨rb, hrb, h⟩ := h
    by_cases hemp : rb.isEmpty = true
    · rw [if_pos hemp] at h
      simp only [Option.pure_def, Option.some.injEq, Prod.mk.injEq] at h
      obtain ⟨h1, h2⟩ := h
      rw [← h1]
      refine ⟨rfl, ?_⟩
      intro i hi
      exact ⟨(a :: rest).get ⟨i, hi⟩, (a :: rest).get ⟨i, hi⟩,
        List.getElem?_eq_getElem hi, List.getElem?_eq_getElem hi, Or.inl rfl⟩
    · rw [if_neg hemp] at h
      rw [Option.bind_eq_some] at h
      obtain ⟨⟨rb1, st1⟩, hse, h⟩ := h
      rw [Option.bind_eq_some] at h
      obtain ⟨tasks, htasks, h⟩ := h
      rw [Option.bind_eq_some] at h
      obtain ⟨rn, hrn, h⟩ := h
      rw [Option.bind_eq_some] at h
      obtain ⟨⟨tasks', st2⟩, htl, h⟩ := h
      rw [Option.bind_eq_some] at h
      obtain ⟨⟨rest', st3⟩, hrest, h⟩ := h
      simp only [Option.pure_def, Option.some.injEq, Prod.mk.injEq] at h
      obtain ⟨h1, h2⟩ := h
      obtain ⟨hlen, hspec⟩ := ih (idx + 1) st2 rest' st3 hrest
      have hrbne : rb ≠ [] := fun hnil => hemp (by rw [hnil]; rfl)
      have hgrb : dictGet af "runbook" = some (.obj rb) := getObjOr_ne_nil hrb hrbne
      obtain ⟨hdk1, hka1⟩ := strip_entity_rel _ _ _ _ _ _ _ _ hse
      have hr1 : RunbookRel rb rb1 :=
        ⟨diffKeys_mono (fun k hk => by simp at hk ⊢; exact hk.1) hdk1, hka1,
         Or.inl (hdk1 "task_definition_list" (by decide))⟩
      have hr2 : RunbookRel rb1 (setListBack rb1 "task_definition_list" tasks') := by
        refine ⟨fun k hk => setListBack_get_ne _ _ _ _ (by simp at hk; exact hk.2),
                Or.inl (setListBack_get_ne _ _ _ _ (by decide)), ?_⟩
        cases hg : dictGet rb1 "task_definition_list" with
        | none =>
          left
          unfold setListBack
          rw [hg]
          exact hg
        | some v =>
          cases v with
          | arr txs =>
            have htx : tasks = txs := by
              unfold getListIter at htasks
              rw [hg] at htasks
              exact (Option.some.inj htasks).symm
            subst htx
            obtain ⟨hlen2, hsp2⟩ :=
              stripActionTasksLoop_rel dec pl idx _ tasks 0 st1 tasks' st2 htl
            exact Or.inr ⟨tasks, tasks', hg, setListBack_get_self _ _ _ _ hg,
              hlen2, hsp2⟩
          | null =>
            left
            unfold setListBack
            rw [hg]
            exact hg
          | bool b =>
            left
            unfold setListBack
            rw [hg]
            exact hg
          | int n =>
            left
            unfold setListBack
            rw [hg]
            exact hg
          | str s2 =>
            left
            unfold setListBack
            rw [hg]
            exact hg
          | obj g =>
            left
            unfold setListBack
            rw [hg]
            exact hg
      have hact : ActionRel af (dictSet af "runbook"
          (.obj (setListBack rb1 "task_definition_list" tasks'))) :=
        ⟨fun k hk => dictGet_dictSet_ne _ _ _ _ (by simpa using hk),
         Or.inr ⟨rb, _, hgrb, dictGet_dictSet_self _ _ _,
           runbookRel_trans _ _ _ hr1 hr2⟩⟩
      rw [← h1]
      refine ⟨by simp [hlen], ?_⟩
      intro i hi
      cases i with
      | zero =>
        exact ⟨a, _, by simp, by simp, Or.inr ⟨af, _, asObj_eq haf, rfl, hact⟩⟩
      | succ n =>
        obtain ⟨x, x', hx, hx', hr'⟩ := hspec n (by simpa using hi)
        exact ⟨x, x', by simpa using hx, by simpa using hx', hr'⟩

/-- `strip_action_secret_variables` changes only the `action_list`,
elementwise by `ActionRel`. -/
theorem strip_action_rel (dec : Decompiled) (pl : JPath) (obj : JDict) (st : SSt)
    (obj' : JDict) (st' : SSt)
    (h : strip_action_secret_variables dec pl obj st = some (obj', st')) :
    DiffKeys ["action_list"] obj obj' ∧
    KeyArrRel "action_list" (ObjRel ActionRel) obj obj' := by
  unfold strip_action_secret_variables at h
  simp only [Option.bind_eq_bind] at h
  rw [Option.bind_eq_some] at h
  obtain ⟨s0, hs0, h⟩ := h
  rw [Option.bind_eq_some] at h
  obtain ⟨nm, hnm, h⟩ := h
  rw [Option.bind_eq_some] at h
  obtain ⟨acts, hacts, h⟩ := h
  rw [Option.bind_eq_some] at h
  obtain ⟨⟨acts', st1⟩, hloop, h⟩ := h
  simp only [Option.pure_def, Option.some.injEq, Prod.mk.injEq] at h
  obtain ⟨h1, h2⟩ := h
  subst h1
  constructor
  · exact fun k hk => setListBack_get_ne obj "action_list" k acts' (by simpa using hk)
  · cases hg : dictGet obj "action_list" with
    | none =>
      left
      unfold setListBack
      rw [hg]
      exact hg
    | some v =>
      cases v with
      | arr xs =>
        have hvx : acts = xs := by
          rw [getListOr_arr _ _ _ hg] at hacts
          exact (Option.some.inj hacts).symm
        subst hvx
        obtain ⟨hlen, hspec⟩ := stripActionsLoop_rel dec pl _ acts 0 st acts' st1 hloop
        exact Or.inr ⟨acts, acts', hg,
          setListBack_get_self obj "action_list" acts' acts hg, hlen, hspec⟩
      | null =>
        left
        unfold setListBack
        rw [hg]
        exact hg
      | bool b =>
        left
        unfold setListBack
        rw [hg]
        exact hg
      | int n =>
        left
        unfold setListBack
        rw [hg]
        exact hg
      | str s2 =>
        left
        unfold setListBack
        rw [hg]
        exact hg
      | obj g =>
        left
        unfold setListBack
        rw [hg]
        exact hg

/-- `strip_runbook_secret_variables` changes only the `task_definition_list`,
elementwise by `TaskRel`. -/
theorem strip_runbook_rel (dec : Decompiled) (pl : JPath) (obj : JDict) (st : SSt)
    (obj' : JDict) (st' : SSt)
    (h : strip_runbook_secret_variables dec pl obj st = some (obj', st')) :
    DiffKeys ["task_definition_list"] obj obj' ∧
    KeyArrRel "task_definition_list" (ObjRel TaskRel) obj obj' := by
  unfold strip_runbook_secret_variables at h
  simp only [Option.bind_eq_bind] at h
  rw [Option.bind_eq_some] at h
  obtain ⟨s0, hs0, h⟩ := h
  rw [Option.bind_eq_some] at h
  obtain ⟨nm, hnm, h⟩ := h
  rw [Option.bind_eq_some] at h
  obtain ⟨tasks, htasks, h⟩ := h
  rw [Option.bind_eq_some] at h
  obtain ⟨⟨tasks', st1⟩, hloop, h⟩ := h
  simp only [Option.pure_def, Option.some.injEq, Prod.mk.injEq] at h
  obtain ⟨h1, h2⟩ := h
  subst h1
  constructor
  · exact fun k hk =>
      setListBack_get_ne obj "task_definition_list" k tasks' (by simpa using hk)
  · cases hg : dictGet obj "task_definition_list" with
    | none =>
      left
      unfold setListBack
      rw [hg]
      exact hg
    | some v =>
      cases v with
      | arr xs =>
        have hvx : tasks = xs := by
          unfold getListIter at htasks
          rw [hg] at htasks
          exact (Option.some.inj htasks).symm
        subst hvx
        obtain ⟨hlen, hspec⟩ :=
          stripRunbookTasksLoop_rel dec pl _ tasks 0 st tasks' st1 hloop
        exact Or.inr ⟨tasks, tasks', hg,
          setListBack_get_self obj "task_definition_list" tasks' tasks hg, hlen, hspec⟩
      | null =>
        left
        unfold setListBack
        rw [hg]
        exact hg
      | bool b =>
        left
        unfold setListBack
        rw [hg]
        exact hg
      | int n =>
        left
        unfold setListBack
        rw [hg]
        exact hg
      | str s2 =>
        left
        unfold setListBack
        rw [hg]
        exact hg
      | obj g =>
        left
        unfold setListBack
        rw [hg]
        exact hg

/-- `strip_all_secret_variables` relates input and output by `EntityRel`:
all changes are confined to the leaf-level secret locations. -/
theorem strip_all_rel (dec : Decompiled) (pl : JPath) (obj : JValue) (st : SSt)
    (v' : JValue) (st' : SSt)
    (h : strip_all_secret_variables dec pl obj st = some (v', st')) :
    ∃ fs fs', obj = .obj fs ∧ v' = .obj fs' ∧ EntityRel fs fs' := by
  unfold strip_all_secret_variables at h
  simp only [Option.bind_eq_bind] at h
  rw [Option.bind_eq_some] at h
  obtain ⟨fs, hfs, h⟩ := h
  rw [Option.bind_eq_some] at h
  obtain ⟨s0, hs0, h⟩ := h
  rw [Option.bind_eq_some] at h
  obtain ⟨⟨fs1, st1⟩, h1, h⟩ := h
  rw [Option.bind_eq_some] at h
  obtain ⟨⟨fs2, st2⟩, h2, h⟩ := h
  rw [Option.bind_eq_some] at h
  obtain ⟨⟨fs3, st3⟩, h3, h⟩ := h
  rw [Option.bind_eq_some] at h
  obtain ⟨⟨fs4, st4⟩, h4, h⟩ := h
  simp only [Option.pure_def, Option.some.injEq, Prod.mk.injEq] at h
  obtain ⟨hv, hst⟩ := h
  obtain ⟨d1, a1⟩ := strip_entity_rel _ _ _ _ _ _ _ _ h1
  obtain ⟨d2, a2⟩ := strip_action_rel _ _ _ _ _ _ h2
  obtain ⟨d3, a3⟩ := strip_runbook_rel _ _ _ _ _ _ h3
  obtain ⟨d4, a4⟩ := strip_auth_rel _ _ _ _ _ _ _ h4
  refine ⟨fs, fs4, asObj_eq hfs, hv.symm, ?_⟩
  have e1 : EntityRel fs fs1 :=
    ⟨diffKeys_mono (fun k hk => by simp at hk ⊢; exact hk.1) d1, a1,
     Or.inl (d1 "action_list" (by decide)),
     Or.inl (d1 "task_definition_list" (by decide)),
     Or.inl (d1 "authentication" (by decide))⟩
  have e2 : EntityRel fs1 fs2 :=
    ⟨diffKeys_mono (fun k hk => by simp at hk ⊢; exact hk.2.1) d2,
     Or.inl (d2 "variable_list" (by decide)), a2,
     Or.inl (d2 "task_definition_list" (by decide)),
     Or.inl (d2 "authentication" (by decide))⟩
  have e3 : EntityRel fs2 fs3 :=
    ⟨diffKeys_mono (fun k hk => by simp at hk ⊢; exact hk.2.2.1) d3,
     Or.inl (d3 "variable_list" (by decide)),
     Or.inl (d3 "action_list" (by decide)), a3,
     Or.inl (d3 "authentication" (by decide))⟩
  have e4 : EntityRel fs3 fs4 :=
    ⟨diffKeys_mono (fun k hk => by simp at hk ⊢; exact hk.2.2.2) d4,
     Or.inl (d4 "variable_list" (by decide)),
     Or.inl (d4 "action_list" (by decide)),
     Or.inl (d4 "task_definition_list" (by decide)), a4⟩
  exact entityRel_trans _ _ _ (entityRel_trans _ _ _ (entityRel_trans _ _ _ e1 e2) e3) e4

/-- The per-object-list loop is elementwise `EntityRel`. -/
theorem stripObjListLoop_rel (dec : Decompiled) (ol : String) :
    ∀ (xs : List JValue) (idx : Nat) (st : SSt) (xs' : List JValue) (st' : SSt),
      stripObjListLoop dec ol xs idx st = some (xs', st') →
      xs'.length = xs.length ∧
      ∀ i, i < xs.length → ∃ fs fs', xs[i]? = some (.obj fs) ∧
        xs'[i]? = some (.obj fs') ∧ EntityRel fs fs' := by
  intro xs
  induction xs with
  | nil =>
    intro idx st xs' st' h
    simp only [stripObjListLoop, Option.some.injEq, Prod.mk.injEq] at h
    obtain ⟨h1, h2⟩ := h
    rw [← h1]
    exact ⟨rfl, fun i hi => absurd hi (by simp)⟩
  | cons o os ih =>
    intro idx st xs' st' h
    unfold stripObjListLoop at h
    simp only [Option.bind_eq_bind] at h
    rw [Option.bind_eq_some] at h
    obtain ⟨⟨o', st1⟩, h1, h⟩ := h
    rw [Option.bind_eq_some] at h
    obtain ⟨⟨os', st2⟩, h2, h⟩ := h
    simp only [Option.pure_def, Option.some.injEq, Prod.mk.injEq] at h
    obtain ⟨hl, hr⟩ := h
    obtain ⟨hlen, hspec⟩ := ih (idx + 1) st1 os' st2 h2
    obtain ⟨fs, fs', hc, hc', hrel⟩ := strip_all_rel dec [.key ol, .idx idx] o st o' st1 h1
    rw [← hl]
    refine ⟨by simp [hlen], ?_⟩
    intro i hi
    cases i with
    | zero => exact ⟨fs, fs', by simp [hc], by simp [hc'], hrel⟩
    | succ n =>
      obtain ⟨gs, gs', hg, hg', hrel'⟩ := hspec n (by simpa using hi)
      exact ⟨gs, gs', by simpa using hg, by simpa using hg', hrel'⟩

/-- The object-lists stage, with elementwise `EntityRel` entries. -/
theorem stripObjectLists_rel (dec : Decompiled) :
    ∀ (ols : List String) (res : JDict) (st : SSt) (res' : JDict) (st' : SSt),
      stripObjectLists dec ols res st = some (res', st') →
      (∀ k, k ∉ ols → dictGet res' k = dictGet res k) ∧
      (ols.Nodup → ∀ ol ∈ ols, ∀ xs, dictGet res ol = some (.arr xs) →
        ∃ xs', dictGet res' ol = some (.arr xs') ∧ xs'.length = xs.length ∧
          ∀ i, i < xs.length → ∃ fs fs', xs[i]? = some (.obj fs) ∧
            xs'[i]? = some (.obj fs') ∧ EntityRel fs fs') := by
  intro ols
  induction ols with
  | nil =>
    intro res st res' st' h
    simp only [stripObjectLists, Option.some.injEq, Prod.mk.injEq] at h
    obtain ⟨h1, h2⟩ := h
    rw [← h1]
    exact ⟨fun k _ => rfl, fun _ ol hm => absurd hm (by simp)⟩
  | cons ol ols ih =>
    intro res st res' st' h
    unfold stripObjectLists at h
    simp only [Option.bind_eq_bind] at h
    rw [Option.bind_eq_some] at h
    obtain ⟨items, hitems, h⟩ := h
    rw [Option.bind_eq_some] at h
    obtain ⟨⟨items', st1⟩, hloop, h⟩ := h
    obtain ⟨ihf, ihm⟩ := ih (setListBack res ol items') st1 res' st' h
    constructor
    · intro k hk
      have hk1 : k ≠ ol := fun he => hk (he ▸ List.mem_cons_self ol ols)
      have hk2 : k ∉ ols := fun hm => hk (List.mem_cons_of_mem _ hm)
      rw [ihf k hk2, setListBack_get_ne res ol k items' hk1]
    · intro hnd ol0 hmem xs hxs
      rw [List.nodup_cons] at hnd
      obtain ⟨hnotin, hnd'⟩ := hnd
      rcases List.mem_cons.mp hmem with he | hm
      · subst he
        have hix : items = xs := by
          rw [getListOr_arr _ _ _ hxs] at hitems
          exact (Option.some.inj hitems).symm
        subst hix
        obtain ⟨hlen, hspec⟩ := stripObjListLoop_rel dec ol0 items 0 st items' st1 hloop
        have hre : dictGet (setListBack res ol0 items') ol0 = some (.arr items') :=
          setListBack_get_self res ol0 items' items hxs
        refine ⟨items', ?_, hlen, hspec⟩
        rw [ihf ol0 hnotin, hre]
      · have hne : ol0 ≠ ol := fun he => hnotin (he ▸ hm)
        have hxs1 : dictGet (setListBack res ol items') ol0 = some (.arr xs) := by
          rw [setListBack_get_ne res ol ol0 items' hne]
          exact hxs
        exact ihm hnd' ol0 hm xs hxs1

/-- The objects stage, with `EntityRel` per processed object. -/
theorem stripObjects_rel (dec : Decompiled) :
    ∀ (objs : List String) (res : JDict) (st : SSt) (res' : JDict) (st' : SSt),
      stripObjects dec objs res st = some (res', st') →
      (∀ k, k ∉ objs → dictGet res' k = dictGet res k) ∧
      (objs.Nodup → ∀ o ∈ objs, ∀ g, dictGet res o = some (.obj g) →
        ∃ g', dictGet res' o = some (.obj g') ∧ EntityRel g g') := by
  intro objs
  induction objs with
  | nil =>
    intro res st res' st' h
    simp only [stripObjects, Option.some.injEq, Prod.mk.injEq] at h
    obtain ⟨h1, h2⟩ := h
    rw [← h1]
    exact ⟨fun k _ => rfl, fun _ o hm => absurd hm (by simp)⟩
  | cons o os ih =>
    intro res st res' st' h
    unfold stripObjects at h
    cases hro : dictGet res o with
    | some v =>
      rw [hro] at h
      simp only [Option.bind_eq_bind] at h
      rw [Option.bind_eq_some] at h
      obtain ⟨⟨v2, st1⟩, hsa, h⟩ := h
      obtain ⟨ihf, ihm⟩ := ih (dictSet res o v2) st1 res' st' h
      constructor
      · intro k hk
        have hk1 : k ≠ o := fun he => hk (he ▸ List.mem_cons_self o os)
        have hk2 : k ∉ os := fun hm => hk (List.mem_cons_of_mem _ hm)
        rw [ihf k hk2, dictGet_dictSet_ne _ _ _ _ hk1]
      · intro hnd o0 hmem g hg
        rw [List.nodup_cons] at hnd
        obtain ⟨hnotin, hnd'⟩ := hnd
        rcases List.mem_cons.mp hmem with he | hm
        · subst he
          obtain ⟨fs, fs', hv, hv2, hrel⟩ := strip_all_rel dec [.key o0] v st v2 st1 hsa
          have hfg : fs = g := by
            rw [hro, hv] at hg
            exact JValue.obj.inj (Option.some.inj hg)
          refine ⟨fs', ?_, hfg ▸ hrel⟩
          rw [ihf o0 hnotin, dictGet_dictSet_self, hv2]
        · have hne : o0 ≠ o := fun he => hnotin (he ▸ hm)
          have hg1 : dictGet (dictSet res o v2) o0 = some (.obj g) := by
            rw [dictGet_dictSet_ne _ _ _ _ hne]
            exact hg
          exact ihm hnd' o0 hm g hg1
    | none =>
      rw [hro] at h
      simp only [Option.bind_eq_bind] at h
      rw [Option.bind_eq_some] at h
      obtain ⟨⟨vdump, st1⟩, hsa, h⟩ := h
      obtain ⟨ihf, ihm⟩ := ih res st1 res' st' h
      constructor
      · intro k hk
        exact ihf k (fun hm => hk (List.mem_cons_of_mem _ hm))
      · intro hnd o0 hmem g hg
        rw [List.nodup_cons] at hnd
        obtain ⟨hnotin, hnd'⟩ := hnd
        rcases List.mem_cons.mp hmem with he | hm
        · subst he
          rw [hro] at hg
          exact Option.noConfusion hg
        · exact ihm hnd' o0 hm g hg

/-- C4: leaf-level frame property of strip_secrets.  Under the natural
disjointness of the argument lists, the call changes the resources document
only at the known secret-bearing leaf paths: top-level keys other than
credential_definition_list, authentication and the listed object lists /
objects keep their values; each credential changes at most at its `secret`
field; the top-level authentication dict changes at most at its `password`;
and each processed object-list entry / object is related to its original by
`EntityRel` - its variable_list / headers / inarg_list entries keep
everything except the `value`/`attrs` of SECRET-typed entries and the
nested `options.attrs.authentication.basic_auth.password`, its actions
change only inside their runbook's variable_list and task attrs, its
runbook tasks change only at their attrs' authentication password
(`basic_auth.password` for action HTTP tasks), header and inarg_list
secrets, and its authentication dict changes only at `password`. -/
theorem claim_C4_frame (res : JValue) (smap : JMap)
    (svars : List (JPath × JValue × JValue)) (ols objs : List String)
    (dec : Decompiled) (nstrip : List (JPath × JValue))
    (res' : JValue) (st' : SSt)
    (h : strip_secrets res smap svars ols objs dec nstrip = some (res', st'))
    (hnol : ols.Nodup) (hnobj : objs.Nodup)
    (hdisj : ∀ o, o ∈ objs → o ∉ ols)
    (hcol : "credential_definition_list" ∉ ols)
    (hcobj : "credential_definition_list" ∉ objs)
    (haol : "authentication" ∉ ols)
    (haobj : "authentication" ∉ objs) :
    ∃ resD resD', res = .obj resD ∧ res' = .obj resD' ∧
      (∀ k, k ∉ ols → k ∉ objs → k ≠ "credential_definition_list" →
        k ≠ "authentication" → dictGet resD' k = dictGet resD k) ∧
      (∀ ol ∈ ols, ∀ xs, dictGet resD ol = some (.arr xs) →
        ∃ xs', dictGet resD' ol = some (.arr xs') ∧ xs'.length = xs.length ∧
          ∀ i, i < xs.length → ∃ fs fs', xs[i]? = some (.obj fs) ∧
            xs'[i]? = some (.obj fs') ∧ EntityRel fs fs') ∧
      (∀ o ∈ objs, ∀ g, dictGet resD o = some (.obj g) →
        ∃ g', dictGet resD' o = some (.obj g') ∧ EntityRel g g') ∧
      (∀ cs, dictGet resD "credential_definition_list" = some (.arr cs) →
        ∃ cs', dictGet resD' "credential_definition_list" = some (.arr cs') ∧
          cs'.length = cs.length ∧
          ∀ i, i < cs.length → ∃ fs fs', cs[i]? = some (.obj fs) ∧
            cs'[i]? = some (.obj fs') ∧
            ∀ k, k ≠ "secret" → dictGet fs' k = dictGet fs k) ∧
      (∀ g, dictGet resD "authentication" = some (.obj g) →
        ∃ g', dictGet resD' "authentication" = some (.obj g') ∧
          ∀ k, k ≠ "password" → dictGet g' k = dictGet g k) := by
  unfold strip_secrets at h
  simp only [Option.bind_eq_bind] at h
  rw [Option.bind_eq_some] at h
  obtain ⟨resD, hres, h⟩ := h
  rw [Option.bind_eq_some] at h
  obtain ⟨creds, hcreds, h⟩ := h
  rw [Option.bind_eq_some] at h
  obtain ⟨⟨creds', st1⟩, hcl, h⟩ := h
  rw [Option.bind_eq_some] at h
  obtain ⟨⟨res2, st2⟩, hast, h⟩ := h
  rw [Option.bind_eq_some] at h
  obtain ⟨⟨res3, st3⟩, holst, h⟩ := h
  rw [Option.bind_eq_some] at h
  obtain ⟨⟨res4, st4⟩, hobst, h⟩ := h
  simp only [Option.pure_def, Option.some.injEq, Prod.mk.injEq] at h
  obtain ⟨hres', hst'⟩ := h
  obtain ⟨haf, ham⟩ := stripAuthStage_spec dec
    (setListBack resD "credential_definition_list" creds') st1 res2 st2 hast
  obtain ⟨holf, holm⟩ := stripObjectLists_rel dec ols res2 st2 res3 st3 holst
  obtain ⟨hobf, hobm⟩ := stripObjects_rel dec objs res3 st3 res4 st4 hobst
  refine ⟨resD, res4, asObj_eq hres, hres'.symm, ?_, ?_, ?_, ?_, ?_⟩
  · intro k hk1 hk2 hk3 hk4
    rw [hobf k hk2, holf k hk1, haf k hk4, setListBack_get_ne _ _ _ _ hk3]
  · intro ol hol xs hxs
    have hne1 : ol ≠ "credential_definition_list" := fun he => hcol (he ▸ hol)
    have hne2 : ol ≠ "authentication" := fun he => haol (he ▸ hol)
    have hx2 : dictGet res2 ol = some (.arr xs) := by
      rw [haf ol hne2, setListBack_get_ne _ _ _ _ hne1]
      exact hxs
    obtain ⟨xs', hx3, hlen, hspec⟩ := holm hnol ol hol xs hx2
    have hnobjol : ol ∉ objs := fun hmo => hdisj ol hmo hol
    refine ⟨xs', ?_, hlen, hspec⟩
    rw [hobf ol hnobjol]
    exact hx3
  · intro o ho g hg
    have hne1 : o ≠ "credential_definition_list" := fun he => hcobj (he ▸ ho)
    have hne2 : o ≠ "authentication" := fun he => haobj (he ▸ ho)
    have hnoto : o ∉ ols := hdisj o ho
    have hg3 : dictGet res3 o = some (.obj g) := by
      rw [holf o hnoto, haf o hne2, setListBack_get_ne _ _ _ _ hne1]
      exact hg
    exact hobm hnobj o ho g hg3
  · intro cs hcs
    have hic : creds = cs := by
      rw [getListOr_arr _ _ _ hcs] at hcreds
      exact (Option.some.inj hcreds).symm
    subst hic
    obtain ⟨hlen, hspec⟩ := stripCredsLoop_spec _ creds ⟨smap, svars, nstrip⟩ creds' st1 hcl
    have h1 : dictGet (setListBack resD "credential_definition_list" creds')
        "credential_definition_list" = some (.arr creds') :=
      setListBack_get_self _ _ _ _ hcs
    refine ⟨creds', ?_, hlen, hspec⟩
    rw [hobf _ hcobj, holf _ hcol, haf _ (by decide), h1]
  · intro g hg
    have hg1 : dictGet (setListBack resD "credential_definition_list" creds')
        "authentication" = some (.obj g) := by
      rw [setListBack_get_ne _ _ _ _ (by decide)]
      exact hg
    obtain ⟨g', hg2, hfr⟩ := ham g hg1
    refine ⟨g', ?_, hfr⟩
    rw [hobf _ haobj, holf _ haol]
    exact hg2

def c4res : JValue := .obj [
  ("other", .str "keep"),
  ("credential_definition_list", .arr [.obj [("name", .str "c"),
    ("secret", .obj [("value", .str "s")])]]),
  ("authentication", .obj [("type", .str "basic"), ("username", .str "u"),
    ("password", .str "pw")]),
  ("service_definition_list", .arr [.obj [("name", .str "S"), ("extra", .str "e"),
    ("variable_list", .arr [.obj [("name", .str "v"), ("type", .str "SECRET"),
      ("value", .str "pv")]]),
    ("action_list", .arr [.obj [("name", .str "act"), ("kind", .str "a"),
      ("runbook", .obj [("name", .str "rb"), ("note", .str "n"),
        ("variable_list", .arr [.obj [("name", .str "rv"), ("type", .str "LOCAL"),
          ("value", .str "lv")]]),
        ("task_definition_list", .arr [.obj [("name", .str "t1"),
          ("type", .str "HTTP"), ("script", .str "sc"),
          ("attrs", .obj [("url", .str "http"),
            ("authentication", .obj [("auth_type", .str "basic"),
              ("basic_auth", .obj [("username", .str "bu"),
                ("password", .obj [("value", .str "bp")])])])])]])])]])]]),
  ("substrate_definition_list", .obj [("name", .str "Sub"), ("field", .str "f")])]

def c4stripped : JValue := .obj [
  ("other", .str "keep"),
  ("credential_definition_list", .arr [.obj [("name", .str "c"),
    ("secret", credSecretPlaceholder)]]),
  ("authentication", .obj [("type", .str "basic"), ("username", .str "u"),
    ("password", endpointPwdPlaceholder)]),
  ("service_definition_list", .arr [.obj [("name", .str "S"), ("extra", .str "e"),
    ("variable_list", .arr [.obj [("name", .str "v"), ("type", .str "SECRET"),
      ("attrs", varAttrsPlaceholder)]]),
    ("action_list", .arr [.obj [("name", .str "act"), ("kind", .str "a"),
      ("runbook", .obj [("name", .str "rb"), ("note", .str "n"),
        ("variable_list", .arr [.obj [("name", .str "rv"), ("type", .str "LOCAL"),
          ("value", .str "lv")]]),
        ("task_definition_list", .arr [.obj [("name", .str "t1"),
          ("type", .str "HTTP"), ("script", .str "sc"),
          ("attrs", .obj [("url", .str "http"),
            ("authentication", .obj [("auth_type", .str "basic"),
              ("basic_auth", .obj [("username", .str "bu"),
                ("password", taskPwdPlaceholder)])])])]])])]])]]),
  ("substrate_definition_list", .obj [("name", .str "Sub"), ("field", .str "f")])]

def c4st : SSt :=
  ⟨[(.str "c", .obj [("value", .str "s")]), (.str "u", .str "pw")],
   [([.key "service_definition_list", .idx 0, .key "variable_list", .idx 0],
     .str "pv", .str "v"),
    ([.key "service_definition_list", .idx 0, .key "action_list", .idx 0,
      .key "runbook", .key "task_definition_list", .idx 0, .key "attrs",
      .key "authentication", .key "basic_auth", .key "password"],
     .str "bp", .str "bu")], []⟩

/-- C4 witness: the frame theorem applied to a concrete document carrying a
credential, an endpoint authentication, a service (object list) with a
SECRET variable, a LOCAL variable, and an action runbook with an HTTP
basic-auth task, and a substrate (object), plus an unrelated top-level key. -/
theorem claim_C4_witness :
    ∃ resD resD', c4res = .obj resD ∧ c4stripped = .obj resD' ∧
      (∀ k, k ∉ ["service_definition_list"] → k ∉ ["substrate_definition_list"] →
        k ≠ "credential_definition_list" →
        k ≠ "authentication" → dictGet resD' k = dictGet resD k) ∧
      (∀ ol ∈ ["service_definition_list"], ∀ xs, dictGet resD ol = some (.arr xs) →
        ∃ xs', dictGet resD' ol = some (.arr xs') ∧ xs'.length = xs.length ∧
          ∀ i, i < xs.length → ∃ fs fs', xs[i]? = some (.obj fs) ∧
            xs'[i]? = some (.obj fs') ∧ EntityRel fs fs') ∧
      (∀ o ∈ ["substrate_definition_list"], ∀ g, dictGet resD o = some (.obj g) →
        ∃ g', dictGet resD' o = some (.obj g') ∧ EntityRel g g') ∧
      (∀ cs, dictGet resD "credential_definition_list" = some (.arr cs) →
        ∃ cs', dictGet resD' "credential_definition_list" = some (.arr cs') ∧
          cs'.length = cs.length ∧
          ∀ i, i < cs.length → ∃ fs fs', cs[i]? = some (.obj fs) ∧
            cs'[i]? = some (.obj fs') ∧
            ∀ k, k ≠ "secret" → dictGet fs' k = dictGet fs k) ∧
      (∀ g, dictGet resD "authentication" = some (.obj g) →
        ∃ g', dictGet resD' "authentication" = some (.obj g') ∧
          ∀ k, k ≠ "password" → dictGet g' k = dictGet g k) :=
  claim_C4_frame c4res [] [] ["service_definition_list"]
    ["substrate_definition_list"] [] [] c4stripped c4st (by decide) (by decide)
    (by decide) (by decide) (by decide) (by decide) (by decide) (by decide)
